import Mathlib

/-!
# ReflectionAndTexturing: planar mirror camera and quad tessellation

A shallow embedding of `src/main.cpp`.

Modelling conventions.
* `float` and `double` values are modelled by exact rationals (`ℚ`); unless a
  statement says otherwise it is about the exact arithmetic the program's
  formulas denote.
* Where rounding decides a claim, the code is embedded a second time with every
  operation rounded as IEEE 754 prescribes (round to nearest, ties to even):
  `SubdivideAndDrawQuadF32` in binary32 and `MySpecialKeyF64` in binary64.
* `int` loop counters are natural numbers drawn from `List.range`; the `int`
  step counts are integers, so that non-positive counts are representable.
* Calls into OpenGL (`glFrustum`, `gluLookAt`, `glTexCoord2fv`, `glVertex3fv`)
  are modelled by their arguments; where a claim needs their meaning, the
  matrices of the OpenGL reference pages are used.
* The eye position of `MyDisplay` is real-valued: `sin` and `cos` are the exact
  real functions and the macro `PI` is read as the number π.
* The input callbacks are functions on the record of globals they touch; the
  `exit(0)` of the quit key is the result `none`.
-/

namespace ReflectionAndTexturing

/-! ## Constants (`#define`s of `main.cpp`) -/

/-- The constant `SCENE_RADIUS 6.0`. -/
def SCENE_RADIUS : ℚ := 6
/-- The constant `TABLETOP_X1 -1.0`. -/
def TABLETOP_X1 : ℚ := -1
/-- The constant `TABLETOP_X2 1.0`. -/
def TABLETOP_X2 : ℚ := 1
/-- The constant `TABLETOP_Y1 -1.5`. -/
def TABLETOP_Y1 : ℚ := -3 / 2
/-- The constant `TABLETOP_Y2 1.5`. -/
def TABLETOP_Y2 : ℚ := 3 / 2
/-- The constant `TABLETOP_Z 1.2`. -/
def TABLETOP_Z : ℚ := 6 / 5

/-! ## Vectors -/

/-- Three-component array (`double eyePos[3]`, `float v0[3]`, ...). -/
structure Vec3 where
  x : ℚ
  y : ℚ
  z : ℚ
deriving DecidableEq

/-! ## MakeReflectionImage: the arguments it hands to OpenGL -/

/-- The six arguments of a `glFrustum` call. -/
structure FrustumArgs where
  left : ℚ
  right : ℚ
  bottom : ℚ
  top : ℚ
  nearVal : ℚ
  farVal : ℚ
deriving DecidableEq

/-- The nine arguments of a `gluLookAt` call, grouped as three vectors. -/
structure LookAtArgs where
  eye : Vec3
  center : Vec3
  up : Vec3
deriving DecidableEq

/-- The `glFrustum(...)` call of `MakeReflectionImage` (main.cpp line 160),
as a function of the global `eyePos`. -/
def MakeReflectionImage_glFrustum (eyePos : Vec3) : FrustumArgs :=
  { left := TABLETOP_Y1 - eyePos.y
    right := TABLETOP_Y2 - eyePos.y
    bottom := TABLETOP_X1 - eyePos.x
    top := TABLETOP_X2 - eyePos.x
    nearVal := eyePos.z - TABLETOP_Z
    farVal := eyePos.z + SCENE_RADIUS }

/-- The `gluLookAt(...)` call of `MakeReflectionImage` (main.cpp line 166),
as a function of the global `eyePos`. -/
def MakeReflectionImage_gluLookAt (eyePos : Vec3) : LookAtArgs :=
  { eye := ⟨eyePos.x, eyePos.y, 2 * TABLETOP_Z - eyePos.z⟩
    center := ⟨eyePos.x, eyePos.y, eyePos.z⟩
    up := ⟨1, 0, 0⟩ }

/-! ## SubdivideAndDrawQuad -/

/-- The twenty `float` parameters of `SubdivideAndDrawQuad` that describe the
input quad: corner `k` has texture coordinates `(sk, tk)` and position
`(xk, yk, zk)`. -/
structure QuadArgs where
  s0 : ℚ
  t0 : ℚ
  x0 : ℚ
  y0 : ℚ
  z0 : ℚ
  s1 : ℚ
  t1 : ℚ
  x1 : ℚ
  y1 : ℚ
  z1 : ℚ
  s2 : ℚ
  t2 : ℚ
  x2 : ℚ
  y2 : ℚ
  z2 : ℚ
  s3 : ℚ
  t3 : ℚ
  x3 : ℚ
  y3 : ℚ
  z3 : ℚ
deriving DecidableEq

/-- One `glTexCoord2fv( tc ); glVertex3fv( pos );` pair.  `tc` is the whole
three-component array handed to `glTexCoord2fv`, which reads its first two
entries. -/
structure Emitted where
  tc : Vec3
  pos : Vec3
deriving DecidableEq

/-- The per-component statement `R[i] = P[i] + w * ( Q[i] - P[i] )` run for
`i = 0, 1, 2` (the `for ( int i = 0; i < 3; i++ )` loops). -/
def blend (P Q : Vec3) (w : ℚ) : Vec3 :=
  ⟨P.x + w * (Q.x - P.x), P.y + w * (Q.y - P.y), P.z + w * (Q.z - P.z)⟩

/-- Body of the inner loop `for ( int v = 0; v < vSteps; v++ )`: the four
texcoord/vertex pairs emitted for one cell, in the order E, F, H, G. -/
def innerBody (vSteps : ℤ) (Atc Btc Ctc Dtc Av Bv Cv Dv : Vec3) (v : ℕ) : List Emitted :=
  let vv : ℚ := (v : ℚ) / (vSteps : ℚ)
  let vv1 : ℚ := ((v + 1 : ℕ) : ℚ) / (vSteps : ℚ)
  let Etc := blend Atc Btc vv
  let Ftc := blend Ctc Dtc vv
  let Gtc := blend Atc Btc vv1
  let Htc := blend Ctc Dtc vv1
  let Ev := blend Av Bv vv
  let Fv := blend Cv Dv vv
  let Gv := blend Av Bv vv1
  let Hv := blend Cv Dv vv1
  [⟨Etc, Ev⟩, ⟨Ftc, Fv⟩, ⟨Htc, Hv⟩, ⟨Gtc, Gv⟩]

/-- Body of the outer loop `for ( int u = 0; u < uSteps; u++ )`. -/
def outerBody (uSteps vSteps : ℤ) (tc0 tc1 tc2 tc3 v0 v1 v2 v3 : Vec3) (u : ℕ) :
    List Emitted :=
  let uu : ℚ := (u : ℚ) / (uSteps : ℚ)
  let uu1 : ℚ := ((u + 1 : ℕ) : ℚ) / (uSteps : ℚ)
  let Atc := blend tc0 tc1 uu
  let Btc := blend tc3 tc2 uu
  let Ctc := blend tc0 tc1 uu1
  let Dtc := blend tc3 tc2 uu1
  let Av := blend v0 v1 uu
  let Bv := blend v3 v2 uu
  let Cv := blend v0 v1 uu1
  let Dv := blend v3 v2 uu1
  (List.range vSteps.toNat).flatMap (innerBody vSteps Atc Btc Ctc Dtc Av Bv Cv Dv)

/-- The routine `SubdivideAndDrawQuad` (main.cpp lines 742-801): the sequence of
texcoord/vertex pairs issued between `glBegin( GL_QUADS )` and `glEnd()`. -/
def SubdivideAndDrawQuad (uSteps vSteps : ℤ) (q : QuadArgs) : List Emitted :=
  let tc0 : Vec3 := ⟨q.s0, q.t0, 0⟩
  let v0 : Vec3 := ⟨q.x0, q.y0, q.z0⟩
  let tc1 : Vec3 := ⟨q.s1, q.t1, 0⟩
  let v1 : Vec3 := ⟨q.x1, q.y1, q.z1⟩
  let tc2 : Vec3 := ⟨q.s2, q.t2, 0⟩
  let v2 : Vec3 := ⟨q.x2, q.y2, q.z2⟩
  let tc3 : Vec3 := ⟨q.s3, q.t3, 0⟩
  let v3 : Vec3 := ⟨q.x3, q.y3, q.z3⟩
  (List.range uSteps.toNat).flatMap (outerBody uSteps vSteps tc0 tc1 tc2 tc3 v0 v1 v2 v3)

/-- Assembly of `GL_QUADS`: consecutive groups of four emitted vertices form the
quads; the `k`-th quad (0-based) is entries `4k .. 4k+3` of the stream. -/
def quadAt (out : List Emitted) (k : ℕ) : List Emitted :=
  (out.drop (4 * k)).take 4

/-- The texture coordinate `glTexCoord2fv` reads from its array argument. -/
def texCoord2 (e : Emitted) : ℚ × ℚ := (e.tc.x, e.tc.y)

/-- Input corner `k` as a texcoord/vertex pair (`tck`, `vk` of the source). -/
def corner0 (q : QuadArgs) : Emitted := ⟨⟨q.s0, q.t0, 0⟩, ⟨q.x0, q.y0, q.z0⟩⟩
/-- Input corner 1. -/
def corner1 (q : QuadArgs) : Emitted := ⟨⟨q.s1, q.t1, 0⟩, ⟨q.x1, q.y1, q.z1⟩⟩
/-- Input corner 2. -/
def corner2 (q : QuadArgs) : Emitted := ⟨⟨q.s2, q.t2, 0⟩, ⟨q.x2, q.y2, q.z2⟩⟩
/-- Input corner 3. -/
def corner3 (q : QuadArgs) : Emitted := ⟨⟨q.s3, q.t3, 0⟩, ⟨q.x3, q.y3, q.z3⟩⟩

/-- The four pairs the loop bodies emit for grid cell `(i, j)`. -/
def cellOutput (uSteps vSteps : ℤ) (q : QuadArgs) (i j : ℕ) : List Emitted :=
  let uu : ℚ := (i : ℚ) / (uSteps : ℚ)
  let uu1 : ℚ := ((i + 1 : ℕ) : ℚ) / (uSteps : ℚ)
  innerBody vSteps
    (blend (corner0 q).tc (corner1 q).tc uu) (blend (corner3 q).tc (corner2 q).tc uu)
    (blend (corner0 q).tc (corner1 q).tc uu1) (blend (corner3 q).tc (corner2 q).tc uu1)
    (blend (corner0 q).pos (corner1 q).pos uu) (blend (corner3 q).pos (corner2 q).pos uu)
    (blend (corner0 q).pos (corner1 q).pos uu1) (blend (corner3 q).pos (corner2 q).pos uu1)
    j

/-- The tabletop call of `DrawTable` (main.cpp lines 973-976): its quad. -/
def tabletopQuad : QuadArgs :=
  { s0 := 0, t0 := 0, x0 := TABLETOP_X1, y0 := TABLETOP_Y1, z0 := TABLETOP_Z
    s1 := 0, t1 := 1, x1 := TABLETOP_X2, y1 := TABLETOP_Y1, z1 := TABLETOP_Z
    s2 := 1, t2 := 1, x2 := TABLETOP_X2, y2 := TABLETOP_Y2, z2 := TABLETOP_Z
    s3 := 1, t3 := 0, x3 := TABLETOP_X1, y3 := TABLETOP_Y2, z3 := TABLETOP_Z }

/-- The tabletop call of `DrawTable`: `SubdivideAndDrawQuad( 24, 24, ... )`. -/
def DrawTable_tabletop : List Emitted := SubdivideAndDrawQuad 24 24 tabletopQuad

/-! ## The OpenGL camera the arguments describe

`gluLookAt` and `glFrustum` are library routines; they are modelled after the
GLU implementation and the OpenGL reference pages.  Square roots are taken
with `Rat.sqrt`, which is exact on squares of rationals; the vectors the mirror
camera normalises are axis-aligned, so only such values occur. -/

/-- Componentwise difference. -/
def vsub (a b : Vec3) : Vec3 := ⟨a.x - b.x, a.y - b.y, a.z - b.z⟩

/-- Dot product. -/
def dot (a b : Vec3) : ℚ := a.x * b.x + a.y * b.y + a.z * b.z

/-- Cross product. -/
def cross (a b : Vec3) : Vec3 :=
  ⟨a.y * b.z - a.z * b.y, a.z * b.x - a.x * b.z, a.x * b.y - a.y * b.x⟩

/-- Euclidean length. -/
def vlength (a : Vec3) : ℚ := Rat.sqrt (a.x * a.x + a.y * a.y + a.z * a.z)

/-- GLU's `normalize`: a zero-length vector is left alone. -/
def normalize (a : Vec3) : Vec3 :=
  let r := vlength a
  if r = 0 then a else ⟨a.x / r, a.y / r, a.z / r⟩

/-- The viewing frame `gluLookAt` installs: the eye point and the orthonormal
side, up and forward directions. -/
structure ViewFrame where
  eye : Vec3
  side : Vec3
  up : Vec3
  forward : Vec3
deriving DecidableEq

/-- The routine `gluLookAt`: forward is the normalised direction eye → center, side is
forward × up normalised, and up is recomputed as side × forward. -/
def gluLookAt (a : LookAtArgs) : ViewFrame :=
  let forward := normalize (vsub a.center a.eye)
  let side := normalize (cross forward a.up)
  let up := cross side forward
  { eye := a.eye, side := side, up := up, forward := forward }

/-- World coordinates to eye coordinates under a viewing frame (the matrix
with rows side, up, -forward applied after translating by `-eye`). -/
def worldToEye (M : ViewFrame) (p : Vec3) : Vec3 :=
  let d := vsub p M.eye
  ⟨dot M.side d, dot M.up d, -dot M.forward d⟩

/-- Eye coordinates back to world coordinates: the point
`eye + x side + y up - z forward`. -/
def eyeToWorld (M : ViewFrame) (e : Vec3) : Vec3 :=
  ⟨M.eye.x + e.x * M.side.x + e.y * M.up.x - e.z * M.forward.x,
   M.eye.y + e.x * M.side.y + e.y * M.up.y - e.z * M.forward.y,
   M.eye.z + e.x * M.side.z + e.y * M.up.z - e.z * M.forward.z⟩

/-- Homogeneous clip coordinates. -/
structure Vec4 where
  x : ℚ
  y : ℚ
  z : ℚ
  w : ℚ
deriving DecidableEq

/-- The arguments `glFrustum` accepts; otherwise it raises `GL_INVALID_VALUE`
and leaves the current matrix untouched. -/
def frustumValid (a : FrustumArgs) : Prop :=
  0 < a.nearVal ∧ 0 < a.farVal ∧ a.left ≠ a.right ∧ a.bottom ≠ a.top ∧ a.nearVal ≠ a.farVal

instance (a : FrustumArgs) : Decidable (frustumValid a) := by
  unfold frustumValid
  infer_instance

/-- The projection in force after `glLoadIdentity(); glFrustum(a)`, applied to
a point in eye coordinates: the perspective matrix of `glFrustum`, or the
identity when the call is rejected. -/
def glFrustum (a : FrustumArgs) (e : Vec3) : Vec4 :=
  if frustumValid a then
    ⟨2 * a.nearVal / (a.right - a.left) * e.x + (a.right + a.left) / (a.right - a.left) * e.z,
     2 * a.nearVal / (a.top - a.bottom) * e.y + (a.top + a.bottom) / (a.top - a.bottom) * e.z,
     -(a.farVal + a.nearVal) / (a.farVal - a.nearVal) * e.z
       - 2 * a.farVal * a.nearVal / (a.farVal - a.nearVal),
     -e.z⟩
  else ⟨e.x, e.y, e.z, 1⟩

/-- Perspective divide: clip coordinates to normalised device coordinates. -/
def perspectiveDivide (c : Vec4) : Vec3 := ⟨c.x / c.w, c.y / c.w, c.z / c.w⟩

/-- Normalised device coordinates of a world point under the mirror camera set
up by `MakeReflectionImage` for the given `eyePos`. -/
def mirrorNDC (eyePos p : Vec3) : Vec3 :=
  perspectiveDivide
    (glFrustum (MakeReflectionImage_glFrustum eyePos)
      (worldToEye (gluLookAt (MakeReflectionImage_gluLookAt eyePos)) p))

/-- The corners of the near-plane rectangle of a frustum in eye coordinates:
`(left, bottom)`, `(right, bottom)`, `(right, top)`, `(left, top)` at
`z = -nearVal`. -/
def nearPlaneCornersEye (a : FrustumArgs) : List Vec3 :=
  [⟨a.left, a.bottom, -a.nearVal⟩, ⟨a.right, a.bottom, -a.nearVal⟩,
   ⟨a.right, a.top, -a.nearVal⟩, ⟨a.left, a.top, -a.nearVal⟩]

/-- The near-plane corners of the mirror frustum as world-space points. -/
def mirrorNearCornersWorld (eyePos : Vec3) : List Vec3 :=
  (nearPlaneCornersEye (MakeReflectionImage_glFrustum eyePos)).map
    (eyeToWorld (gluLookAt (MakeReflectionImage_gluLookAt eyePos)))

/-- The four corners of the mirror rectangle (the tabletop), in the order of
the tabletop quad of `DrawTable`. -/
def mirrorRectangleCorners : List Vec3 :=
  [⟨TABLETOP_X1, TABLETOP_Y1, TABLETOP_Z⟩, ⟨TABLETOP_X2, TABLETOP_Y1, TABLETOP_Z⟩,
   ⟨TABLETOP_X2, TABLETOP_Y2, TABLETOP_Z⟩, ⟨TABLETOP_X1, TABLETOP_Y2, TABLETOP_Z⟩]

/-! ## Interpolation formulas as the specification words them -/

/-- Linear interpolation `lerp(a, b, t) = (1 - t) a + t b`, componentwise. -/
def lerp (a b : Vec3) (t : ℚ) : Vec3 :=
  ⟨(1 - t) * a.x + t * b.x, (1 - t) * a.y + t * b.y, (1 - t) * a.z + t * b.z⟩

/-- Separable bilinear interpolation of four corners: first along `u` on the
edges 0→1 and 3→2, then along `v` between the two results. -/
def bilerpSeparable (c0 c1 c2 c3 : Vec3) (u v : ℚ) : Vec3 :=
  lerp (lerp c0 c1 u) (lerp c3 c2 u) v

/-- Closed-form bilinear interpolation
`(1-u)(1-v) c0 + u(1-v) c1 + u v c2 + (1-u) v c3`, componentwise. -/
def bilerpClosed (c0 c1 c2 c3 : Vec3) (u v : ℚ) : Vec3 :=
  ⟨(1 - u) * (1 - v) * c0.x + u * (1 - v) * c1.x + u * v * c2.x + (1 - u) * v * c3.x,
   (1 - u) * (1 - v) * c0.y + u * (1 - v) * c1.y + u * v * c2.y + (1 - u) * v * c3.y,
   (1 - u) * (1 - v) * c0.z + u * (1 - v) * c1.z + u * v * c2.z + (1 - u) * v * c3.z⟩

/-- The texcoord/position pair obtained by applying `bilerpSeparable` with one
and the same `(u, v)` to the input texture coordinates and input positions. -/
def separableVertex (q : QuadArgs) (u v : ℚ) : Emitted :=
  ⟨bilerpSeparable (corner0 q).tc (corner1 q).tc (corner2 q).tc (corner3 q).tc u v,
   bilerpSeparable (corner0 q).pos (corner1 q).pos (corner2 q).pos (corner3 q).pos u v⟩

/-- The texcoord/position pair obtained by applying `bilerpClosed` with one and
the same `(u, v)` to the input texture coordinates and input positions. -/
def closedVertex (q : QuadArgs) (u v : ℚ) : Emitted :=
  ⟨bilerpClosed (corner0 q).tc (corner1 q).tc (corner2 q).tc (corner3 q).tc u v,
   bilerpClosed (corner0 q).pos (corner1 q).pos (corner2 q).pos (corner3 q).pos u v⟩

/-! ## Winding order in the xy-plane -/

/-- Twice the signed area of the triangle `a b c` projected to the xy-plane:
positive exactly when `a → b → c` is a strict left (anti-clockwise) turn. -/
def turn (a b c : Vec3) : ℚ :=
  (b.x - a.x) * (c.y - b.y) - (b.y - a.y) * (c.x - b.x)

/-- The quadrilateral `p0 p1 p2 p3` is strictly convex and anti-clockwise in
the xy-plane: every consecutive triple of corners makes a strict left turn. -/
def strictlyConvexCCW (p0 p1 p2 p3 : Vec3) : Prop :=
  0 < turn p0 p1 p2 ∧ 0 < turn p1 p2 p3 ∧ 0 < turn p2 p3 p0 ∧ 0 < turn p3 p0 p1

instance (p0 p1 p2 p3 : Vec3) : Decidable (strictlyConvexCCW p0 p1 p2 p3) := by
  unfold strictlyConvexCCW
  infer_instance

/-- An emitted quad (four pairs, in emission order) is strictly convex and
anti-clockwise in the xy-plane. -/
def quadStrictlyConvexCCW (l : List Emitted) : Prop :=
  match l with
  | [a, b, c, d] => strictlyConvexCCW a.pos b.pos c.pos d.pos
  | _ => False

instance (l : List Emitted) : Decidable (quadStrictlyConvexCCW l) := by
  unfold quadStrictlyConvexCCW
  split <;> infer_instance

/-- The corner turns of a quadrilateral blended bilinearly at `(u, v)`; this is
the Jacobian determinant of the bilinear patch at that parameter. -/
def blendedTurn (p0 p1 p2 p3 : Vec3) (u v : ℚ) : ℚ :=
  (1 - u) * (1 - v) * turn p3 p0 p1 + u * (1 - v) * turn p0 p1 p2
    + u * v * turn p1 p2 p3 + (1 - u) * v * turn p2 p3 p0

/-! ## The view axis of the mirror camera -/

/-- The point at parameter `t` of the view axis of a `gluLookAt` call, the line
from the eye (`t = 0`) to the look target (`t = 1`). -/
def viewAxisPoint (a : LookAtArgs) (t : ℚ) : Vec3 :=
  ⟨a.eye.x + t * (a.center.x - a.eye.x), a.eye.y + t * (a.center.y - a.eye.y),
   a.eye.z + t * (a.center.z - a.eye.z)⟩

/-- The point lies over the mirror rectangle:
`TABLETOP_X1 ≤ x ≤ TABLETOP_X2` and `TABLETOP_Y1 ≤ y ≤ TABLETOP_Y2`. -/
def inMirrorRectangle (p : Vec3) : Prop :=
  TABLETOP_X1 ≤ p.x ∧ p.x ≤ TABLETOP_X2 ∧ TABLETOP_Y1 ≤ p.y ∧ p.y ≤ TABLETOP_Y2

instance (p : Vec3) : Decidable (inMirrorRectangle p) := by
  unfold inMirrorRectangle
  infer_instance

/-! ## How a call of SubdivideAndDrawQuad ends -/

/-- The way a call of `SubdivideAndDrawQuad` ends: `some out` when it returns
normally after emitting `out`, `none` when it is aborted.  The routine holds no
check of its arguments, no `exit` and no other early way out, so it always
returns. -/
def SubdivideAndDrawQuad_outcome (uSteps vSteps : ℤ) (q : QuadArgs) : Option (List Emitted) :=
  some (SubdivideAndDrawQuad uSteps vSteps q)

/-! ## Navigation: the eye state and the input callbacks -/

/-- The constant `LOOKAT_X 0.0`. -/
def LOOKAT_X : ℚ := 0
/-- The constant `LOOKAT_Y 0.0`. -/
def LOOKAT_Y : ℚ := 0
/-- The constant `LOOKAT_Z 1.0`. -/
def LOOKAT_Z : ℚ := 1
/-- The constant `EYE_INIT_DIST 5.0`. -/
def EYE_INIT_DIST : ℚ := 5
/-- The constant `EYE_DIST_INCR 0.2`. -/
def EYE_DIST_INCR : ℚ := 1 / 5
/-- The constant `EYE_MIN_DIST 0.1`. -/
def EYE_MIN_DIST : ℚ := 1 / 10
/-- The constant `EYE_MIN_LATITUDE -88.0`. -/
def EYE_MIN_LATITUDE : ℚ := -88
/-- The constant `EYE_MAX_LATITUDE 88.0`. -/
def EYE_MAX_LATITUDE : ℚ := 88
/-- The constant `EYE_LATITUDE_INCR 2.0`. -/
def EYE_LATITUDE_INCR : ℚ := 2
/-- The constant `EYE_LONGITUDE_INCR 2.0`. -/
def EYE_LONGITUDE_INCR : ℚ := 2

/-- The GLUT key code `GLUT_KEY_LEFT` (value of the GLUT header). -/
def GLUT_KEY_LEFT : ℤ := 100
/-- The GLUT key code `GLUT_KEY_UP` (value of the GLUT header). -/
def GLUT_KEY_UP : ℤ := 101
/-- The GLUT key code `GLUT_KEY_RIGHT` (value of the GLUT header). -/
def GLUT_KEY_RIGHT : ℤ := 102
/-- The GLUT key code `GLUT_KEY_DOWN` (value of the GLUT header). -/
def GLUT_KEY_DOWN : ℤ := 103
/-- The GLUT modifier mask `GLUT_ACTIVE_SHIFT` (value of the GLUT header). -/
def GLUT_ACTIVE_SHIFT : ℤ := 1

/-- The global variables the input callbacks read and write. -/
structure Globals where
  eyeLatitude : ℚ
  eyeLongitude : ℚ
  eyeDistance : ℚ
  drawAxes : Bool
  drawWireframe : Bool
  hasTexture : Bool
deriving DecidableEq

/-- The initial values of the globals (main.cpp lines 104-106 and 124-126). -/
def initialGlobals : Globals :=
  { eyeLatitude := 0, eyeLongitude := 0, eyeDistance := EYE_INIT_DIST
    drawAxes := true, drawWireframe := false, hasTexture := true }

/-- The keyboard callback `MyKeyboard( key, x, y )`; `none` stands for the
`exit(0)` of the quit key. -/
def MyKeyboard (g : Globals) (key : Char) (_x _y : ℤ) : Option Globals :=
  if key = 'q' ∨ key = 'Q' then none
  else if key = 'w' ∨ key = 'W' then some { g with drawWireframe := !g.drawWireframe }
  else if key = 'x' ∨ key = 'X' then some { g with drawAxes := !g.drawAxes }
  else if key = 't' ∨ key = 'T' then some { g with hasTexture := !g.hasTexture }
  else if key = 'r' ∨ key = 'R' then
    some { g with eyeLatitude := 0, eyeLongitude := 0, eyeDistance := EYE_INIT_DIST }
  else some g

/-- The special-key callback `MySpecialKey( key, x, y )`; `modi` is the value
`glutGetModifiers()` returns during the call. -/
def MySpecialKey (g : Globals) (key modi : ℤ) (_x _y : ℤ) : Globals :=
  if key = GLUT_KEY_LEFT then
    let lon := g.eyeLongitude - EYE_LONGITUDE_INCR
    { g with eyeLongitude := if lon < -360 then lon + 360 else lon }
  else if key = GLUT_KEY_RIGHT then
    let lon := g.eyeLongitude + EYE_LONGITUDE_INCR
    { g with eyeLongitude := if lon > 360 then lon - 360 else lon }
  else if key = GLUT_KEY_UP then
    if modi ≠ GLUT_ACTIVE_SHIFT then
      let lat := g.eyeLatitude + EYE_LATITUDE_INCR
      { g with eyeLatitude := if lat > EYE_MAX_LATITUDE then EYE_MAX_LATITUDE else lat }
    else
      let d := g.eyeDistance - EYE_DIST_INCR
      { g with eyeDistance := if d < EYE_MIN_DIST then EYE_MIN_DIST else d }
  else if key = GLUT_KEY_DOWN then
    if modi ≠ GLUT_ACTIVE_SHIFT then
      let lat := g.eyeLatitude - EYE_LATITUDE_INCR
      { g with eyeLatitude := if lat < EYE_MIN_LATITUDE then EYE_MIN_LATITUDE else lat }
    else
      { g with eyeDistance := g.eyeDistance + EYE_DIST_INCR }
  else g

/-- An input event delivered by GLUT: an ordinary key or a special key, with
the mouse position and, for special keys, the modifier state. -/
inductive Event where
  | keyboard (key : Char) (x y : ℤ)
  | special (key modi : ℤ) (x y : ℤ)
deriving DecidableEq

/-- One event handled by its callback; `none` when the program exits. -/
def handleEvent (g : Globals) : Event → Option Globals
  | Event.keyboard key x y => MyKeyboard g key x y
  | Event.special key modi x y => some (MySpecialKey g key modi x y)

/-- A finite sequence of events handled in order, starting from `g`; `none`
when the program has exited on the way. -/
def runEvents (g : Globals) : List Event → Option Globals
  | [] => some g
  | e :: es =>
    match handleEvent g e with
    | none => none
    | some g1 => runEvents g1 es

/-- The event is a press of the quit key. -/
def isQuit : Event → Prop
  | Event.keyboard key _ _ => key = 'q' ∨ key = 'Q'
  | Event.special _ _ _ _ => False

instance (e : Event) : Decidable (isQuit e) := by
  cases e <;> unfold isQuit <;> infer_instance

/-! ## The frame drawn by MyDisplay, as a sequence of steps -/

/-- The steps of one frame, at the granularity of the statements of
`MakeReflectionImage`, `MyDisplay` and `DrawTable`. -/
inductive Step where
  /-- The statement `glEnable( GL_TEXTURE_2D )` or `glDisable( GL_TEXTURE_2D )`. -/
  | setTexture2D (enabled : Bool)
  /-- The four assignments to `eyePos` and `xy`. -/
  | computeEyePos
  /-- The call `glClear( GL_COLOR_BUFFER_BIT | GL_DEPTH_BUFFER_BIT )`. -/
  | glClear
  /-- Projection set by `glFrustum` (mirror camera). -/
  | projectionFrustum
  /-- Projection set by `gluPerspective` (real eye). -/
  | projectionPerspective
  /-- Model-view set by the `gluLookAt` of the mirror camera. -/
  | lookAtMirror
  /-- Model-view set by the `gluLookAt` of the real eye. -/
  | lookAtEye
  /-- The three `glEnable` calls for lighting. -/
  | enableLighting
  /-- The two `glLightfv( ..., GL_POSITION, ... )` calls. -/
  | lightPositions
  | DrawAxes
  | DrawRoom
  | DrawTeapot
  | DrawSphere
  | DrawTransformerBody
  | DrawTransformerHead
  /-- Material and texture environment of the tabletop. -/
  | tabletopMaterial
  /-- The call `glBindTexture( GL_TEXTURE_2D, reflectionTexObj )`. -/
  | bindReflectionTexture
  /-- The tabletop quad: `glNormal3f` and `SubdivideAndDrawQuad( 24, 24, ... )`. -/
  | drawTabletop
  /-- The call `glBindTexture( GL_TEXTURE_2D, 0 )` with the side material. -/
  | unbindTexture
  /-- Sides, bottom and legs of the table. -/
  | drawTableRest
  /-- The call `glReadBuffer( GL_BACK )`. -/
  | glReadBuffer
  /-- The call `glCopyTexImage2D( ... )` into the bound reflection texture. -/
  | glCopyTexImage2D
  | glutSwapBuffers
deriving DecidableEq

/-- The statements of `MakeReflectionImage` (main.cpp lines 150-192). -/
def MakeReflectionImage_steps : List Step :=
  [Step.glClear, Step.projectionFrustum, Step.lookAtMirror, Step.enableLighting,
   Step.lightPositions, Step.DrawRoom, Step.DrawTeapot, Step.DrawSphere,
   Step.DrawTransformerBody, Step.DrawTransformerHead, Step.glReadBuffer,
   Step.bindReflectionTexture, Step.glCopyTexImage2D]

/-- The statements of `DrawTable` (main.cpp lines 956-1069). -/
def DrawTable_steps : List Step :=
  [Step.tabletopMaterial, Step.bindReflectionTexture, Step.drawTabletop, Step.unbindTexture,
   Step.drawTableRest]

/-- The statements of `MyDisplay` (main.cpp lines 201-242), with the calls of
`MakeReflectionImage` and `DrawTable` expanded in place. -/
def MyDisplay_steps (g : Globals) : List Step :=
  [Step.setTexture2D g.hasTexture, Step.computeEyePos]
    ++ MakeReflectionImage_steps
    ++ [Step.glClear, Step.projectionPerspective, Step.lookAtEye, Step.lightPositions]
    ++ (if g.drawAxes then [Step.DrawAxes] else [])
    ++ [Step.DrawRoom, Step.DrawTeapot, Step.DrawSphere]
    ++ DrawTable_steps
    ++ [Step.DrawTransformerBody, Step.DrawTransformerHead, Step.glutSwapBuffers]

/-! ## The eye position computed by MyDisplay -/

/-- Three real components (`eyePos` with the exact real sine and cosine). -/
structure RVec3 where
  x : ℝ
  y : ℝ
  z : ℝ

/-- The world-space eye position `MyDisplay` computes from the globals
(main.cpp lines 209-212), with `sin` and `cos` the exact real functions and the
macro `PI` read as the number π. -/
noncomputable def MyDisplay_eyePos (g : Globals) : RVec3 :=
  let z := (g.eyeDistance : ℝ) * Real.sin ((g.eyeLatitude : ℝ) * Real.pi / 180) + (LOOKAT_Z : ℝ)
  let xy := (g.eyeDistance : ℝ) * Real.cos ((g.eyeLatitude : ℝ) * Real.pi / 180)
  let x := xy * Real.cos ((g.eyeLongitude : ℝ) * Real.pi / 180) + (LOOKAT_X : ℝ)
  let y := xy * Real.sin ((g.eyeLongitude : ℝ) * Real.pi / 180) + (LOOKAT_Y : ℝ)
  ⟨x, y, z⟩

/-- The monic integer polynomials `P n` with `P n (2 cos φ) = 2 cos (n φ)`:
`P 0 = 2`, `P 1 = X`, `P (n + 2) = X * P (n + 1) - P n`.  They serve to show
that a rational value of `2 cos φ`, for `φ` a rational multiple of π, is an
integer. -/
noncomputable def twoCosPoly : ℕ → Polynomial ℤ
  | 0 => Polynomial.C 2
  | 1 => Polynomial.X
  | (n + 2) => Polynomial.X * twoCosPoly (n + 1) - twoCosPoly n

/-- The eye states navigation can produce in exact arithmetic: the latitude is
an even number of degrees between -88 and 88, the distance a positive multiple
of 0.1. -/
def onNavigationGrid (g : Globals) : Prop :=
  (∃ k : ℤ, -44 ≤ k ∧ k ≤ 44 ∧ g.eyeLatitude = 2 * k) ∧
  (∃ n : ℕ, 1 ≤ n ∧ g.eyeDistance = n / 10)

/-! ## Ranges spanned by the four input corners -/

/-- The least of the four corner values `p0 p1 p2 p3`. -/
def cornerMin (p0 p1 p2 p3 : ℚ) : ℚ := min p0 (min p1 (min p2 p3))

/-- The greatest of the four corner values `p0 p1 p2 p3`. -/
def cornerMax (p0 p1 p2 p3 : ℚ) : ℚ := max p0 (max p1 (max p2 p3))

/-- The value `x` lies between the minimum and the maximum of the four corner
values `p0 p1 p2 p3`. -/
def withinCorners (p0 p1 p2 p3 x : ℚ) : Prop :=
  cornerMin p0 p1 p2 p3 ≤ x ∧ x ≤ cornerMax p0 p1 p2 p3

instance (a b c d x : ℚ) : Decidable (withinCorners a b c d x) := by
  unfold withinCorners
  infer_instance

/-! ## Binary floating point: rounding to nearest, ties to even

A finite value of a binary format is a rational; `none` stands for a value that
is not finite (an infinity or a NaN).  The two zeros are not told apart. -/

/-- The integer nearest to `x`, the even one of the two when `x` lies half-way
between them. -/
def roundHalfEven (x : ℚ) : ℤ :=
  let f := ⌊x⌋
  if x - f < 1 / 2 then f
  else if 1 / 2 < x - f then f + 1
  else if f % 2 = 0 then f else f + 1

/-- The exponent at which a nonzero `x` is rounded: that of its binade
`2 ^ e ≤ |x| < 2 ^ (e + 1)`, or `emin` for a value below the normal range. -/
def binaryExponent (emin : ℤ) (x : ℚ) : ℤ := max (Int.log 2 |x|) emin

/-- The value `x` rounded to the binary format with `p` significant bits and
exponents from `emin` to `emax` (IEEE 754, round to nearest, ties to even):
the nearest multiple of the unit in the last place, and `none` (an overflow to
infinity) when that reaches `2 ^ (emax + 1)`. -/
def roundBinary (p : ℕ) (emin emax : ℤ) (x : ℚ) : Option ℚ :=
  if x = 0 then some 0
  else
    let ulp : ℚ := 2 ^ (binaryExponent emin x - ((p : ℤ) - 1))
    let y : ℚ := (roundHalfEven (x / ulp) : ℚ) * ulp
    if |y| < 2 ^ (emax + 1) then some y else none

/-- Rounding to `float` (binary32). -/
def roundF32 (x : ℚ) : Option ℚ := roundBinary 24 (-126) 127 x

/-- Rounding to `double` (binary64). -/
def roundF64 (x : ℚ) : Option ℚ := roundBinary 53 (-1022) 1023 x

/-! ## SubdivideAndDrawQuad in `float` arithmetic

The routine once more, with every `float` operation rounded to binary32 (each
operation rounds its exact result to `float`, as with `FLT_EVAL_METHOD` 0).  An
operand that is not finite gives a result that is not finite. -/

/-- Sum of two `float`s, rounded to `float`. -/
def addF32 (a b : Option ℚ) : Option ℚ :=
  a.bind fun x => b.bind fun y => roundF32 (x + y)

/-- Difference of two `float`s, rounded to `float`. -/
def subF32 (a b : Option ℚ) : Option ℚ :=
  a.bind fun x => b.bind fun y => roundF32 (x - y)

/-- Product of two `float`s, rounded to `float`. -/
def mulF32 (a b : Option ℚ) : Option ℚ :=
  a.bind fun x => b.bind fun y => roundF32 (x * y)

/-- The expression `(float) k / n` for `int` values `k` and `n`: both are
converted to `float` and the quotient is rounded to `float`; a zero divisor
gives a value that is not finite. -/
def stepParamF32 (k n : ℤ) : Option ℚ :=
  match roundF32 k, roundF32 n with
  | some a, some b => if b = 0 then none else roundF32 (a / b)
  | _, _ => none

/-- Three `float` components (a `float[3]` array of the source). -/
structure Vec3F32 where
  x : Option ℚ
  y : Option ℚ
  z : Option ℚ
deriving DecidableEq

/-- One `glTexCoord2fv( tc ); glVertex3fv( pos );` pair of `float` arrays. -/
structure EmittedF32 where
  tc : Vec3F32
  pos : Vec3F32
deriving DecidableEq

/-- The expression `P[i] + w * ( Q[i] - P[i] )` in `float` arithmetic: the
difference, the product and the sum are each rounded. -/
def interpF32 (p q w : Option ℚ) : Option ℚ := addF32 p (mulF32 w (subF32 q p))

/-- The per-component statement `R[i] = P[i] + w * ( Q[i] - P[i] )` run for
`i = 0, 1, 2`, in `float` arithmetic. -/
def blendF32 (P Q : Vec3F32) (w : Option ℚ) : Vec3F32 :=
  ⟨interpF32 P.x Q.x w, interpF32 P.y Q.y w, interpF32 P.z Q.z w⟩

/-- Body of the inner loop `for ( int v = 0; v < vSteps; v++ )` in `float`
arithmetic: the four pairs emitted for one cell, in the order E, F, H, G. -/
def innerBodyF32 (vSteps : ℤ) (Atc Btc Ctc Dtc Av Bv Cv Dv : Vec3F32) (v : ℕ) :
    List EmittedF32 :=
  let vv := stepParamF32 (v : ℤ) vSteps
  let vv1 := stepParamF32 ((v : ℤ) + 1) vSteps
  let Etc := blendF32 Atc Btc vv
  let Ftc := blendF32 Ctc Dtc vv
  let Gtc := blendF32 Atc Btc vv1
  let Htc := blendF32 Ctc Dtc vv1
  let Ev := blendF32 Av Bv vv
  let Fv := blendF32 Cv Dv vv
  let Gv := blendF32 Av Bv vv1
  let Hv := blendF32 Cv Dv vv1
  [⟨Etc, Ev⟩, ⟨Ftc, Fv⟩, ⟨Htc, Hv⟩, ⟨Gtc, Gv⟩]

/-- Body of the outer loop `for ( int u = 0; u < uSteps; u++ )` in `float`
arithmetic. -/
def outerBodyF32 (uSteps vSteps : ℤ) (tc0 tc1 tc2 tc3 v0 v1 v2 v3 : Vec3F32) (u : ℕ) :
    List EmittedF32 :=
  let uu := stepParamF32 (u : ℤ) uSteps
  let uu1 := stepParamF32 ((u : ℤ) + 1) uSteps
  let Atc := blendF32 tc0 tc1 uu
  let Btc := blendF32 tc3 tc2 uu
  let Ctc := blendF32 tc0 tc1 uu1
  let Dtc := blendF32 tc3 tc2 uu1
  let Av := blendF32 v0 v1 uu
  let Bv := blendF32 v3 v2 uu
  let Cv := blendF32 v0 v1 uu1
  let Dv := blendF32 v3 v2 uu1
  (List.range vSteps.toNat).flatMap (innerBodyF32 vSteps Atc Btc Ctc Dtc Av Bv Cv Dv)

/-- The routine `SubdivideAndDrawQuad` (main.cpp lines 742-801) in `float`
arithmetic, on parameters that are `float` values. -/
def SubdivideAndDrawQuadF32 (uSteps vSteps : ℤ) (q : QuadArgs) : List EmittedF32 :=
  let tc0 : Vec3F32 := ⟨some q.s0, some q.t0, some 0⟩
  let v0 : Vec3F32 := ⟨some q.x0, some q.y0, some q.z0⟩
  let tc1 : Vec3F32 := ⟨some q.s1, some q.t1, some 0⟩
  let v1 : Vec3F32 := ⟨some q.x1, some q.y1, some q.z1⟩
  let tc2 : Vec3F32 := ⟨some q.s2, some q.t2, some 0⟩
  let v2 : Vec3F32 := ⟨some q.x2, some q.y2, some q.z2⟩
  let tc3 : Vec3F32 := ⟨some q.s3, some q.t3, some 0⟩
  let v3 : Vec3F32 := ⟨some q.x3, some q.y3, some q.z3⟩
  (List.range uSteps.toNat).flatMap (outerBodyF32 uSteps vSteps tc0 tc1 tc2 tc3 v0 v1 v2 v3)

/-- A quad whose corners 1 and 2 have the `float` nearest to 0.2 as their x
and whose corners 0 and 3 have x = -3; every parameter is a `float`. -/
def lastPlaceQuad : QuadArgs :=
  { s0 := 0, t0 := 0, x0 := -3, y0 := 0, z0 := 0
    s1 := 1, t1 := 0, x1 := 13421773 / 67108864, y1 := 0, z1 := 0
    s2 := 1, t2 := 1, x2 := 13421773 / 67108864, y2 := 1, z2 := 0
    s3 := 0, t3 := 1, x3 := -3, y3 := 1, z3 := 0 }

/-- Assembly of `GL_QUADS` for the `float` stream: the `k`-th quad is entries
`4k .. 4k+3`. -/
def quadAtF32 (out : List EmittedF32) (k : ℕ) : List EmittedF32 :=
  (out.drop (4 * k)).take 4

/-- Input corner 1 as a pair of `float` arrays (`tc1`, `v1` of the source). -/
def corner1F32 (q : QuadArgs) : EmittedF32 :=
  ⟨⟨some q.s1, some q.t1, some 0⟩, ⟨some q.x1, some q.y1, some q.z1⟩⟩

/-- Every parameter of the quad is a `float`: rounding leaves it alone. -/
def quadIsF32 (q : QuadArgs) : Prop :=
  ∀ x ∈ [q.s0, q.t0, q.x0, q.y0, q.z0, q.s1, q.t1, q.x1, q.y1, q.z1,
    q.s2, q.t2, q.x2, q.y2, q.z2, q.s3, q.t3, q.x3, q.y3, q.z3], roundF32 x = some x

/-! ## Navigation with the distance accumulated in `double` arithmetic -/

/-- The constant `EYE_DIST_INCR 0.2` as the `double` it denotes, the binary64
value nearest to 0.2. -/
def EYE_DIST_INCR_F64 : ℚ := 3602879701896397 / 18014398509481984
/-- The constant `EYE_MIN_DIST 0.1` as the `double` it denotes, the binary64
value nearest to 0.1. -/
def EYE_MIN_DIST_F64 : ℚ := 3602879701896397 / 36028797018963968
/-- The constant `TABLETOP_Z 1.2` as the `double` it denotes, the binary64
value nearest to 1.2. -/
def TABLETOP_Z_F64 : ℚ := 5404319552844595 / 4503599627370496

/-- The globals of the input callbacks with `eyeDistance` a `double`: a finite
binary64 value, or `none` for a value that is not finite.  The two angles only
take whole numbers of degrees of small magnitude, on which `double` addition
and subtraction are exact, and stay rationals. -/
structure GlobalsF64 where
  eyeLatitude : ℚ
  eyeLongitude : ℚ
  eyeDistance : Option ℚ
  drawAxes : Bool
  drawWireframe : Bool
  hasTexture : Bool
deriving DecidableEq

/-- The initial values of the globals (main.cpp lines 104-106 and 124-126). -/
def initialGlobalsF64 : GlobalsF64 :=
  { eyeLatitude := 0, eyeLongitude := 0, eyeDistance := some EYE_INIT_DIST
    drawAxes := true, drawWireframe := false, hasTexture := true }

/-- The keyboard callback `MyKeyboard( key, x, y )` on the globals with a
`double` distance; `none` stands for the `exit(0)` of the quit key. -/
def MyKeyboardF64 (g : GlobalsF64) (key : Char) (_x _y : ℤ) : Option GlobalsF64 :=
  if key = 'q' ∨ key = 'Q' then none
  else if key = 'w' ∨ key = 'W' then some { g with drawWireframe := !g.drawWireframe }
  else if key = 'x' ∨ key = 'X' then some { g with drawAxes := !g.drawAxes }
  else if key = 't' ∨ key = 'T' then some { g with hasTexture := !g.hasTexture }
  else if key = 'r' ∨ key = 'R' then
    some { g with eyeLatitude := 0, eyeLongitude := 0, eyeDistance := some EYE_INIT_DIST }
  else some g

/-- The special-key callback `MySpecialKey( key, x, y )` with the statements
`eyeDistance -= EYE_DIST_INCR` and `eyeDistance += EYE_DIST_INCR` rounded to
`double`; the comparison `eyeDistance < EYE_MIN_DIST` is false of a value that
is not finite. -/
def MySpecialKeyF64 (g : GlobalsF64) (key modi : ℤ) (_x _y : ℤ) : GlobalsF64 :=
  if key = GLUT_KEY_LEFT then
    let lon := g.eyeLongitude - EYE_LONGITUDE_INCR
    { g with eyeLongitude := if lon < -360 then lon + 360 else lon }
  else if key = GLUT_KEY_RIGHT then
    let lon := g.eyeLongitude + EYE_LONGITUDE_INCR
    { g with eyeLongitude := if lon > 360 then lon - 360 else lon }
  else if key = GLUT_KEY_UP then
    if modi ≠ GLUT_ACTIVE_SHIFT then
      let lat := g.eyeLatitude + EYE_LATITUDE_INCR
      { g with eyeLatitude := if lat > EYE_MAX_LATITUDE then EYE_MAX_LATITUDE else lat }
    else
      let d := g.eyeDistance.bind fun x => roundF64 (x - EYE_DIST_INCR_F64)
      { g with eyeDistance := d.map fun x => if x < EYE_MIN_DIST_F64 then EYE_MIN_DIST_F64 else x }
  else if key = GLUT_KEY_DOWN then
    if modi ≠ GLUT_ACTIVE_SHIFT then
      let lat := g.eyeLatitude - EYE_LATITUDE_INCR
      { g with eyeLatitude := if lat < EYE_MIN_LATITUDE then EYE_MIN_LATITUDE else lat }
    else
      { g with eyeDistance := g.eyeDistance.bind fun x => roundF64 (x + EYE_DIST_INCR_F64) }
  else g

/-- One event handled by its callback; `none` when the program exits. -/
def handleEventF64 (g : GlobalsF64) : Event → Option GlobalsF64
  | Event.keyboard key x y => MyKeyboardF64 g key x y
  | Event.special key modi x y => some (MySpecialKeyF64 g key modi x y)

/-- A finite sequence of events handled in order, starting from `g`; `none`
when the program has exited on the way. -/
def runEventsF64 (g : GlobalsF64) : List Event → Option GlobalsF64
  | [] => some g
  | e :: es =>
    match handleEventF64 g e with
    | none => none
    | some g1 => runEventsF64 g1 es

/-- The eye height `eyePos[2]` of `MyDisplay` (main.cpp line 209) for a `double`
distance, with the product and the sum taken exactly, `sin` the exact real
function and `PI` read as π; `none` when the distance is not finite. -/
noncomputable def MyDisplay_eyePosZ_F64 (g : GlobalsF64) : Option ℝ :=
  g.eyeDistance.map fun (d : ℚ) =>
    (d : ℝ) * Real.sin ((g.eyeLatitude : ℝ) * Real.pi / 180) + (LOOKAT_Z : ℝ)

/-- The four `double` distances from which the eye could come to lie at the
height of the tabletop: twice the `double` 1.2 minus 2, and the three values
within a unit in the last place of that distance less the `double` 0.2. -/
def nearDegenerateF64 (d : ℚ) : Prop :=
  d = 900719925474099 / 2251799813685248 ∨ d = 7205759403792789 / 36028797018963968 ∨
  d = 3602879701896395 / 18014398509481984 ∨ d = 7205759403792791 / 36028797018963968

/-- What every distance navigation produces satisfies: it is a `double`,
between the minimum distance and `2 ^ 53`, and none of the four values of
`nearDegenerateF64`. -/
def distanceInvariantF64 (d : ℚ) : Prop :=
  (∃ x : ℚ, roundF64 x = some d) ∧ EYE_MIN_DIST_F64 ≤ d ∧ d ≤ 9007199254740992 ∧
    ¬ nearDegenerateF64 d

/-- What every eye state navigation produces satisfies: the latitude is an even
number of degrees between -88 and 88, and the distance is finite and satisfies
`distanceInvariantF64`. -/
def navigationInvariantF64 (g : GlobalsF64) : Prop :=
  (∃ k : ℤ, -44 ≤ k ∧ k ≤ 44 ∧ g.eyeLatitude = 2 * k) ∧
  ∃ d : ℚ, g.eyeDistance = some d ∧ distanceInvariantF64 d

/-! ## Auxiliary facts about loops that emit fixed-size blocks -/

/-- A loop of `m` iterations, each emitting `c` items, emits `m * c` items. -/
theorem length_flatMap_range_const {α : Type} (f : ℕ → List α) (c : ℕ)
    (hf : ∀ i, (f i).length = c) (m : ℕ) :
    ((List.range m).flatMap f).length = m * c := by
  induction m with
  | zero => simp
  | succ m ih =>
    rw [List.range_succ, List.flatMap_append, List.length_append, ih, List.flatMap_singleton, hf]
    ring

/-- The `i`-th block of a loop that emits `c` items per iteration is what
iteration `i` emitted. -/
theorem take_drop_flatMap_range {α : Type} (f : ℕ → List α) (c : ℕ)
    (hf : ∀ i, (f i).length = c) (m i : ℕ) (hi : i < m) :
    (((List.range m).flatMap f).drop (c * i)).take c = f i := by
  induction m with
  | zero => omega
  | succ m ih =>
    have hlen := length_flatMap_range_const f c hf m
    rw [List.range_succ, List.flatMap_append, List.flatMap_singleton]
    rcases Nat.lt_succ_iff_lt_or_eq.mp hi with h | h
    · have h1 : c * i ≤ ((List.range m).flatMap f).length := by
        rw [hlen, Nat.mul_comm]
        exact Nat.mul_le_mul_right c (Nat.le_of_lt h)
      have h2 : c ≤ (((List.range m).flatMap f).drop (c * i)).length := by
        rw [List.length_drop, hlen]
        have h3 : c * (i + 1) ≤ m * c := by
          rw [Nat.mul_comm]
          exact Nat.mul_le_mul_right c h
        have h4 : c * (i + 1) = c * i + c := by ring
        omega
      rw [List.drop_append_of_le_length h1, List.take_append_of_le_length h2, ih h]
    · subst h
      have h1 : ((List.range i).flatMap f).length = c * i := by rw [hlen, Nat.mul_comm]
      rw [List.drop_left' h1]
      exact List.take_of_length_le (le_of_eq (hf i))

/-- Two nested counting loops visit the grid in row-major order: the
`k`-th inner iteration overall is the one for `(k / n, k % n)`. -/
theorem flatMap_range_grid {α : Type} (g : ℕ → ℕ → List α) (m n : ℕ) :
    (List.range m).flatMap (fun i => (List.range n).flatMap (g i)) =
      (List.range (m * n)).flatMap (fun k => g (k / n) (k % n)) := by
  induction m with
  | zero => simp
  | succ m ih =>
    rw [List.range_succ, List.flatMap_append, ih, Nat.succ_mul, List.range_add,
      List.flatMap_append, List.flatMap_singleton, List.flatMap_map]
    congr 1
    apply List.flatMap_congr
    intro j hj
    have hjn : j < n := List.mem_range.mp hj
    have hn : 0 < n := Nat.lt_of_le_of_lt (Nat.zero_le j) hjn
    have h1 : (m * n + j) / n = m := by
      rw [Nat.mul_comm, Nat.mul_add_div hn, Nat.div_eq_of_lt hjn, Nat.add_zero]
    have h2 : (m * n + j) % n = j := by
      rw [Nat.mul_comm, Nat.mul_add_mod, Nat.mod_eq_of_lt hjn]
    simp only [h1, h2]

/-- The output of `SubdivideAndDrawQuad` as one pass over the cells. -/
theorem SubdivideAndDrawQuad_eq_cells (uSteps vSteps : ℤ) (q : QuadArgs) :
    SubdivideAndDrawQuad uSteps vSteps q =
      (List.range (uSteps.toNat * vSteps.toNat)).flatMap
        (fun k => cellOutput uSteps vSteps q (k / vSteps.toNat) (k % vSteps.toNat)) := by
  rw [← flatMap_range_grid]
  rfl

/-- Every cell emits four pairs. -/
theorem length_cellOutput (uSteps vSteps : ℤ) (q : QuadArgs) (i j : ℕ) :
    (cellOutput uSteps vSteps q i j).length = 4 := rfl

/-- The `k`-th quad of the stream is the cell `(k / vSteps, k % vSteps)`. -/
theorem quadAt_SubdivideAndDrawQuad (m n : ℕ) (q : QuadArgs) (k : ℕ) (hk : k < m * n) :
    quadAt (SubdivideAndDrawQuad m n q) k = cellOutput m n q (k / n) (k % n) := by
  rw [SubdivideAndDrawQuad_eq_cells]
  simp only [Int.toNat_ofNat]
  exact take_drop_flatMap_range (fun k => cellOutput m n q (k / n) (k % n)) 4
    (fun _ => rfl) (m * n) k hk

/-- Row-major index of a cell. -/
theorem cell_index (m n i j : ℕ) (hi : i < m) (hj : j < n) :
    i * n + j < m * n ∧ (i * n + j) / n = i ∧ (i * n + j) % n = j := by
  have hn : 0 < n := Nat.lt_of_le_of_lt (Nat.zero_le j) hj
  refine ⟨?_, ?_, ?_⟩
  · calc i * n + j < i * n + n := Nat.add_lt_add_left hj _
      _ = (i + 1) * n := by ring
      _ ≤ m * n := Nat.mul_le_mul_right n hi
  · rw [Nat.mul_comm, Nat.mul_add_div hn, Nat.div_eq_of_lt hj, Nat.add_zero]
  · rw [Nat.mul_comm, Nat.mul_add_mod, Nat.mod_eq_of_lt hj]

/-- The quad of cell `(i, j)` sits at row-major index `i * vSteps + j`. -/
theorem quadAt_cell (m n : ℕ) (q : QuadArgs) (i j : ℕ) (hi : i < m) (hj : j < n) :
    quadAt (SubdivideAndDrawQuad m n q) (i * n + j) = cellOutput m n q i j := by
  obtain ⟨h1, h2, h3⟩ := cell_index m n i j hi hj
  rw [quadAt_SubdivideAndDrawQuad m n q _ h1, h2, h3]

/-- The code's cell output, rewritten with the closed-form bilinear formula. -/
theorem cellOutput_closed (m n : ℕ) (q : QuadArgs) (i j : ℕ) :
    cellOutput m n q i j =
      [closedVertex q ((i : ℚ) / m) ((j : ℚ) / n),
       closedVertex q (((i + 1 : ℕ) : ℚ) / m) ((j : ℚ) / n),
       closedVertex q (((i + 1 : ℕ) : ℚ) / m) (((j + 1 : ℕ) : ℚ) / n),
       closedVertex q ((i : ℚ) / m) (((j + 1 : ℕ) : ℚ) / n)] := by
  simp only [cellOutput, innerBody, closedVertex, bilerpClosed, blend, corner0, corner1,
    corner2, corner3, Int.cast_natCast, List.cons.injEq, Emitted.mk.injEq, Vec3.mk.injEq,
    and_true]
  refine ⟨⟨⟨?_, ?_, ?_⟩, ?_, ?_, ?_⟩, ⟨⟨?_, ?_, ?_⟩, ?_, ?_, ?_⟩, ⟨⟨?_, ?_, ?_⟩, ?_, ?_, ?_⟩,
    ⟨?_, ?_, ?_⟩, ?_, ?_, ?_⟩ <;> ring

/-- The closed-form and the separable formulas agree. -/
theorem closedVertex_eq_separableVertex (q : QuadArgs) (u v : ℚ) :
    closedVertex q u v = separableVertex q u v := by
  simp only [closedVertex, separableVertex, bilerpClosed, bilerpSeparable, lerp,
    Emitted.mk.injEq, Vec3.mk.injEq]
  refine ⟨⟨?_, ?_, ?_⟩, ?_, ?_, ?_⟩ <;> ring

/-- Closed-form vertex at the parameter corner `(0, 0)`. -/
theorem closedVertex_zero_zero (q : QuadArgs) : closedVertex q 0 0 = corner0 q := by
  simp [closedVertex, bilerpClosed, corner0]

/-- Closed-form vertex at the parameter corner `(1, 0)`. -/
theorem closedVertex_one_zero (q : QuadArgs) : closedVertex q 1 0 = corner1 q := by
  simp [closedVertex, bilerpClosed, corner1]

/-- Closed-form vertex at the parameter corner `(1, 1)`. -/
theorem closedVertex_one_one (q : QuadArgs) : closedVertex q 1 1 = corner2 q := by
  simp [closedVertex, bilerpClosed, corner2]

/-- Closed-form vertex at the parameter corner `(0, 1)`. -/
theorem closedVertex_zero_one (q : QuadArgs) : closedVertex q 0 1 = corner3 q := by
  simp [closedVertex, bilerpClosed, corner3]

/-- The top grid line: `(k + 1) / (k + 1) = 1`. -/
theorem last_step_param (m : ℕ) (hm : 1 ≤ m) : (((m - 1 + 1 : ℕ) : ℚ)) / (m : ℚ) = 1 := by
  have h : m - 1 + 1 = m := Nat.sub_add_cancel hm
  rw [h]
  have hm0 : (m : ℚ) ≠ 0 := by
    have : 0 < m := hm
    exact_mod_cast this.ne'
  exact div_self hm0

/-! ## Auxiliary facts about the mirror camera -/

/-- Length of a vector along the z axis. -/
theorem vlength_z_axis (d : ℚ) : vlength ⟨0, 0, d⟩ = |d| := by
  simp only [vlength, mul_zero, zero_add]
  exact Rat.sqrt_eq d

/-- Length of a vector along the y axis. -/
theorem vlength_y_axis (d : ℚ) : vlength ⟨0, d, 0⟩ = |d| := by
  simp only [vlength, mul_zero, zero_add, add_zero]
  exact Rat.sqrt_eq d

/-- The viewing frame of the mirror camera when the eye is above the tabletop:
it looks straight up, with side = +y and up = +x. -/
theorem mirror_frame_above (ex ey ez : ℚ) (h : TABLETOP_Z < ez) :
    gluLookAt (MakeReflectionImage_gluLookAt ⟨ex, ey, ez⟩) =
      { eye := ⟨ex, ey, 2 * TABLETOP_Z - ez⟩, side := ⟨0, 1, 0⟩, up := ⟨1, 0, 0⟩,
        forward := ⟨0, 0, 1⟩ } := by
  have hd : 0 < ez - (2 * TABLETOP_Z - ez) := by linarith
  have hf : normalize (vsub ⟨ex, ey, ez⟩ ⟨ex, ey, 2 * TABLETOP_Z - ez⟩) = ⟨0, 0, 1⟩ := by
    simp only [vsub, sub_self, normalize, vlength_z_axis, abs_of_pos hd, if_neg hd.ne',
      zero_div, div_self hd.ne']
  have hs : normalize (cross ⟨0, 0, 1⟩ ⟨1, 0, 0⟩) = ⟨0, 1, 0⟩ := by
    have hc : cross ⟨0, 0, 1⟩ ⟨1, 0, 0⟩ = ⟨0, 1, 0⟩ := by
      simp [cross]
    rw [hc]
    simp [normalize, vlength_y_axis]
  simp only [gluLookAt, MakeReflectionImage_gluLookAt, hf, hs]
  simp [cross]

/-- The viewing frame of the mirror camera when the eye is below the tabletop:
it looks straight down, with side = -y and up = +x. -/
theorem mirror_frame_below (ex ey ez : ℚ) (h : ez < TABLETOP_Z) :
    gluLookAt (MakeReflectionImage_gluLookAt ⟨ex, ey, ez⟩) =
      { eye := ⟨ex, ey, 2 * TABLETOP_Z - ez⟩, side := ⟨0, -1, 0⟩, up := ⟨1, 0, 0⟩,
        forward := ⟨0, 0, -1⟩ } := by
  have hd : ez - (2 * TABLETOP_Z - ez) < 0 := by linarith
  have hf : normalize (vsub ⟨ex, ey, ez⟩ ⟨ex, ey, 2 * TABLETOP_Z - ez⟩) = ⟨0, 0, -1⟩ := by
    have hne : -(ez - (2 * TABLETOP_Z - ez)) ≠ 0 := neg_ne_zero.mpr hd.ne
    simp only [vsub, sub_self, normalize, vlength_z_axis, abs_of_neg hd, if_neg hne,
      zero_div, div_neg, div_self hd.ne, neg_zero]
  have hs : normalize (cross ⟨0, 0, -1⟩ ⟨1, 0, 0⟩) = ⟨0, -1, 0⟩ := by
    have hc : cross ⟨0, 0, -1⟩ ⟨1, 0, 0⟩ = ⟨0, -1, 0⟩ := by
      simp [cross]
    rw [hc]
    simp [normalize, vlength_y_axis]
  simp only [gluLookAt, MakeReflectionImage_gluLookAt, hf, hs]
  simp [cross]

/-- With the eye above the tabletop the `glFrustum` call is accepted. -/
theorem mirror_frustum_valid (ex ey ez : ℚ) (h : TABLETOP_Z < ez) :
    frustumValid (MakeReflectionImage_glFrustum ⟨ex, ey, ez⟩) := by
  simp only [frustumValid, MakeReflectionImage_glFrustum, TABLETOP_Z, TABLETOP_X1, TABLETOP_X2,
    TABLETOP_Y1, TABLETOP_Y2, SCENE_RADIUS] at *
  refine ⟨by linarith, by linarith, ?_, ?_, ?_⟩
  · intro hc
    linarith
  · intro hc
    linarith
  · intro hc
    linarith

/-- Perspective divide of the first two clip coordinates at depth `ze = -n`. -/
theorem ndc_xy_at_near (l r n xe : ℚ) (hn : n ≠ 0) (hrl : r - l ≠ 0) :
    (2 * n / (r - l) * xe + (r + l) / (r - l) * -n) / - -n = (2 * xe - (r + l)) / (r - l) := by
  field_simp
  ring

/-- Perspective divide of the third clip coordinate at depth `ze = -n`. -/
theorem ndc_z_at_near (n f : ℚ) (hn : n ≠ 0) (hfn : f - n ≠ 0) :
    (-(f + n) / (f - n) * -n - 2 * f * n / (f - n)) / - -n = -1 := by
  field_simp
  ring

/-- Eye coordinates of a point of the tabletop plane, eye above the tabletop. -/
theorem worldToEye_tabletop_plane (ex ey ez x y : ℚ) (h : TABLETOP_Z < ez) :
    worldToEye (gluLookAt (MakeReflectionImage_gluLookAt ⟨ex, ey, ez⟩)) ⟨x, y, TABLETOP_Z⟩ =
      ⟨y - ey, x - ex, -(ez - TABLETOP_Z)⟩ := by
  rw [mirror_frame_above ex ey ez h]
  simp only [worldToEye, vsub, dot, Vec3.mk.injEq]
  refine ⟨by ring, by ring, by ring⟩

/-- Where the mirror camera puts a point of the tabletop plane, when the eye
is above the tabletop. -/
theorem mirrorNDC_tabletop_plane (ex ey ez x y : ℚ) (h : TABLETOP_Z < ez) :
    mirrorNDC ⟨ex, ey, ez⟩ ⟨x, y, TABLETOP_Z⟩ =
      ⟨(2 * y - TABLETOP_Y1 - TABLETOP_Y2) / (TABLETOP_Y2 - TABLETOP_Y1),
       (2 * x - TABLETOP_X1 - TABLETOP_X2) / (TABLETOP_X2 - TABLETOP_X1), -1⟩ := by
  have hn : ez - TABLETOP_Z ≠ 0 := by
    intro hc
    linarith
  have hfn : ez + SCENE_RADIUS - (ez - TABLETOP_Z) ≠ 0 := by
    simp only [SCENE_RADIUS, TABLETOP_Z]
    intro hc
    linarith
  have hy : TABLETOP_Y2 - ey - (TABLETOP_Y1 - ey) ≠ 0 := by
    simp only [TABLETOP_Y1, TABLETOP_Y2]
    intro hc
    linarith
  have hx : TABLETOP_X2 - ex - (TABLETOP_X1 - ex) ≠ 0 := by
    simp only [TABLETOP_X1, TABLETOP_X2]
    intro hc
    linarith
  unfold mirrorNDC glFrustum
  rw [worldToEye_tabletop_plane ex ey ez x y h, if_pos (mirror_frustum_valid ex ey ez h)]
  simp only [perspectiveDivide, MakeReflectionImage_glFrustum, Vec3.mk.injEq]
  refine ⟨?_, ?_, ?_⟩
  · rw [ndc_xy_at_near _ _ _ _ hn hy]
    congr 1 <;> ring
  · rw [ndc_xy_at_near _ _ _ _ hn hx]
    congr 1 <;> ring
  · exact ndc_z_at_near _ _ hn hfn

/-- For the mirror camera, `eyeToWorld` undoes `worldToEye` (eye above the
tabletop). -/
theorem eyeToWorld_worldToEye_above (ex ey ez : ℚ) (h : TABLETOP_Z < ez) (p : Vec3) :
    eyeToWorld (gluLookAt (MakeReflectionImage_gluLookAt ⟨ex, ey, ez⟩))
      (worldToEye (gluLookAt (MakeReflectionImage_gluLookAt ⟨ex, ey, ez⟩)) p) = p := by
  rw [mirror_frame_above ex ey ez h]
  cases p
  simp only [worldToEye, eyeToWorld, vsub, dot, Vec3.mk.injEq]
  refine ⟨by ring, by ring, by ring⟩

/-- For the mirror camera, `eyeToWorld` undoes `worldToEye` (eye below the
tabletop). -/
theorem eyeToWorld_worldToEye_below (ex ey ez : ℚ) (h : ez < TABLETOP_Z) (p : Vec3) :
    eyeToWorld (gluLookAt (MakeReflectionImage_gluLookAt ⟨ex, ey, ez⟩))
      (worldToEye (gluLookAt (MakeReflectionImage_gluLookAt ⟨ex, ey, ez⟩)) p) = p := by
  rw [mirror_frame_below ex ey ez h]
  cases p
  simp only [worldToEye, eyeToWorld, vsub, dot, Vec3.mk.injEq]
  refine ⟨by ring, by ring, by ring⟩

/-- The near-plane corners of the mirror frustum in world space, eye above the
tabletop. -/
theorem mirrorNearCornersWorld_above (ex ey ez : ℚ) (h : TABLETOP_Z < ez) :
    mirrorNearCornersWorld ⟨ex, ey, ez⟩ =
      [⟨TABLETOP_X1, TABLETOP_Y1, TABLETOP_Z⟩, ⟨TABLETOP_X1, TABLETOP_Y2, TABLETOP_Z⟩,
       ⟨TABLETOP_X2, TABLETOP_Y2, TABLETOP_Z⟩, ⟨TABLETOP_X2, TABLETOP_Y1, TABLETOP_Z⟩] := by
  unfold mirrorNearCornersWorld
  rw [mirror_frame_above ex ey ez h]
  simp only [nearPlaneCornersEye, MakeReflectionImage_glFrustum, List.map_cons, List.map_nil,
    eyeToWorld, List.cons.injEq, Vec3.mk.injEq, and_true]
  refine ⟨⟨?_, ?_, ?_⟩, ⟨?_, ?_, ?_⟩, ⟨?_, ?_, ?_⟩, ?_, ?_, ?_⟩ <;> ring

/-- The near-plane corners of the mirror frustum in world space, eye below the
tabletop: they lie in the plane `z = 3 * TABLETOP_Z - 2 * ez`. -/
theorem mirrorNearCornersWorld_below (ex ey ez : ℚ) (h : ez < TABLETOP_Z) :
    mirrorNearCornersWorld ⟨ex, ey, ez⟩ =
      [⟨TABLETOP_X1, 2 * ey - TABLETOP_Y1, 3 * TABLETOP_Z - 2 * ez⟩,
       ⟨TABLETOP_X1, 2 * ey - TABLETOP_Y2, 3 * TABLETOP_Z - 2 * ez⟩,
       ⟨TABLETOP_X2, 2 * ey - TABLETOP_Y2, 3 * TABLETOP_Z - 2 * ez⟩,
       ⟨TABLETOP_X2, 2 * ey - TABLETOP_Y1, 3 * TABLETOP_Z - 2 * ez⟩] := by
  unfold mirrorNearCornersWorld
  rw [mirror_frame_below ex ey ez h]
  simp only [nearPlaneCornersEye, MakeReflectionImage_glFrustum, List.map_cons, List.map_nil,
    eyeToWorld, List.cons.injEq, Vec3.mk.injEq, and_true]
  refine ⟨⟨?_, ?_, ?_⟩, ⟨?_, ?_, ?_⟩, ⟨?_, ?_, ?_⟩, ?_, ?_, ?_⟩ <;> ring

/-- Number of texcoord/vertex pairs emitted. -/
theorem length_SubdivideAndDrawQuad (m n : ℕ) (q : QuadArgs) :
    (SubdivideAndDrawQuad m n q).length = 4 * (m * n) := by
  rw [SubdivideAndDrawQuad_eq_cells]
  simp only [Int.toNat_ofNat]
  rw [length_flatMap_range_const (fun k => cellOutput m n q (k / n) (k % n)) 4
    (fun _ => rfl)]
  ring

/-- Every emitted pair belongs to some grid cell. -/
theorem mem_SubdivideAndDrawQuad (m n : ℕ) (q : QuadArgs) (e : Emitted)
    (he : e ∈ SubdivideAndDrawQuad m n q) :
    ∃ i j, i < m ∧ j < n ∧ e ∈ cellOutput m n q i j := by
  simp only [SubdivideAndDrawQuad, outerBody, Int.toNat_ofNat, List.mem_flatMap,
    List.mem_range] at he
  obtain ⟨i, hi, j, hj, hmem⟩ := he
  exact ⟨i, j, hi, hj, hmem⟩

/-- Every emitted pair is the closed-form bilinear vertex at a grid point. -/
theorem mem_SubdivideAndDrawQuad_closed (m n : ℕ) (q : QuadArgs) (e : Emitted)
    (he : e ∈ SubdivideAndDrawQuad m n q) :
    ∃ a b : ℕ, a ≤ m ∧ b ≤ n ∧ e = closedVertex q ((a : ℚ) / m) ((b : ℚ) / n) := by
  obtain ⟨i, j, hi, hj, hmem⟩ := mem_SubdivideAndDrawQuad m n q e he
  rw [cellOutput_closed] at hmem
  simp only [List.mem_cons, List.mem_singleton, List.not_mem_nil, or_false] at hmem
  rcases hmem with h | h | h | h
  · exact ⟨i, j, hi.le, hj.le, h⟩
  · exact ⟨i + 1, j, hi, hj.le, h⟩
  · exact ⟨i + 1, j + 1, hi, hj, h⟩
  · exact ⟨i, j + 1, hi.le, hj, h⟩

/-- The closed-form vertex of the tabletop quad: the texture coordinate is
`(v, u)` and the position runs linearly over the rectangle. -/
theorem closedVertex_tabletopQuad (u v : ℚ) :
    closedVertex tabletopQuad u v =
      ⟨⟨v, u, 0⟩,
       ⟨TABLETOP_X1 + u * (TABLETOP_X2 - TABLETOP_X1),
        TABLETOP_Y1 + v * (TABLETOP_Y2 - TABLETOP_Y1), TABLETOP_Z⟩⟩ := by
  simp only [closedVertex, bilerpClosed, corner0, corner1, corner2, corner3, tabletopQuad,
    Emitted.mk.injEq, Vec3.mk.injEq]
  refine ⟨⟨?_, ?_, ?_⟩, ?_, ?_, ?_⟩ <;> ring

/-! ## Auxiliary facts about winding -/

/-- A convex combination of positive numbers is positive. -/
theorem convex_combination_pos (a b c d t0 t1 t2 t3 : ℚ) (ha : 0 ≤ a) (hb : 0 ≤ b)
    (hc : 0 ≤ c) (hd : 0 ≤ d) (hsum : a + b + c + d = 1) (h0 : 0 < t0) (h1 : 0 < t1)
    (h2 : 0 < t2) (h3 : 0 < t3) : 0 < a * t0 + b * t1 + c * t2 + d * t3 := by
  have pa := mul_nonneg ha h0.le
  have pb := mul_nonneg hb h1.le
  have pc := mul_nonneg hc h2.le
  have pd := mul_nonneg hd h3.le
  by_contra hneg
  have ea : a * t0 = 0 := by linarith
  have eb : b * t1 = 0 := by linarith
  have ec : c * t2 = 0 := by linarith
  have ed : d * t3 = 0 := by linarith
  have za : a = 0 := (mul_eq_zero.mp ea).resolve_right h0.ne'
  have zb : b = 0 := (mul_eq_zero.mp eb).resolve_right h1.ne'
  have zc : c = 0 := (mul_eq_zero.mp ec).resolve_right h2.ne'
  have zd : d = 0 := (mul_eq_zero.mp ed).resolve_right h3.ne'
  rw [za, zb, zc, zd] at hsum
  norm_num at hsum

/-- Inside the unit square the blended turn of a strictly convex
anti-clockwise quadrilateral is positive. -/
theorem blendedTurn_pos (p0 p1 p2 p3 : Vec3) (h : strictlyConvexCCW p0 p1 p2 p3) (u v : ℚ)
    (hu0 : 0 ≤ u) (hu1 : u ≤ 1) (hv0 : 0 ≤ v) (hv1 : v ≤ 1) :
    0 < blendedTurn p0 p1 p2 p3 u v := by
  obtain ⟨h012, h123, h230, h301⟩ := h
  unfold blendedTurn
  have hu : 0 ≤ 1 - u := by linarith
  have hv : 0 ≤ 1 - v := by linarith
  exact convex_combination_pos _ _ _ _ _ _ _ _ (mul_nonneg hu hv) (mul_nonneg hu0 hv)
    (mul_nonneg hu0 hv0) (mul_nonneg hu hv0) (by ring) h301 h012 h123 h230

/-- Turn of a sub-quad at its first-emitted-second corner `(u1, v0)`. -/
theorem turn_subquad_1 (p0 p1 p2 p3 : Vec3) (u0 u1 v0 v1 : ℚ) :
    turn (bilerpClosed p0 p1 p2 p3 u0 v0) (bilerpClosed p0 p1 p2 p3 u1 v0)
        (bilerpClosed p0 p1 p2 p3 u1 v1) =
      (u1 - u0) * (v1 - v0) * blendedTurn p0 p1 p2 p3 u1 v0 := by
  simp only [turn, bilerpClosed, blendedTurn]
  ring

/-- Turn of a sub-quad at its corner `(u1, v1)`. -/
theorem turn_subquad_2 (p0 p1 p2 p3 : Vec3) (u0 u1 v0 v1 : ℚ) :
    turn (bilerpClosed p0 p1 p2 p3 u1 v0) (bilerpClosed p0 p1 p2 p3 u1 v1)
        (bilerpClosed p0 p1 p2 p3 u0 v1) =
      (u1 - u0) * (v1 - v0) * blendedTurn p0 p1 p2 p3 u1 v1 := by
  simp only [turn, bilerpClosed, blendedTurn]
  ring

/-- Turn of a sub-quad at its corner `(u0, v1)`. -/
theorem turn_subquad_3 (p0 p1 p2 p3 : Vec3) (u0 u1 v0 v1 : ℚ) :
    turn (bilerpClosed p0 p1 p2 p3 u1 v1) (bilerpClosed p0 p1 p2 p3 u0 v1)
        (bilerpClosed p0 p1 p2 p3 u0 v0) =
      (u1 - u0) * (v1 - v0) * blendedTurn p0 p1 p2 p3 u0 v1 := by
  simp only [turn, bilerpClosed, blendedTurn]
  ring

/-- Turn of a sub-quad at its corner `(u0, v0)`. -/
theorem turn_subquad_0 (p0 p1 p2 p3 : Vec3) (u0 u1 v0 v1 : ℚ) :
    turn (bilerpClosed p0 p1 p2 p3 u0 v1) (bilerpClosed p0 p1 p2 p3 u0 v0)
        (bilerpClosed p0 p1 p2 p3 u1 v0) =
      (u1 - u0) * (v1 - v0) * blendedTurn p0 p1 p2 p3 u0 v0 := by
  simp only [turn, bilerpClosed, blendedTurn]
  ring

/-- The image of a parameter rectangle inside the unit square under the
bilinear patch of a strictly convex anti-clockwise quadrilateral is again
strictly convex and anti-clockwise. -/
theorem subquad_strictlyConvexCCW (p0 p1 p2 p3 : Vec3) (h : strictlyConvexCCW p0 p1 p2 p3)
    (u0 u1 v0 v1 : ℚ) (hu0 : 0 ≤ u0) (hu : u0 < u1) (hu1 : u1 ≤ 1) (hv0 : 0 ≤ v0)
    (hv : v0 < v1) (hv1 : v1 ≤ 1) :
    strictlyConvexCCW (bilerpClosed p0 p1 p2 p3 u0 v0) (bilerpClosed p0 p1 p2 p3 u1 v0)
      (bilerpClosed p0 p1 p2 p3 u1 v1) (bilerpClosed p0 p1 p2 p3 u0 v1) := by
  have hA : 0 < (u1 - u0) * (v1 - v0) := mul_pos (by linarith) (by linarith)
  have a0 : 0 ≤ u1 := by linarith
  have a1 : u0 ≤ 1 := by linarith
  have b0 : 0 ≤ v1 := by linarith
  have b1 : v0 ≤ 1 := by linarith
  refine ⟨?_, ?_, ?_, ?_⟩
  · rw [turn_subquad_1]
    exact mul_pos hA (blendedTurn_pos p0 p1 p2 p3 h u1 v0 a0 hu1 hv0 b1)
  · rw [turn_subquad_2]
    exact mul_pos hA (blendedTurn_pos p0 p1 p2 p3 h u1 v1 a0 hu1 b0 hv1)
  · rw [turn_subquad_3]
    exact mul_pos hA (blendedTurn_pos p0 p1 p2 p3 h u0 v1 hu0 a1 b0 hv1)
  · rw [turn_subquad_0]
    exact mul_pos hA (blendedTurn_pos p0 p1 p2 p3 h u0 v0 hu0 a1 hv0 b1)

/-- The two grid parameters of a loop index lie in the unit interval, in
increasing order. -/
theorem grid_params (m i : ℕ) (hi : i < m) :
    0 ≤ (i : ℚ) / m ∧ (i : ℚ) / m < ((i + 1 : ℕ) : ℚ) / m ∧ ((i + 1 : ℕ) : ℚ) / m ≤ 1 := by
  have hm : (0 : ℚ) < m := by
    exact_mod_cast Nat.zero_lt_of_lt hi
  refine ⟨by positivity, ?_, ?_⟩
  · apply div_lt_div_of_pos_right _ hm
    push_cast
    linarith
  · rw [div_le_one hm]
    exact_mod_cast Nat.succ_le_of_lt hi

/-- A quad whose corners share the height `c` only produces vertices of
height `c`. -/
theorem closedVertex_pos_z (q : QuadArgs) (c : ℚ)
    (hplane : q.z0 = c ∧ q.z1 = c ∧ q.z2 = c ∧ q.z3 = c) (u v : ℚ) :
    (closedVertex q u v).pos.z = c := by
  obtain ⟨h0, h1, h2, h3⟩ := hplane
  simp only [closedVertex, bilerpClosed, corner0, corner1, corner2, corner3, h0, h1, h2, h3]
  ring

/-- What a cell emits is part of the output stream. -/
theorem mem_SubdivideAndDrawQuad_of_cell (m n : ℕ) (q : QuadArgs) (i j : ℕ) (hi : i < m)
    (hj : j < n) (e : Emitted) (he : e ∈ cellOutput m n q i j) :
    e ∈ SubdivideAndDrawQuad m n q := by
  simp only [SubdivideAndDrawQuad, outerBody, Int.toNat_ofNat, List.mem_flatMap,
    List.mem_range]
  exact ⟨i, hi, j, hj, he⟩

/-- Input corner 0 is emitted whenever both step counts are positive. -/
theorem corner0_mem (m n : ℕ) (hm : 1 ≤ m) (hn : 1 ≤ n) (q : QuadArgs) :
    corner0 q ∈ SubdivideAndDrawQuad m n q := by
  apply mem_SubdivideAndDrawQuad_of_cell m n q 0 0 hm hn
  rw [cellOutput_closed]
  simp [closedVertex_zero_zero]

/-- Input corner 2 is emitted whenever both step counts are positive. -/
theorem corner2_mem (m n : ℕ) (hm : 1 ≤ m) (hn : 1 ≤ n) (q : QuadArgs) :
    corner2 q ∈ SubdivideAndDrawQuad m n q := by
  apply mem_SubdivideAndDrawQuad_of_cell m n q (m - 1) (n - 1) (Nat.sub_lt hm Nat.one_pos)
    (Nat.sub_lt hn Nat.one_pos)
  rw [cellOutput_closed, last_step_param m hm, last_step_param n hn]
  simp [closedVertex_one_one]

/-- A non-positive step count makes the loops run zero times. -/
theorem SubdivideAndDrawQuad_nonpos (uSteps vSteps : ℤ) (q : QuadArgs)
    (h : uSteps ≤ 0 ∨ vSteps ≤ 0) : SubdivideAndDrawQuad uSteps vSteps q = [] := by
  rcases h with h | h
  · simp [SubdivideAndDrawQuad, Int.toNat_eq_zero.mpr h]
  · simp [SubdivideAndDrawQuad, outerBody, Int.toNat_eq_zero.mpr h]

/-! ## Auxiliary facts about navigation -/

/-- A property kept by every handled event holds after every event sequence. -/
theorem runEvents_invariant (P : Globals → Prop)
    (hstep : ∀ g e g1, P g → handleEvent g e = some g1 → P g1) :
    ∀ (evs : List Event) (g g1 : Globals), P g → runEvents g evs = some g1 → P g1 := by
  intro evs
  induction evs with
  | nil =>
    intro g g1 hg h
    simp only [runEvents, Option.some.injEq] at h
    exact h ▸ hg
  | cons e es ih =>
    intro g g1 hg h
    simp only [runEvents] at h
    cases he : handleEvent g e with
    | none => rw [he] at h; exact absurd h (by simp)
    | some g2 =>
      rw [he] at h
      exact ih g2 g1 (hstep g e g2 hg he) h

/-- The keyboard callback either leaves the eye state alone or resets it. -/
theorem MyKeyboard_eye (g g1 : Globals) (key : Char) (x y : ℤ)
    (h : MyKeyboard g key x y = some g1) :
    (g1.eyeLatitude = g.eyeLatitude ∧ g1.eyeLongitude = g.eyeLongitude ∧
      g1.eyeDistance = g.eyeDistance) ∨
    (g1.eyeLatitude = 0 ∧ g1.eyeLongitude = 0 ∧ g1.eyeDistance = EYE_INIT_DIST) := by
  unfold MyKeyboard at h
  split_ifs at h <;> simp only [Option.some.injEq] at h <;> subst h <;> simp

/-- Without a quit key among the events the program keeps running. -/
theorem runEvents_isSome (evs : List Event) (hq : ∀ e ∈ evs, ¬ isQuit e) (g : Globals) :
    ∃ g1, runEvents g evs = some g1 := by
  induction evs generalizing g with
  | nil => exact ⟨g, rfl⟩
  | cons e es ih =>
    have he : ¬ isQuit e := hq e (List.mem_cons_self e es)
    have hes : ∀ e1 ∈ es, ¬ isQuit e1 := fun e1 h1 => hq e1 (List.mem_cons_of_mem e h1)
    cases e with
    | keyboard key x y =>
      simp only [isQuit] at he
      have : ∃ g2, MyKeyboard g key x y = some g2 := by
        unfold MyKeyboard
        rw [if_neg he]
        split_ifs <;> exact ⟨_, rfl⟩
      obtain ⟨g2, hg2⟩ := this
      obtain ⟨g3, hg3⟩ := ih hes g2
      exact ⟨g3, by simp only [runEvents, handleEvent, hg2, hg3]⟩
    | special key modi x y =>
      obtain ⟨g3, hg3⟩ := ih hes (MySpecialKey g key modi x y)
      exact ⟨g3, by simp only [runEvents, handleEvent, hg3]⟩

/-- The latitude bounds are kept by every event. -/
theorem latitude_step (g : Globals) (e : Event) (g1 : Globals)
    (hg : EYE_MIN_LATITUDE ≤ g.eyeLatitude ∧ g.eyeLatitude ≤ EYE_MAX_LATITUDE)
    (h : handleEvent g e = some g1) :
    EYE_MIN_LATITUDE ≤ g1.eyeLatitude ∧ g1.eyeLatitude ≤ EYE_MAX_LATITUDE := by
  cases e with
  | keyboard key x y =>
    rcases MyKeyboard_eye g g1 key x y h with ⟨h1, _, _⟩ | ⟨h1, _, _⟩
    · rw [h1]; exact hg
    · rw [h1]; simp only [EYE_MIN_LATITUDE, EYE_MAX_LATITUDE]; norm_num
  | special key modi x y =>
    simp only [handleEvent, Option.some.injEq] at h
    subst h
    simp only [EYE_MIN_LATITUDE, EYE_MAX_LATITUDE, EYE_LATITUDE_INCR] at *
    unfold MySpecialKey
    simp only [EYE_MIN_LATITUDE, EYE_MAX_LATITUDE, EYE_LATITUDE_INCR]
    split_ifs <;> (try dsimp only) <;> constructor <;> linarith

/-- The lower bound on the distance is kept by every event. -/
theorem distance_step (g : Globals) (e : Event) (g1 : Globals)
    (hg : EYE_MIN_DIST ≤ g.eyeDistance) (h : handleEvent g e = some g1) :
    EYE_MIN_DIST ≤ g1.eyeDistance := by
  cases e with
  | keyboard key x y =>
    rcases MyKeyboard_eye g g1 key x y h with ⟨_, _, h1⟩ | ⟨_, _, h1⟩
    · rw [h1]; exact hg
    · rw [h1]; simp only [EYE_MIN_DIST, EYE_INIT_DIST]; norm_num
  | special key modi x y =>
    simp only [handleEvent, Option.some.injEq] at h
    subst h
    simp only [EYE_MIN_DIST, EYE_DIST_INCR] at *
    unfold MySpecialKey
    simp only [EYE_MIN_DIST, EYE_DIST_INCR]
    split_ifs <;> (try dsimp only) <;> linarith

/-- The longitude range `[-360, 360]` is kept by every event. -/
theorem longitude_step (g : Globals) (e : Event) (g1 : Globals)
    (hg : -360 ≤ g.eyeLongitude ∧ g.eyeLongitude ≤ 360) (h : handleEvent g e = some g1) :
    -360 ≤ g1.eyeLongitude ∧ g1.eyeLongitude ≤ 360 := by
  cases e with
  | keyboard key x y =>
    rcases MyKeyboard_eye g g1 key x y h with ⟨_, h1, _⟩ | ⟨_, h1, _⟩
    · rw [h1]; exact hg
    · rw [h1]; norm_num
  | special key modi x y =>
    simp only [handleEvent, Option.some.injEq] at h
    subst h
    unfold MySpecialKey
    simp only [EYE_LONGITUDE_INCR]
    split_ifs <;> (try dsimp only) <;> constructor <;> linarith

/-! ## Auxiliary facts: rational values of the sine -/

/-- The defining property of `twoCosPoly`. -/
theorem twoCosPoly_aeval (φ : ℝ) (n : ℕ) :
    Polynomial.aeval (2 * Real.cos φ) (twoCosPoly n) = 2 * Real.cos (n * φ) ∧
    Polynomial.aeval (2 * Real.cos φ) (twoCosPoly (n + 1)) = 2 * Real.cos ((n + 1 : ℕ) * φ) := by
  induction n with
  | zero =>
    simp only [twoCosPoly, Polynomial.aeval_C, Polynomial.aeval_X]
    simp
  | succ n ih =>
    obtain ⟨h0, h1⟩ := ih
    refine ⟨h1, ?_⟩
    have e : twoCosPoly (n + 1 + 1) = Polynomial.X * twoCosPoly (n + 1) - twoCosPoly n := by
      rw [twoCosPoly]
    rw [e, map_sub, map_mul, Polynomial.aeval_X, h0, h1]
    have e1 : ((n + 1 + 1 : ℕ) : ℝ) * φ = ((n + 1 : ℕ) : ℝ) * φ + φ := by push_cast; ring
    have e2 : (n : ℝ) * φ = ((n + 1 : ℕ) : ℝ) * φ - φ := by push_cast; ring
    rw [e1, e2, Real.cos_add, Real.cos_sub]
    ring

/-- The polynomials `twoCosPoly (n + 1)` are monic of degree `n + 1`. -/
theorem twoCosPoly_monic (n : ℕ) :
    (twoCosPoly n).natDegree ≤ n ∧ (twoCosPoly (n + 1)).Monic ∧
      (twoCosPoly (n + 1)).natDegree = n + 1 := by
  induction n with
  | zero =>
    refine ⟨?_, ?_, ?_⟩
    · simp [twoCosPoly]
    · simp only [twoCosPoly]
      exact Polynomial.monic_X
    · simp [twoCosPoly]
  | succ n ih =>
    obtain ⟨h0, hm, hd⟩ := ih
    have e : twoCosPoly (n + 1 + 1) = Polynomial.X * twoCosPoly (n + 1) - twoCosPoly n := by
      rw [twoCosPoly]
    have hXm : (Polynomial.X * twoCosPoly (n + 1)).Monic := Polynomial.monic_X.mul hm
    have hXd : (Polynomial.X * twoCosPoly (n + 1)).natDegree = n + 1 + 1 := by
      rw [Polynomial.natDegree_X_mul hm.ne_zero, hd]
    have hlt : (twoCosPoly n).natDegree < (Polynomial.X * twoCosPoly (n + 1)).natDegree := by
      rw [hXd]
      omega
    refine ⟨le_of_eq hd, ?_, ?_⟩
    · rw [e]
      exact hXm.sub_of_left (Polynomial.degree_lt_degree hlt)
    · rw [e, Polynomial.natDegree_sub_eq_left_of_natDegree_lt hlt, hXd]

/-- If `cos (N φ) = 1` for some `N ≥ 1` and `2 cos φ` is rational, then
`2 cos φ` is an integer. -/
theorem two_cos_rational_is_int (φ : ℝ) (N : ℕ) (hN : 1 ≤ N) (hper : Real.cos (N * φ) = 1)
    (q : ℚ) (hq : 2 * Real.cos φ = (q : ℝ)) : ∃ z : ℤ, q = (z : ℚ) := by
  obtain ⟨n, rfl⟩ : ∃ n, N = n + 1 := ⟨N - 1, (Nat.sub_add_cancel hN).symm⟩
  obtain ⟨_, hm, hd⟩ := twoCosPoly_monic n
  have hQm : (twoCosPoly (n + 1) - Polynomial.C 2).Monic := by
    apply hm.sub_of_left
    apply Polynomial.degree_lt_degree
    rw [Polynomial.natDegree_C, hd]
    omega
  have hroot : Polynomial.aeval (q : ℝ) (twoCosPoly (n + 1) - Polynomial.C 2) = 0 := by
    rw [← hq, map_sub, (twoCosPoly_aeval φ n).2, hper, Polynomial.aeval_C]
    simp
  have hrootQ : Polynomial.aeval q (twoCosPoly (n + 1) - Polynomial.C 2) = 0 := by
    have h := Polynomial.aeval_algebraMap_apply ℝ q (twoCosPoly (n + 1) - Polynomial.C 2)
    have h2 : (algebraMap ℚ ℝ) q = (q : ℝ) := rfl
    rw [h2, hroot] at h
    have h3 : (algebraMap ℚ ℝ) (Polynomial.aeval q (twoCosPoly (n + 1) - Polynomial.C 2)) =
        (algebraMap ℚ ℝ) 0 := by rw [← h, map_zero]
    exact (algebraMap ℚ ℝ).injective h3
  obtain ⟨z, hz⟩ := isInteger_of_is_root_of_monic hQm hrootQ
  exact ⟨z, by rw [← hz]; rfl⟩

/-- A rational value of the sine at a whole number of two-degree steps is
half an integer. -/
theorem sin_two_degrees_rational (k : ℤ) (q : ℚ)
    (hq : Real.sin ((k : ℝ) * Real.pi / 90) = (q : ℝ)) : ∃ z : ℤ, 2 * q = (z : ℚ) := by
  have hcos : Real.cos (((45 - k : ℤ) : ℝ) * Real.pi / 90) = (q : ℝ) := by
    rw [← hq, ← Real.cos_pi_div_two_sub]
    congr 1
    push_cast
    ring
  have hper : Real.cos (((180 : ℕ) : ℝ) * (((45 - k : ℤ) : ℝ) * Real.pi / 90)) = 1 := by
    have e : ((180 : ℕ) : ℝ) * (((45 - k : ℤ) : ℝ) * Real.pi / 90) =
        ((45 - k : ℤ) : ℝ) * (2 * Real.pi) := by
      push_cast
      ring
    rw [e]
    exact Real.cos_int_mul_two_pi (45 - k)
  have h2 : 2 * Real.cos (((45 - k : ℤ) : ℝ) * Real.pi / 90) = ((2 * q : ℚ) : ℝ) := by
    rw [hcos]
    push_cast
    ring
  exact two_cos_rational_is_int _ 180 (by norm_num) hper (2 * q) h2

/-! ## Auxiliary facts: the eye states navigation can produce -/

/-- What `MySpecialKey` does to the latitude. -/
theorem MySpecialKey_eyeLatitude (g : Globals) (key modi x y : ℤ) :
    (MySpecialKey g key modi x y).eyeLatitude = g.eyeLatitude ∨
    (MySpecialKey g key modi x y).eyeLatitude = min (g.eyeLatitude + 2) 88 ∨
    (MySpecialKey g key modi x y).eyeLatitude = max (g.eyeLatitude - 2) (-88) := by
  unfold MySpecialKey
  simp only [EYE_LATITUDE_INCR, EYE_MAX_LATITUDE, EYE_MIN_LATITUDE]
  split_ifs with h1 h2 h3 h4 h5 h6 h7 h8 <;> (try dsimp only) <;>
    first
    | exact Or.inl rfl
    | exact Or.inr (Or.inl (min_eq_right (le_of_lt (by assumption))).symm)
    | exact Or.inr (Or.inl (min_eq_left (not_lt.mp (by assumption))).symm)
    | exact Or.inr (Or.inr (max_eq_right (le_of_lt (by assumption))).symm)
    | exact Or.inr (Or.inr (max_eq_left (not_lt.mp (by assumption))).symm)

/-- What `MySpecialKey` does to the distance. -/
theorem MySpecialKey_eyeDistance (g : Globals) (key modi x y : ℤ) :
    (MySpecialKey g key modi x y).eyeDistance = g.eyeDistance ∨
    (MySpecialKey g key modi x y).eyeDistance = max (g.eyeDistance - 1 / 5) (1 / 10) ∨
    (MySpecialKey g key modi x y).eyeDistance = g.eyeDistance + 1 / 5 := by
  unfold MySpecialKey
  simp only [EYE_DIST_INCR, EYE_MIN_DIST]
  split_ifs with h1 h2 h3 h4 h5 h6 h7 h8 <;> (try dsimp only) <;>
    first
    | exact Or.inl rfl
    | exact Or.inr (Or.inr rfl)
    | exact Or.inr (Or.inl (max_eq_right (le_of_lt (by assumption))).symm)
    | exact Or.inr (Or.inl (max_eq_left (not_lt.mp (by assumption))).symm)

/-- Every event keeps the eye state on the navigation grid. -/
theorem onNavigationGrid_step (g : Globals) (e : Event) (g1 : Globals)
    (hg : onNavigationGrid g) (h : handleEvent g e = some g1) : onNavigationGrid g1 := by
  obtain ⟨⟨k, hk1, hk2, hk⟩, ⟨n, hn1, hn⟩⟩ := hg
  cases e with
  | keyboard key x y =>
    rcases MyKeyboard_eye g g1 key x y h with ⟨h1, _, h3⟩ | ⟨h1, _, h3⟩
    · exact ⟨⟨k, hk1, hk2, by rw [h1, hk]⟩, ⟨n, hn1, by rw [h3, hn]⟩⟩
    · refine ⟨⟨0, by norm_num, by norm_num, by rw [h1]; norm_num⟩, ⟨50, by norm_num, ?_⟩⟩
      rw [h3]
      norm_num [EYE_INIT_DIST]
  | special key modi x y =>
    simp only [handleEvent, Option.some.injEq] at h
    subst h
    constructor
    · rcases MySpecialKey_eyeLatitude g key modi x y with h1 | h1 | h1
      · exact ⟨k, hk1, hk2, by rw [h1, hk]⟩
      · rw [h1, hk]
        by_cases hc : k ≤ 43
        · refine ⟨k + 1, by omega, by omega, ?_⟩
          have : (2 : ℚ) * k + 2 ≤ 88 := by
            have : (k : ℚ) ≤ 43 := by exact_mod_cast hc
            linarith
          rw [min_eq_left this]
          push_cast
          ring
        · have hk44 : k = 44 := by omega
          subst hk44
          exact ⟨44, by norm_num, by norm_num, by norm_num⟩
      · rw [h1, hk]
        by_cases hc : -43 ≤ k
        · refine ⟨k - 1, by omega, by omega, ?_⟩
          have : (-88 : ℚ) ≤ 2 * k - 2 := by
            have : (-43 : ℚ) ≤ k := by exact_mod_cast hc
            linarith
          rw [max_eq_left this]
          push_cast
          ring
        · have hk44 : k = -44 := by omega
          subst hk44
          exact ⟨-44, by norm_num, by norm_num, by norm_num⟩
    · rcases MySpecialKey_eyeDistance g key modi x y with h1 | h1 | h1
      · exact ⟨n, hn1, by rw [h1, hn]⟩
      · rw [h1, hn]
        by_cases hc : 3 ≤ n
        · refine ⟨n - 2, by omega, ?_⟩
          have h3 : (3 : ℚ) ≤ n := by exact_mod_cast hc
          have : (1 / 10 : ℚ) ≤ n / 10 - 1 / 5 := by linarith
          rw [max_eq_left this, Nat.cast_sub (by omega)]
          push_cast
          ring
        · refine ⟨1, by norm_num, ?_⟩
          have h3 : (n : ℚ) ≤ 2 := by exact_mod_cast (by omega : n ≤ 2)
          have : (n : ℚ) / 10 - 1 / 5 ≤ 1 / 10 := by linarith
          rw [max_eq_right this]
          norm_num
      · exact ⟨n + 2, by omega, by rw [h1, hn]; push_cast; ring⟩

/-- The initial eye state lies on the navigation grid. -/
theorem onNavigationGrid_initial : onNavigationGrid initialGlobals := by
  refine ⟨⟨0, by norm_num, by norm_num, by simp [initialGlobals]⟩, ⟨50, by norm_num, ?_⟩⟩
  norm_num [initialGlobals, EYE_INIT_DIST]

/-- Every state reached from the initial state lies on the navigation grid. -/
theorem onNavigationGrid_reachable (evs : List Event) (g : Globals)
    (h : runEvents initialGlobals evs = some g) : onNavigationGrid g :=
  runEvents_invariant onNavigationGrid onNavigationGrid_step evs initialGlobals g
    onNavigationGrid_initial h

/-- Events handled one batch after the other. -/
theorem runEvents_append (g : Globals) (a b : List Event) :
    runEvents g (a ++ b) = (runEvents g a).bind (fun g1 => runEvents g1 b) := by
  induction a generalizing g with
  | nil => rfl
  | cons e es ih =>
    simp only [List.cons_append, runEvents]
    cases handleEvent g e with
    | none => rfl
    | some g2 => exact ih g2

/-- Pressing UP `k` times raises the latitude by `2 k` degrees while that
stays within the upper limit. -/
theorem runEvents_up (k : ℕ) (g : Globals) (x y : ℤ)
    (h : g.eyeLatitude + 2 * k ≤ EYE_MAX_LATITUDE) :
    runEvents g (List.replicate k (Event.special GLUT_KEY_UP 0 x y)) =
      some { g with eyeLatitude := g.eyeLatitude + 2 * k } := by
  induction k generalizing g with
  | zero => simp [runEvents]
  | succ k ih =>
    have hk : (0 : ℚ) ≤ k := Nat.cast_nonneg k
    push_cast at h
    have hstep : MySpecialKey g GLUT_KEY_UP 0 x y =
        { g with eyeLatitude := g.eyeLatitude + 2 } := by
      simp only [MySpecialKey, GLUT_KEY_UP, GLUT_KEY_LEFT, GLUT_KEY_RIGHT, GLUT_ACTIVE_SHIFT,
        EYE_LATITUDE_INCR]
      norm_num
      intro hgt
      linarith
    simp only [List.replicate_succ, runEvents, handleEvent, hstep]
    rw [ih _ (by dsimp only; linarith)]
    simp only [Option.some.injEq, Globals.mk.injEq, and_true, true_and]
    push_cast
    ring

/-- Pressing SHIFT+UP `k` times lowers the distance by `0.2 k` while that
stays above the lower limit. -/
theorem runEvents_shift_up (k : ℕ) (g : Globals) (x y : ℤ)
    (h : EYE_MIN_DIST ≤ g.eyeDistance - k / 5) :
    runEvents g (List.replicate k (Event.special GLUT_KEY_UP GLUT_ACTIVE_SHIFT x y)) =
      some { g with eyeDistance := g.eyeDistance - k / 5 } := by
  induction k generalizing g with
  | zero => simp [runEvents]
  | succ k ih =>
    have hk : (0 : ℚ) ≤ k := Nat.cast_nonneg k
    push_cast at h
    have hstep : MySpecialKey g GLUT_KEY_UP GLUT_ACTIVE_SHIFT x y =
        { g with eyeDistance := g.eyeDistance - 1 / 5 } := by
      simp only [MySpecialKey, GLUT_KEY_UP, GLUT_KEY_LEFT, GLUT_KEY_RIGHT, GLUT_ACTIVE_SHIFT,
        EYE_DIST_INCR]
      norm_num
      intro hlt
      linarith
    simp only [List.replicate_succ, runEvents, handleEvent, hstep]
    rw [ih _ (by dsimp only; linarith)]
    simp only [Option.some.injEq, Globals.mk.injEq, and_true, true_and]
    push_cast
    ring

/-- In exact arithmetic fifteen UP presses followed by twenty-three SHIFT+UP
presses lead from the initial state to latitude 30 degrees and distance 0.4. -/
theorem runEvents_to_degenerate :
    runEvents initialGlobals
        (List.replicate 15 (Event.special GLUT_KEY_UP 0 0 0) ++
          List.replicate 23 (Event.special GLUT_KEY_UP GLUT_ACTIVE_SHIFT 0 0)) =
      some ⟨30, 0, 2 / 5, true, false, true⟩ := by
  rw [runEvents_append, runEvents_up 15 initialGlobals 0 0
    (by norm_num [initialGlobals, EYE_MAX_LATITUDE])]
  simp only [Option.some_bind]
  rw [runEvents_shift_up 23 _ 0 0 (by norm_num [initialGlobals, EYE_MIN_DIST, EYE_INIT_DIST])]
  simp only [initialGlobals, EYE_INIT_DIST, Option.some.injEq, Globals.mk.injEq, and_true,
    true_and]
  norm_num

/-- The sine of thirty degrees. -/
theorem sin_thirty_degrees : Real.sin ((30 : ℝ) * Real.pi / 180) = 1 / 2 := by
  have e : (30 : ℝ) * Real.pi / 180 = Real.pi / 6 := by ring
  rw [e, Real.sin_pi_div_six]

/-- On the navigation grid of exact arithmetic the eye height `MyDisplay`
computes equals the tabletop height exactly at latitude 30 degrees and distance
0.4. -/
theorem eyePos_z_eq_tabletop_iff (g : Globals) (hg : onNavigationGrid g) :
    (MyDisplay_eyePos g).z = (TABLETOP_Z : ℝ) ↔ g.eyeLatitude = 30 ∧ g.eyeDistance = 2 / 5 := by
  obtain ⟨⟨k, hk1, hk2, hk⟩, ⟨n, hn1, hn⟩⟩ := hg
  simp only [MyDisplay_eyePos, LOOKAT_Z, TABLETOP_Z]
  constructor
  · intro h
    rw [hk, hn] at h ⊢
    have hnpos : (0 : ℝ) < n := by exact_mod_cast hn1
    have harg : (((2 * k : ℚ)) : ℝ) * Real.pi / 180 = (k : ℝ) * Real.pi / 90 := by
      push_cast
      ring
    rw [harg] at h
    have hsin : Real.sin ((k : ℝ) * Real.pi / 90) = (((2 / n : ℚ)) : ℝ) := by
      push_cast at h ⊢
      field_simp
      field_simp at h
      linarith
    obtain ⟨z, hz⟩ := sin_two_degrees_rational k (2 / n) hsin
    have hnq : (n : ℚ) ≠ 0 := by
      have : (0 : ℚ) < n := by exact_mod_cast hn1
      exact this.ne'
    have h4 : (4 : ℤ) = z * n := by
      have : (4 : ℚ) = z * n := by
        field_simp at hz
        linarith
      exact_mod_cast this
    have hpi : 0 < Real.pi := Real.pi_pos
    have hlo : -(Real.pi / 2) ≤ (k : ℝ) * Real.pi / 90 := by
      have : (-44 : ℝ) ≤ k := by exact_mod_cast hk1
      nlinarith
    have hhi : (k : ℝ) * Real.pi / 90 < Real.pi / 2 := by
      have : (k : ℝ) ≤ 44 := by exact_mod_cast hk2
      nlinarith
    have hsin_lt : Real.sin ((k : ℝ) * Real.pi / 90) < 1 := by
      have := Real.strictMonoOn_sin ⟨hlo, hhi.le⟩ ⟨by linarith, le_refl _⟩ hhi
      rwa [Real.sin_pi_div_two] at this
    have hn_dvd : (n : ℤ) ∣ 4 := ⟨z, by rw [h4]; ring⟩
    have hn_le : n ≤ 4 := by
      have := Int.le_of_dvd (by norm_num) hn_dvd
      exact_mod_cast this
    interval_cases n
    · rw [hsin] at hsin_lt
      norm_num at hsin_lt
    · rw [hsin] at hsin_lt
      norm_num at hsin_lt
    · omega
    · have hhalf : Real.sin ((k : ℝ) * Real.pi / 90) = Real.sin (Real.pi / 6) := by
        rw [hsin, Real.sin_pi_div_six]
        norm_num
      have hinj := Real.injOn_sin ⟨hlo, hhi.le⟩
        ⟨by linarith, by linarith⟩ hhalf
      have hk15 : (k : ℝ) = 15 := by
        have : (k : ℝ) * Real.pi = 15 * Real.pi := by linarith
        exact mul_right_cancel₀ hpi.ne' this
      have hk15z : k = 15 := by exact_mod_cast hk15
      subst hk15z
      norm_num
  · rintro ⟨h1, h2⟩
    rw [h1, h2]
    have e : (((30 : ℚ)) : ℝ) * Real.pi / 180 = (30 : ℝ) * Real.pi / 180 := by norm_num
    rw [e, sin_thirty_degrees]
    norm_num

/-! ## Auxiliary facts: convex combinations of the corners -/

/-- A bilinear blend with parameters in the unit square stays between the
least and the greatest of the four blended values. -/
theorem withinCorners_bilinear (a b c d u v : ℚ) (hu0 : 0 ≤ u) (hu1 : u ≤ 1) (hv0 : 0 ≤ v)
    (hv1 : v ≤ 1) :
    withinCorners a b c d
      ((1 - u) * (1 - v) * a + u * (1 - v) * b + u * v * c + (1 - u) * v * d) := by
  have hu : 0 ≤ 1 - u := by linarith
  have hv : 0 ≤ 1 - v := by linarith
  have w0 := mul_nonneg hu hv
  have w1 := mul_nonneg hu0 hv
  have w2 := mul_nonneg hu0 hv0
  have w3 := mul_nonneg hu hv0
  have la : cornerMin a b c d ≤ a := by simp [cornerMin]
  have ua : a ≤ cornerMax a b c d := by simp [cornerMax]
  have lb : cornerMin a b c d ≤ b := by simp [cornerMin]
  have ub : b ≤ cornerMax a b c d := by simp [cornerMax]
  have lc : cornerMin a b c d ≤ c := by simp [cornerMin]
  have uc : c ≤ cornerMax a b c d := by simp [cornerMax]
  have ld : cornerMin a b c d ≤ d := by simp [cornerMin]
  have ud : d ≤ cornerMax a b c d := by simp [cornerMax]
  constructor
  · nlinarith [mul_nonneg w0 (sub_nonneg.mpr la), mul_nonneg w1 (sub_nonneg.mpr lb),
      mul_nonneg w2 (sub_nonneg.mpr lc), mul_nonneg w3 (sub_nonneg.mpr ld)]
  · nlinarith [mul_nonneg w0 (sub_nonneg.mpr ua), mul_nonneg w1 (sub_nonneg.mpr ub),
      mul_nonneg w2 (sub_nonneg.mpr uc), mul_nonneg w3 (sub_nonneg.mpr ud)]

/-- A grid parameter `a / m` with `a ≤ m` lies in the unit interval. -/
theorem grid_param_unit (m a : ℕ) (ha : a ≤ m) : 0 ≤ (a : ℚ) / m ∧ (a : ℚ) / m ≤ 1 := by
  refine ⟨by positivity, ?_⟩
  rcases Nat.eq_zero_or_pos m with h | h
  · subst h
    simp
  · have hm : (0 : ℚ) < m := by exact_mod_cast h
    rw [div_le_one hm]
    exact_mod_cast ha

/-- The third entry of every emitted texture-coordinate array is zero. -/
theorem closedVertex_tc_z (q : QuadArgs) (u v : ℚ) : (closedVertex q u v).tc.z = 0 := by
  simp [closedVertex, bilerpClosed, corner0, corner1, corner2, corner3]

/-- With the eye above the tabletop, and only then, the `glFrustum` call of
`MakeReflectionImage` is accepted. -/
theorem mirror_frustum_valid_iff (ex ey ez : ℚ) :
    frustumValid (MakeReflectionImage_glFrustum ⟨ex, ey, ez⟩) ↔ TABLETOP_Z < ez := by
  constructor
  · intro h
    have h1 := h.1
    simp only [MakeReflectionImage_glFrustum] at h1
    linarith
  · exact mirror_frustum_valid ex ey ez

/-! ## Auxiliary facts: rounding to binary floating point -/

/-- A value less than one half above an integer rounds to that integer. -/
theorem roundHalfEven_below (x : ℚ) (f : ℤ) (h1 : (f : ℚ) ≤ x) (h2 : x - f < 1 / 2) :
    roundHalfEven x = f := by
  have hf : ⌊x⌋ = f := by
    rw [Int.floor_eq_iff]; constructor <;> linarith
  simp only [roundHalfEven, hf, if_pos h2]

/-- A value more than one half above an integer rounds to the next integer. -/
theorem roundHalfEven_above (x : ℚ) (f : ℤ) (h1 : 1 / 2 < x - f) (h2 : x < f + 1) :
    roundHalfEven x = f + 1 := by
  have hf : ⌊x⌋ = f := by
    rw [Int.floor_eq_iff]; constructor <;> linarith
  have h3 : ¬ (x - f < 1 / 2) := by linarith
  simp only [roundHalfEven, hf, if_neg h3, if_pos h1]

/-- A value half-way above an odd integer rounds to the next integer, which is
even. -/
theorem roundHalfEven_tie_odd (x : ℚ) (f : ℤ) (h1 : x - f = 1 / 2) (h2 : f % 2 = 1) :
    roundHalfEven x = f + 1 := by
  have hf : ⌊x⌋ = f := by
    rw [Int.floor_eq_iff]; constructor <;> linarith
  have h3 : ¬ (x - f < 1 / 2) := by linarith
  have h4 : ¬ (1 / 2 < x - f) := by linarith
  have h5 : ¬ (f % 2 = 0) := by omega
  simp only [roundHalfEven, hf, if_neg h3, if_neg h4, if_neg h5]

/-- The rounded integer is within one half of the value. -/
theorem roundHalfEven_near (t : ℚ) :
    (roundHalfEven t : ℚ) ≤ t + 1 / 2 ∧ t - 1 / 2 ≤ (roundHalfEven t : ℚ) := by
  have h1 : ((⌊t⌋ : ℤ) : ℚ) ≤ t := Int.floor_le t
  have h2 : t < ((⌊t⌋ : ℤ) : ℚ) + 1 := Int.lt_floor_add_one t
  unfold roundHalfEven
  dsimp only
  split_ifs with a b c
  · constructor <;> linarith
  · push_cast; constructor <;> linarith
  · constructor <;> linarith
  · push_cast; constructor <;> linarith

/-- Rounding does not go below an integer the value is not below. -/
theorem le_roundHalfEven (m : ℤ) (t : ℚ) (h : (m : ℚ) ≤ t) : m ≤ roundHalfEven t := by
  have h1 := (roundHalfEven_near t).2
  have h2 : (m : ℚ) < ((roundHalfEven t + 1 : ℤ) : ℚ) := by push_cast; linarith
  have h3 : m < roundHalfEven t + 1 := by exact_mod_cast h2
  omega

/-- Rounding does not go above an integer the value is not above. -/
theorem roundHalfEven_le (m : ℤ) (t : ℚ) (h : t ≤ (m : ℚ)) : roundHalfEven t ≤ m := by
  have h1 := (roundHalfEven_near t).1
  have h2 : ((roundHalfEven t : ℤ) : ℚ) < ((m + 1 : ℤ) : ℚ) := by push_cast; linarith
  have h3 : roundHalfEven t < m + 1 := by exact_mod_cast h2
  omega

/-- The exponent of a value in the binade of `e`, within the normal range. -/
theorem binaryExponent_eq (emin : ℤ) (x : ℚ) (e : ℤ) (h1 : (2 : ℚ) ^ e ≤ |x|)
    (h2 : |x| < (2 : ℚ) ^ (e + 1)) (hmin : emin ≤ e) : binaryExponent emin x = e := by
  have hx : 0 < |x| := lt_of_lt_of_le (by positivity) h1
  have hlog : Int.log 2 |x| = e := by
    apply le_antisymm
    · have := (Int.lt_zpow_iff_log_lt (b := 2) (by norm_num) hx (x := e + 1)).mp
        (by exact_mod_cast h2)
      omega
    · exact (Int.zpow_le_iff_le_log (b := 2) (by norm_num) hx).mp (by exact_mod_cast h1)
  rw [binaryExponent, hlog, max_eq_left hmin]

/-- Evaluation of `roundBinary` on a value of known binade: `n` units in the
last place, for `n` the rounded quotient. -/
theorem roundBinary_eq (p : ℕ) (emin emax : ℤ) (x : ℚ) (e n : ℤ) (lo hi ulp top : ℚ)
    (hlo : (2 : ℚ) ^ e = lo) (hhi : (2 : ℚ) ^ (e + 1) = hi)
    (hulp : (2 : ℚ) ^ (e - ((p : ℤ) - 1)) = ulp) (htop : (2 : ℚ) ^ (emax + 1) = top)
    (h1 : lo ≤ |x|) (h2 : |x| < hi) (hmin : emin ≤ e)
    (hn : roundHalfEven (x / ulp) = n) (hfin : |(n : ℚ) * ulp| < top) :
    roundBinary p emin emax x = some ((n : ℚ) * ulp) := by
  have hlo0 : (0 : ℚ) < lo := by rw [← hlo]; positivity
  have hx : 0 < |x| := lt_of_lt_of_le hlo0 h1
  have hx0 : x ≠ 0 := abs_pos.mp hx
  have he : binaryExponent emin x = e :=
    binaryExponent_eq emin x e (by rw [hlo]; exact h1) (by rw [hhi]; exact h2) hmin
  simp only [roundBinary, if_neg hx0, he, hulp, hn, htop, if_pos hfin]

/-- What `roundF64` returns on a nonzero argument. -/
theorem roundF64_some (x y : ℚ) (h : roundF64 x = some y) (hx : x ≠ 0) :
    y = (roundHalfEven (x / 2 ^ (binaryExponent (-1022) x - 52)) : ℚ) *
      2 ^ (binaryExponent (-1022) x - 52) := by
  unfold roundF64 roundBinary at h
  rw [if_neg hx] at h
  dsimp only at h
  split_ifs at h
  simp only [Option.some.injEq] at h
  rw [← h]
  norm_num

/-- The exponent is at least the least exponent of the format. -/
theorem binaryExponent_ge (emin : ℤ) (x : ℚ) : emin ≤ binaryExponent emin x :=
  le_max_right _ _

/-- A value lies below the power of two that follows its exponent. -/
theorem lt_zpow_binaryExponent (emin : ℤ) (x : ℚ) :
    |x| < (2 : ℚ) ^ (binaryExponent emin x + 1) := by
  have h := Int.lt_zpow_succ_log_self (b := 2) (by norm_num) |x|
  refine lt_of_lt_of_le (by exact_mod_cast h) ?_
  apply zpow_le_zpow_right₀ (by norm_num)
  have : Int.log 2 |x| ≤ binaryExponent emin x := le_max_left _ _
  omega

/-- A value that reaches a power of two of the normal range has at least that
exponent and reaches the power of two of its own exponent. -/
theorem zpow_binaryExponent_le (emin : ℤ) (x : ℚ) (a : ℤ) (ha : emin ≤ a)
    (h : (2 : ℚ) ^ a ≤ |x|) : a ≤ binaryExponent emin x ∧ (2 : ℚ) ^ binaryExponent emin x ≤ |x| := by
  have hx : 0 < |x| := lt_of_lt_of_le (by positivity) h
  have hlog : a ≤ Int.log 2 |x| :=
    (Int.zpow_le_iff_le_log (b := 2) (by norm_num) hx).mp (by exact_mod_cast h)
  have he : binaryExponent emin x = Int.log 2 |x| := max_eq_left (le_trans ha hlog)
  rw [he]
  refine ⟨hlog, ?_⟩
  have := Int.zpow_log_le_self (b := 2) (by norm_num) hx
  exact_mod_cast this

/-- Splitting off the 52 fraction bits of a `double`. -/
theorem two_zpow_split_52 (E : ℤ) : (2 : ℚ) ^ E = 4503599627370496 * 2 ^ (E - 52) := by
  have h : (4503599627370496 : ℚ) = 2 ^ (52 : ℤ) := by norm_num
  rw [h, ← zpow_add₀ (by norm_num)]
  congr 1
  ring

/-- Splitting off the 53 significant bits of a `double`. -/
theorem two_zpow_split_53 (E : ℤ) : (2 : ℚ) ^ (E + 1) = 9007199254740992 * 2 ^ (E - 52) := by
  have h : (9007199254740992 : ℚ) = 2 ^ (53 : ℤ) := by norm_num
  rw [h, ← zpow_add₀ (by norm_num)]
  congr 1
  ring

/-- Rounding keeps the sign: a non-positive value rounds to a non-positive one. -/
theorem roundF64_nonpos (x y : ℚ) (h : roundF64 x = some y) (hx : x ≤ 0) : y ≤ 0 := by
  by_cases h0 : x = 0
  · subst h0
    simp [roundF64, roundBinary] at h
    linarith
  · rw [roundF64_some x y h h0]
    have hu : (0 : ℚ) < 2 ^ (binaryExponent (-1022) x - 52) := by positivity
    have ht : x / 2 ^ (binaryExponent (-1022) x - 52) ≤ ((0 : ℤ) : ℚ) := by
      rw [Int.cast_zero]
      exact div_nonpos_of_nonpos_of_nonneg hx hu.le
    have hn := roundHalfEven_le 0 _ ht
    have hn2 : (roundHalfEven (x / 2 ^ (binaryExponent (-1022) x - 52)) : ℚ) ≤ 0 := by
      exact_mod_cast hn
    exact mul_nonpos_of_nonpos_of_nonneg hn2 hu.le

/-- Rounding does not cross a power of two from above. -/
theorem roundF64_ge_zpow (x y : ℚ) (a : ℤ) (h : roundF64 x = some y) (ha : -1022 ≤ a)
    (hx : (2 : ℚ) ^ a ≤ x) : (2 : ℚ) ^ a ≤ y := by
  have hpos : (0 : ℚ) < x := lt_of_lt_of_le (by positivity) hx
  have habs : |x| = x := abs_of_pos hpos
  obtain ⟨hE, hEx⟩ := zpow_binaryExponent_le (-1022) x a ha (by rw [habs]; exact hx)
  rw [habs] at hEx
  rw [roundF64_some x y h hpos.ne']
  set E := binaryExponent (-1022) x with hEdef
  have hu : (0 : ℚ) < 2 ^ (E - 52) := by positivity
  have hsplit := two_zpow_split_52 E
  have ht : ((4503599627370496 : ℤ) : ℚ) ≤ x / 2 ^ (E - 52) := by
    rw [le_div_iff₀ hu]
    push_cast
    rw [← hsplit]
    exact hEx
  have hn := le_roundHalfEven _ _ ht
  have hn2 : (4503599627370496 : ℚ) ≤ (roundHalfEven (x / 2 ^ (E - 52)) : ℚ) := by
    exact_mod_cast hn
  calc (2 : ℚ) ^ a ≤ 2 ^ E := zpow_le_zpow_right₀ (by norm_num) hE
    _ = 4503599627370496 * 2 ^ (E - 52) := hsplit
    _ ≤ _ := mul_le_mul_of_nonneg_right hn2 hu.le

/-- A positive value rounds to at most the next power of two above its
exponent. -/
theorem roundF64_le_next (x y : ℚ) (h : roundF64 x = some y) (hx : 0 < x) :
    y ≤ (2 : ℚ) ^ (binaryExponent (-1022) x + 1) := by
  have habs : |x| = x := abs_of_pos hx
  have hlt := lt_zpow_binaryExponent (-1022) x
  rw [habs] at hlt
  rw [roundF64_some x y h hx.ne']
  set E := binaryExponent (-1022) x with hEdef
  have hu : (0 : ℚ) < 2 ^ (E - 52) := by positivity
  have hsplit := two_zpow_split_53 E
  have ht : x / 2 ^ (E - 52) ≤ ((9007199254740992 : ℤ) : ℚ) := by
    rw [div_le_iff₀ hu]
    push_cast
    rw [← hsplit]
    exact hlt.le
  have hn := roundHalfEven_le _ _ ht
  have hn2 : (roundHalfEven (x / 2 ^ (E - 52)) : ℚ) ≤ (9007199254740992 : ℚ) := by
    exact_mod_cast hn
  rw [hsplit]
  exact mul_le_mul_of_nonneg_right hn2 hu.le

/-- Rounding does not cross a power of two from below. -/
theorem roundF64_le_zpow (x y : ℚ) (a : ℤ) (h : roundF64 x = some y) (ha : -1022 < a)
    (hx : x < (2 : ℚ) ^ a) : y ≤ (2 : ℚ) ^ a := by
  by_cases hpos : 0 < x
  · have habs : |x| = x := abs_of_pos hpos
    have hlog : Int.log 2 |x| < a :=
      (Int.lt_zpow_iff_log_lt (b := 2) (by norm_num) (by rw [habs]; exact hpos)).mp
        (by rw [habs]; exact_mod_cast hx)
    have hE : binaryExponent (-1022) x + 1 ≤ a := by
      have : binaryExponent (-1022) x < a := max_lt hlog ha
      omega
    exact le_trans (roundF64_le_next x y h hpos) (zpow_le_zpow_right₀ (by norm_num) hE)
  · have := roundF64_nonpos x y h (not_lt.mp hpos)
    have h2 : (0 : ℚ) < 2 ^ a := by positivity
    linarith

/-- A rounded value in a binade is a multiple of the unit in the last place
of that binade. -/
theorem roundF64_grid (x y : ℚ) (a : ℤ) (h : roundF64 x = some y) (ha : -1022 ≤ a)
    (h1 : (2 : ℚ) ^ a ≤ y) (h2 : y < (2 : ℚ) ^ (a + 1)) :
    ∃ k : ℤ, y = (k : ℚ) * 2 ^ (a - 52) := by
  have hy : (0 : ℚ) < y := lt_of_lt_of_le (by positivity) h1
  have hx : 0 < x := by
    by_contra hneg
    have := roundF64_nonpos x y h (not_lt.mp hneg)
    linarith
  have habs : |x| = x := abs_of_pos hx
  set E := binaryExponent (-1022) x with hEdef
  have hEa : E ≤ a := by
    by_contra hgt
    have hgt : a + 1 ≤ E := by omega
    have hElog : E = Int.log 2 |x| := by
      rcases max_choice (Int.log 2 |x|) (-1022) with hc | hc
      · exact hc
      · have : E = -1022 := hc
        omega
    have hEx : (2 : ℚ) ^ E ≤ x := by
      have := Int.zpow_log_le_self (b := 2) (r := |x|) (by norm_num) (by rw [habs]; exact hx)
      rw [hElog]
      rw [habs] at this ⊢
      exact_mod_cast this
    have := roundF64_ge_zpow x y E h (by omega) hEx
    have := zpow_le_zpow_right₀ (by norm_num : (1 : ℚ) ≤ 2) hgt
    linarith
  rcases eq_or_lt_of_le hEa with heq | hlt
  · refine ⟨roundHalfEven (x / 2 ^ (E - 52)), ?_⟩
    rw [← heq]
    exact roundF64_some x y h hx.ne'
  · have hle := roundF64_le_next x y h hx
    have hle2 : (2 : ℚ) ^ (E + 1) ≤ 2 ^ a := zpow_le_zpow_right₀ (by norm_num) (by omega)
    have hya : y = 2 ^ a := le_antisymm (le_trans hle hle2) h1
    refine ⟨4503599627370496, ?_⟩
    rw [hya]
    push_cast
    exact two_zpow_split_52 a

/-- Within a binade the rounded value is the nearest multiple of the unit in
the last place. -/
theorem roundF64_near (x y : ℚ) (a : ℤ) (h : roundF64 x = some y) (ha : -1022 ≤ a)
    (h1 : (2 : ℚ) ^ a ≤ x) (h2 : x < (2 : ℚ) ^ (a + 1)) :
    ∃ n : ℤ, y = (n : ℚ) * 2 ^ (a - 52) ∧ (n : ℚ) ≤ x / 2 ^ (a - 52) + 1 / 2 ∧
      x / 2 ^ (a - 52) - 1 / 2 ≤ (n : ℚ) := by
  have hx : (0 : ℚ) < x := lt_of_lt_of_le (by positivity) h1
  have habs : |x| = x := abs_of_pos hx
  have hE : binaryExponent (-1022) x = a :=
    binaryExponent_eq (-1022) x a (by rw [habs]; exact h1) (by rw [habs]; exact h2) ha
  have hy := roundF64_some x y h hx.ne'
  rw [hE] at hy
  exact ⟨_, hy, roundHalfEven_near _⟩

/-- Rounding a value below `2 ^ 1023` in magnitude gives a finite value. -/
theorem roundF64_isSome (x : ℚ) (h : |x| < (2 : ℚ) ^ (1023 : ℤ)) : ∃ y, roundF64 x = some y := by
  by_cases h0 : x = 0
  · exact ⟨0, by simp [roundF64, roundBinary, h0]⟩
  · have hx : 0 < |x| := abs_pos.mpr h0
    have hlog : Int.log 2 |x| < 1023 :=
      (Int.lt_zpow_iff_log_lt (b := 2) (by norm_num) hx).mp (by exact_mod_cast h)
    have hE : binaryExponent (-1022) x + 1 ≤ 1023 := by
      have : binaryExponent (-1022) x < 1023 := max_lt hlog (by norm_num)
      omega
    have hlt := lt_zpow_binaryExponent (-1022) x
    have e52 : (((53 : ℕ) : ℤ) - 1) = 52 := by norm_num
    unfold roundF64 roundBinary
    rw [if_neg h0]
    dsimp only
    rw [e52]
    set E := binaryExponent (-1022) x with hEdef
    have hu : (0 : ℚ) < 2 ^ (E - 52) := by positivity
    have hsplit := two_zpow_split_53 E
    have ht := abs_lt.mp hlt
    have ht1 : x / 2 ^ (E - 52) ≤ ((9007199254740992 : ℤ) : ℚ) := by
      rw [div_le_iff₀ hu]
      push_cast
      rw [← hsplit]
      exact ht.2.le
    have ht2 : ((-9007199254740992 : ℤ) : ℚ) ≤ x / 2 ^ (E - 52) := by
      rw [le_div_iff₀ hu]
      push_cast
      rw [neg_mul, ← hsplit]
      exact ht.1.le
    have hn1 := roundHalfEven_le _ _ ht1
    have hn2 := le_roundHalfEven _ _ ht2
    have hn3 : |(roundHalfEven (x / 2 ^ (E - 52)) : ℚ)| ≤ 9007199254740992 := by
      rw [abs_le]
      constructor
      · exact_mod_cast hn2
      · exact_mod_cast hn1
    have hfin : |(roundHalfEven (x / 2 ^ (E - 52)) : ℚ) * 2 ^ (E - 52)| <
        (2 : ℚ) ^ ((1023 : ℤ) + 1) := by
      rw [abs_mul, abs_of_pos hu]
      calc |(roundHalfEven (x / 2 ^ (E - 52)) : ℚ)| * 2 ^ (E - 52)
          ≤ 9007199254740992 * 2 ^ (E - 52) := mul_le_mul_of_nonneg_right hn3 hu.le
        _ = 2 ^ (E + 1) := hsplit.symm
        _ ≤ 2 ^ (1023 : ℤ) := zpow_le_zpow_right₀ (by norm_num) hE
        _ < 2 ^ ((1023 : ℤ) + 1) := zpow_lt_zpow_right₀ (by norm_num) (by norm_num)
    rw [if_pos hfin]
    exact ⟨_, rfl⟩

/-- A rounded value is a dyadic rational. -/
theorem roundF64_dyadic (x y : ℚ) (h : roundF64 x = some y) :
    ∃ n : ℤ, ∃ k : ℕ, y * 2 ^ k = (n : ℚ) := by
  by_cases h0 : x = 0
  · subst h0
    simp [roundF64, roundBinary] at h
    exact ⟨0, 0, by rw [← h]; simp⟩
  · have hy := roundF64_some x y h h0
    set E := binaryExponent (-1022) x with hEdef
    set n := roundHalfEven (x / 2 ^ (E - 52)) with hn
    by_cases hs : 0 ≤ E - 52
    · refine ⟨n * 2 ^ (E - 52).toNat, 0, ?_⟩
      rw [hy]
      push_cast
      rw [pow_zero, mul_one, ← zpow_natCast, Int.toNat_of_nonneg hs]
    · refine ⟨n, (52 - E).toNat, ?_⟩
      rw [hy, mul_assoc, ← zpow_natCast, ← zpow_add₀ (by norm_num),
        Int.toNat_of_nonneg (by omega)]
      have : E - 52 + (52 - E) = 0 := by ring
      rw [this, zpow_zero, mul_one]

/-- Two fifths is not a dyadic rational. -/
theorem two_fifths_not_dyadic (n : ℤ) (k : ℕ) : (2 / 5 : ℚ) * 2 ^ k ≠ (n : ℚ) := by
  intro h
  have h1 : ((2 ^ (k + 1) : ℤ) : ℚ) = ((5 * n : ℤ) : ℚ) := by
    push_cast
    rw [← h]
    ring
  have h2 : (2 : ℤ) ^ (k + 1) = 5 * n := by exact_mod_cast h1
  have h3 : (5 : ℤ) ∣ 2 ^ (k + 1) := ⟨n, h2⟩
  have h4 : (5 : ℤ) ∣ 2 := Int.Prime.dvd_pow' (by norm_num) h3
  omega

/-! ## Auxiliary facts: the tessellation in `float` arithmetic -/

/-- Zero is a `float`. -/
theorem roundF32_zero : roundF32 0 = some 0 := by
  simp [roundF32, roundBinary]

/-- A value with at most 24 significant bits in the normal range is a `float`:
`n * ulp` with `2 ^ 23 ≤ |n| < 2 ^ 24`. -/
theorem roundF32_exact (x : ℚ) (e n : ℤ) (lo hi ulp : ℚ)
    (hlo : (2 : ℚ) ^ e = lo) (hhi : (2 : ℚ) ^ (e + 1) = hi)
    (hulp : (2 : ℚ) ^ (e - ((24 : ℕ) - 1 : ℤ)) = ulp)
    (h1 : lo ≤ |x|) (h2 : |x| < hi) (hmin : -126 ≤ e) (hmax : e ≤ 127)
    (hx : x = (n : ℚ) * ulp) :
    roundF32 x = some x := by
  have hup : (0 : ℚ) < ulp := by rw [← hulp]; positivity
  have hn : roundHalfEven (x / ulp) = n := by
    apply roundHalfEven_below
    · rw [hx, mul_div_assoc, div_self hup.ne', mul_one]
    · rw [hx, mul_div_assoc, div_self hup.ne', mul_one]; norm_num
  have hfin : |(n : ℚ) * ulp| < 2 ^ (127 + 1 : ℤ) := by
    rw [← hx]
    refine lt_of_lt_of_le h2 ?_
    rw [← hhi]
    exact zpow_le_zpow_right₀ (by norm_num) (by omega)
  have h := roundBinary_eq 24 (-126) 127 x e n lo hi ulp (2 ^ (127 + 1 : ℤ)) hlo hhi hulp rfl
    h1 h2 hmin hn hfin
  rw [roundF32, h, hx]

/-- One is a `float`. -/
theorem roundF32_one : roundF32 1 = some 1 :=
  roundF32_exact 1 0 8388608 1 2 (1 / 8388608) (by norm_num) (by norm_num) (by norm_num)
    (by norm_num) (by norm_num) (by norm_num) (by norm_num) (by norm_num)

/-- Minus one is a `float`. -/
theorem roundF32_neg_one : roundF32 (-1) = some (-1) :=
  roundF32_exact (-1) 0 (-8388608) 1 2 (1 / 8388608) (by norm_num) (by norm_num) (by norm_num)
    (by norm_num) (by norm_num) (by norm_num) (by norm_num) (by norm_num)

/-- Minus three is a `float`. -/
theorem roundF32_neg_three : roundF32 (-3) = some (-3) :=
  roundF32_exact (-3) 1 (-12582912) 2 4 (1 / 4194304) (by norm_num) (by norm_num) (by norm_num)
    (by norm_num) (by norm_num) (by norm_num) (by norm_num) (by norm_num)

/-- The rounded difference of the two x values of `lastPlaceQuad` is a `float`. -/
theorem roundF32_span : roundF32 (13421773 / 4194304) = some (13421773 / 4194304) :=
  roundF32_exact (13421773 / 4194304) 1 13421773 2 4 (1 / 4194304) (by norm_num) (by norm_num)
    (by norm_num) (by norm_num [abs_of_pos]) (by norm_num [abs_of_pos]) (by norm_num) (by norm_num) (by norm_num)

/-- The value 0.20000004768371582 is a `float`. -/
theorem roundF32_overshoot : roundF32 (838861 / 4194304) = some (838861 / 4194304) :=
  roundF32_exact (838861 / 4194304) (-3) 13421776 (1 / 8) (1 / 4) (1 / 67108864) (by norm_num)
    (by norm_num) (by norm_num) (by norm_num [abs_of_pos]) (by norm_num [abs_of_pos]) (by norm_num) (by norm_num) (by norm_num)

/-- The `float` nearest to 0.2. -/
theorem roundF32_fifth : roundF32 (1 / 5) = some (13421773 / 67108864) := by
  have h := roundBinary_eq 24 (-126) 127 (1 / 5) (-3) 13421773 (1 / 8) (1 / 4) (1 / 67108864)
    (2 ^ 128) (by norm_num) (by norm_num) (by norm_num) (by norm_num)
    (by rw [abs_of_pos] <;> norm_num) (by rw [abs_of_pos] <;> norm_num) (by norm_num)
    (by
      have := roundHalfEven_above ((1 / 5) / (1 / 67108864)) 13421772
        (by norm_num) (by norm_num)
      simpa using this)
    (by rw [abs_of_pos] <;> norm_num)
  rw [roundF32, h]; norm_num

/-- The difference `0.2f - (-3.0f)` is not a `float`; it rounds upwards. -/
theorem roundF32_sum : roundF32 (214748365 / 67108864) = some (13421773 / 4194304) := by
  have h := roundBinary_eq 24 (-126) 127 (214748365 / 67108864) 1 13421773 2 4 (1 / 4194304)
    (2 ^ 128) (by norm_num) (by norm_num) (by norm_num) (by norm_num)
    (by rw [abs_of_pos] <;> norm_num) (by rw [abs_of_pos] <;> norm_num) (by norm_num)
    (by
      have := roundHalfEven_above ((214748365 / 67108864) / (1 / 4194304)) 13421772
        (by norm_num) (by norm_num)
      simpa using this)
    (by rw [abs_of_pos] <;> norm_num)
  rw [roundF32, h]; norm_num

/-- The four pairs the 1 x 1 call emits for `lastPlaceQuad` in `float`
arithmetic: the x of the second and third vertex is 0.20000004768371582. -/
theorem SubdivideAndDrawQuadF32_lastPlaceQuad :
    SubdivideAndDrawQuadF32 1 1 lastPlaceQuad =
      [⟨⟨some 0, some 0, some 0⟩, ⟨some (-3), some 0, some 0⟩⟩,
       ⟨⟨some 1, some 0, some 0⟩, ⟨some (838861 / 4194304), some 0, some 0⟩⟩,
       ⟨⟨some 1, some 1, some 0⟩, ⟨some (838861 / 4194304), some 1, some 0⟩⟩,
       ⟨⟨some 0, some 1, some 0⟩, ⟨some (-3), some 1, some 0⟩⟩] := by
  norm_num [SubdivideAndDrawQuadF32, outerBodyF32, innerBodyF32, blendF32, interpF32, addF32,
    subF32, mulF32, stepParamF32, lastPlaceQuad, roundF32_zero, roundF32_one, List.range_succ,
    roundF32_neg_one, roundF32_neg_three, roundF32_sum, roundF32_span, roundF32_overshoot]

/-- The `float` nearest to 0.2 is a `float`. -/
theorem roundF32_fifth_exact :
    roundF32 (13421773 / 67108864) = some (13421773 / 67108864) :=
  roundF32_exact (13421773 / 67108864) (-3) 13421773 (1 / 8) (1 / 4) (1 / 67108864)
    (by norm_num) (by norm_num) (by norm_num) (by norm_num [abs_of_pos])
    (by norm_num [abs_of_pos]) (by norm_num) (by norm_num) (by norm_num)

/-- Every parameter of `lastPlaceQuad` is a `float`. -/
theorem lastPlaceQuad_isF32 : quadIsF32 lastPlaceQuad := by
  intro x hx
  simp only [lastPlaceQuad, List.mem_cons, List.mem_singleton, List.not_mem_nil, or_false] at hx
  rcases hx with h | h | h | h | h | h | h | h | h | h | h | h | h | h | h | h | h | h | h | h <;>
    subst h <;>
    first
    | exact roundF32_zero
    | exact roundF32_one
    | exact roundF32_neg_three
    | exact roundF32_fifth_exact

/-! ## Auxiliary facts: navigation with a `double` distance -/

/-- The literal 5.0 is a `double`. -/
theorem roundF64_five : roundF64 5 = some 5 := by
  have h := roundBinary_eq 53 (-1022) 1023 5 2 5629499534213120 4 8 (1 / 1125899906842624)
    (2 ^ 1024) (by norm_num) (by norm_num) (by norm_num) (by norm_num)
    (by rw [abs_of_pos] <;> norm_num) (by rw [abs_of_pos] <;> norm_num) (by norm_num)
    (roundHalfEven_below _ _ (by norm_num) (by norm_num))
    (by rw [abs_of_pos] <;> norm_num)
  rw [roundF64, h]
  norm_num

/-- The literal 0.1 denotes the `double` `EYE_MIN_DIST_F64`. -/
theorem roundF64_tenth : roundF64 (1 / 10) = some EYE_MIN_DIST_F64 := by
  have h := roundBinary_eq 53 (-1022) 1023 (1 / 10) (-4) 7205759403792794 (1 / 16) (1 / 8)
    (1 / 72057594037927936) (2 ^ 1024) (by norm_num) (by norm_num) (by norm_num) (by norm_num)
    (by rw [abs_of_pos] <;> norm_num) (by rw [abs_of_pos] <;> norm_num) (by norm_num)
    (by
      have := roundHalfEven_above ((1 / 10) / (1 / 72057594037927936)) 7205759403792793
        (by norm_num) (by norm_num)
      simpa using this)
    (by rw [abs_of_pos] <;> norm_num)
  rw [roundF64, h, EYE_MIN_DIST_F64]
  norm_num

/-- The literal 0.2 denotes the `double` `EYE_DIST_INCR_F64`. -/
theorem roundF64_fifth : roundF64 (1 / 5) = some EYE_DIST_INCR_F64 := by
  have h := roundBinary_eq 53 (-1022) 1023 (1 / 5) (-3) 7205759403792794 (1 / 8) (1 / 4)
    (1 / 36028797018963968) (2 ^ 1024) (by norm_num) (by norm_num) (by norm_num) (by norm_num)
    (by rw [abs_of_pos] <;> norm_num) (by rw [abs_of_pos] <;> norm_num) (by norm_num)
    (by
      have := roundHalfEven_above ((1 / 5) / (1 / 36028797018963968)) 7205759403792793
        (by norm_num) (by norm_num)
      simpa using this)
    (by rw [abs_of_pos] <;> norm_num)
  rw [roundF64, h, EYE_DIST_INCR_F64]
  norm_num

/-- The literal 1.2 denotes the `double` `TABLETOP_Z_F64`. -/
theorem roundF64_tabletop : roundF64 (6 / 5) = some TABLETOP_Z_F64 := by
  have h := roundBinary_eq 53 (-1022) 1023 (6 / 5) 0 5404319552844595 1 2
    (1 / 4503599627370496) (2 ^ 1024) (by norm_num) (by norm_num) (by norm_num) (by norm_num)
    (by rw [abs_of_pos] <;> norm_num) (by rw [abs_of_pos] <;> norm_num) (by norm_num)
    (roundHalfEven_below _ _ (by norm_num) (by norm_num))
    (by rw [abs_of_pos] <;> norm_num)
  rw [roundF64, h, TABLETOP_Z_F64]
  norm_num


/-- The initial distance satisfies the invariant. -/
theorem distanceInvariantF64_init : distanceInvariantF64 EYE_INIT_DIST := by
  refine ⟨⟨5, roundF64_five⟩, by norm_num [EYE_MIN_DIST_F64, EYE_INIT_DIST],
    by norm_num [EYE_INIT_DIST], ?_⟩
  unfold nearDegenerateF64 EYE_INIT_DIST
  norm_num

/-- The minimum distance satisfies the invariant. -/
theorem distanceInvariantF64_min : distanceInvariantF64 EYE_MIN_DIST_F64 := by
  refine ⟨⟨1 / 10, roundF64_tenth⟩, le_refl _, by norm_num [EYE_MIN_DIST_F64], ?_⟩
  unfold nearDegenerateF64 EYE_MIN_DIST_F64
  norm_num

/-- An integer within one half of another integer equals it. -/
theorem int_eq_of_near (a b : ℤ) (h1 : (a : ℚ) ≤ b + 1 / 2) (h2 : (b : ℚ) - 1 / 2 ≤ a) :
    a = b := by
  have h3 : ((a : ℤ) : ℚ) < ((b + 1 : ℤ) : ℚ) := by push_cast; linarith
  have h4 : ((b - 1 : ℤ) : ℚ) < ((a : ℤ) : ℚ) := by push_cast; linarith
  have h5 : a < b + 1 := by exact_mod_cast h3
  have h6 : b - 1 < a := by exact_mod_cast h4
  omega

/-- The statement `eyeDistance += EYE_DIST_INCR` keeps the invariant. -/
theorem distanceInvariantF64_inc (d : ℚ) (hd : distanceInvariantF64 d) :
    ∃ y : ℚ, roundF64 (d + EYE_DIST_INCR_F64) = some y ∧ distanceInvariantF64 y := by
  obtain ⟨⟨x0, hx0⟩, hmn, hmax, hB⟩ := hd
  unfold EYE_MIN_DIST_F64 at hmn
  obtain ⟨y, h⟩ := roundF64_isSome (d + EYE_DIST_INCR_F64) (by
    unfold EYE_DIST_INCR_F64
    rw [abs_of_pos (by linarith)]
    have : (9007199254740993 : ℚ) < 2 ^ (1023 : ℤ) := by norm_num
    linarith)
  refine ⟨y, h, ?_⟩
  unfold EYE_DIST_INCR_F64 at h
  have e2 : (2 : ℚ) ^ (-2 : ℤ) = 1 / 4 := by norm_num
  have e1 : (2 : ℚ) ^ (-1 : ℤ) = 1 / 2 := by norm_num
  have e3 : (2 : ℚ) ^ (-3 : ℤ) = 1 / 8 := by norm_num
  have u2 : (2 : ℚ) ^ ((-2 : ℤ) - 52) = 1 / 18014398509481984 := by norm_num
  have u3 : (2 : ℚ) ^ ((-3 : ℤ) - 52) = 1 / 36028797018963968 := by norm_num
  have hy4 : 1 / 4 ≤ y := by
    have := roundF64_ge_zpow _ y (-2) h (by norm_num) (by rw [e2]; linarith)
    rwa [e2] at this
  have hy53 : y ≤ 9007199254740992 := by
    have e53 : (2 : ℚ) ^ (53 : ℤ) = 9007199254740992 := by norm_num
    have e54 : (2 : ℚ) ^ ((53 : ℤ) + 1) = 18014398509481984 := by norm_num
    have u53 : (2 : ℚ) ^ ((53 : ℤ) - 52) = 2 := by norm_num
    by_cases hx53 : d + 3602879701896397 / 18014398509481984 < 9007199254740992
    · have := roundF64_le_zpow _ y 53 h (by norm_num) (by rw [e53]; exact hx53)
      rwa [e53] at this
    · obtain ⟨n, hn, hn1, _⟩ := roundF64_near _ y 53 h (by norm_num)
        (by rw [e53]; exact not_lt.mp hx53) (by rw [e54]; linarith)
      rw [u53] at hn hn1
      have hn3 : ((n : ℤ) : ℚ) < ((4503599627370496 + 1 : ℤ) : ℚ) := by push_cast; linarith
      have hn4 : n < 4503599627370496 + 1 := by exact_mod_cast hn3
      have hn5 : (n : ℚ) ≤ ((4503599627370496 : ℤ) : ℚ) := by exact_mod_cast (by omega : n ≤ _)
      push_cast at hn5
      rw [hn]
      linarith
  refine ⟨⟨_, h⟩, by unfold EYE_MIN_DIST_F64; linarith, hy53, ?_⟩
  rintro (h1 | h1 | h1 | h1)
  · subst h1
    have hxlt : d + 3602879701896397 / 18014398509481984 < 1 / 2 := by
      by_contra hge
      have := roundF64_ge_zpow _ _ (-1) h (by norm_num) (by rw [e1]; linarith)
      rw [e1] at this
      norm_num at this
    obtain ⟨n, hn, hn1, hn2⟩ := roundF64_near _ _ (-2) h (by norm_num) (by rw [e2]; linarith)
      (by norm_num; linarith)
    rw [u2] at hn hn1 hn2
    have hnN : n = 7205759403792792 := by
      have : (n : ℚ) = 7205759403792792 := by linarith
      exact_mod_cast this
    subst hnN
    push_cast at hn1 hn2
    obtain ⟨k, hk⟩ := roundF64_grid x0 d (-3) hx0 (by norm_num) (by rw [e3]; linarith)
      (by norm_num; linarith)
    rw [u3] at hk
    rw [hk] at hn1 hn2
    have hk1 : ((7205759403792789 : ℤ) : ℚ) ≤ (k : ℚ) := by push_cast; linarith
    have hk2 : (k : ℚ) ≤ ((7205759403792791 : ℤ) : ℚ) := by push_cast; linarith
    have hk3 : 7205759403792789 ≤ k := by exact_mod_cast hk1
    have hk4 : k ≤ 7205759403792791 := by exact_mod_cast hk2
    have hk5 : k = 7205759403792789 ∨ k = 7205759403792790 ∨ k = 7205759403792791 := by omega
    apply hB
    rcases hk5 with hk5 | hk5 | hk5 <;> subst hk5
    · exact Or.inr (Or.inl (by rw [hk]; norm_num))
    · exact Or.inr (Or.inr (Or.inl (by rw [hk]; norm_num)))
    · exact Or.inr (Or.inr (Or.inr (by rw [hk]; norm_num)))
  · subst h1; norm_num at hy4
  · subst h1; norm_num at hy4
  · subst h1; norm_num at hy4

/-- A `double` distance from which `eyeDistance -= EYE_DIST_INCR` leads to a
value next to the `double` 0.2 lies on the grid of the binade of 0.4, and the
difference is exact. -/
theorem distance_before_fifth (d x0 y : ℚ) (j : ℤ) (hx0 : roundF64 x0 = some d)
    (h : roundF64 (d - EYE_DIST_INCR_F64) = some y) (hy : y = (j : ℚ) / 36028797018963968)
    (hj1 : 7205759403792789 ≤ j) (hj2 : j ≤ 7205759403792791) :
    ∃ k : ℤ, d = (k : ℚ) / 18014398509481984 ∧ 2 * k - 7205759403792794 = j := by
  unfold EYE_DIST_INCR_F64 at h
  have e2 : (2 : ℚ) ^ (-2 : ℤ) = 1 / 4 := by norm_num
  have e2b : (2 : ℚ) ^ ((-2 : ℤ) + 1) = 1 / 2 := by norm_num
  have e3 : (2 : ℚ) ^ (-3 : ℤ) = 1 / 8 := by norm_num
  have e3b : (2 : ℚ) ^ ((-3 : ℤ) + 1) = 1 / 4 := by norm_num
  have u2 : (2 : ℚ) ^ ((-2 : ℤ) - 52) = 1 / 18014398509481984 := by norm_num
  have u3 : (2 : ℚ) ^ ((-3 : ℤ) - 52) = 1 / 36028797018963968 := by norm_num
  have hj1q : ((7205759403792789 : ℤ) : ℚ) ≤ (j : ℚ) := by exact_mod_cast hj1
  have hj2q : (j : ℚ) ≤ ((7205759403792791 : ℤ) : ℚ) := by exact_mod_cast hj2
  push_cast at hj1q hj2q
  have hylo : 1 / 8 < y := by rw [hy]; linarith
  have hyhi : y < 1 / 4 := by rw [hy]; linarith
  have hx1 : 1 / 8 ≤ d - 3602879701896397 / 18014398509481984 := by
    by_contra hlt
    have := roundF64_le_zpow _ _ (-3) h (by norm_num) (by rw [e3]; exact not_le.mp hlt)
    rw [e3] at this
    linarith
  have hx2 : d - 3602879701896397 / 18014398509481984 < 1 / 4 := by
    by_contra hge
    have := roundF64_ge_zpow _ _ (-2) h (by norm_num) (by rw [e2]; exact not_lt.mp hge)
    rw [e2] at this
    linarith
  obtain ⟨n, hn, hn1, hn2⟩ := roundF64_near _ _ (-3) h (by norm_num) (by rw [e3]; exact hx1)
    (by rw [e3b]; exact hx2)
  rw [u3] at hn hn1 hn2
  have hnj : n = j := by
    have : (n : ℚ) = (j : ℚ) := by rw [hy] at hn; linarith
    exact_mod_cast this
  subst hnj
  obtain ⟨k, hk⟩ := roundF64_grid x0 d (-2) hx0 (by norm_num) (by rw [e2]; linarith)
    (by rw [e2b]; linarith)
  rw [u2] at hk
  refine ⟨k, by rw [hk]; ring, ?_⟩
  rw [hk] at hn1 hn2
  apply int_eq_of_near
  · push_cast; linarith
  · push_cast; linarith

/-- The statements `eyeDistance -= EYE_DIST_INCR; if ( eyeDistance <
EYE_MIN_DIST ) eyeDistance = EYE_MIN_DIST;` keep the invariant. -/
theorem distanceInvariantF64_dec (d : ℚ) (hd : distanceInvariantF64 d) :
    ∃ y : ℚ, roundF64 (d - EYE_DIST_INCR_F64) = some y ∧
      distanceInvariantF64 (if y < EYE_MIN_DIST_F64 then EYE_MIN_DIST_F64 else y) := by
  obtain ⟨⟨x0, hx0⟩, hmn, hmax, hB⟩ := hd
  obtain ⟨y, h⟩ := roundF64_isSome (d - EYE_DIST_INCR_F64) (by
    unfold EYE_DIST_INCR_F64
    unfold EYE_MIN_DIST_F64 at hmn
    have : (9007199254740993 : ℚ) < 2 ^ (1023 : ℤ) := by norm_num
    rw [abs_lt]
    constructor <;> linarith)
  refine ⟨y, h, ?_⟩
  by_cases hlt : y < EYE_MIN_DIST_F64
  · rw [if_pos hlt]
    exact distanceInvariantF64_min
  · rw [if_neg hlt]
    have hy53 : y ≤ 9007199254740992 := by
      have e53 : (2 : ℚ) ^ (53 : ℤ) = 9007199254740992 := by norm_num
      have := roundF64_le_zpow _ y 53 h (by norm_num)
        (by rw [e53]; unfold EYE_DIST_INCR_F64; linarith)
      rwa [e53] at this
    refine ⟨⟨_, h⟩, not_lt.mp hlt, hy53, ?_⟩
    rintro (h1 | h1 | h1 | h1)
    · unfold EYE_DIST_INCR_F64 at h
      have e2 : (2 : ℚ) ^ (-2 : ℤ) = 1 / 4 := by norm_num
      have e2b : (2 : ℚ) ^ ((-2 : ℤ) + 1) = 1 / 2 := by norm_num
      have e1 : (2 : ℚ) ^ (-1 : ℤ) = 1 / 2 := by norm_num
      have e1b : (2 : ℚ) ^ ((-1 : ℤ) + 1) = 1 := by norm_num
      have u2 : (2 : ℚ) ^ ((-2 : ℤ) - 52) = 1 / 18014398509481984 := by norm_num
      have u1 : (2 : ℚ) ^ ((-1 : ℤ) - 52) = 1 / 9007199254740992 := by norm_num
      subst h1
      have hx1 : 1 / 4 ≤ d - 3602879701896397 / 18014398509481984 := by
        by_contra hlt2
        have := roundF64_le_zpow _ _ (-2) h (by norm_num) (by rw [e2]; exact not_le.mp hlt2)
        rw [e2] at this
        norm_num at this
      have hx2 : d - 3602879701896397 / 18014398509481984 < 1 / 2 := by
        by_contra hge
        have := roundF64_ge_zpow _ _ (-1) h (by norm_num) (by rw [e1]; exact not_lt.mp hge)
        rw [e1] at this
        norm_num at this
      obtain ⟨n, hn, hn1, hn2⟩ := roundF64_near _ _ (-2) h (by norm_num) (by rw [e2]; exact hx1)
        (by rw [e2b]; exact hx2)
      rw [u2] at hn hn1 hn2
      have hnN : n = 7205759403792792 := by
        have : (n : ℚ) = 7205759403792792 := by linarith
        exact_mod_cast this
      subst hnN
      push_cast at hn1 hn2
      obtain ⟨k, hk⟩ := roundF64_grid x0 d (-1) hx0 (by norm_num) (by rw [e1]; linarith)
        (by rw [e1b]; linarith)
      rw [u1] at hk
      rw [hk] at hn1 hn2
      have hpar : 2 * k - 3602879701896397 = 7205759403792792 := by
        apply int_eq_of_near
        · push_cast; linarith
        · push_cast; linarith
      omega
    · obtain ⟨k, _, hk2⟩ := distance_before_fifth d x0 y 7205759403792789 hx0 h
        (by rw [h1]; norm_num) (by norm_num) (by norm_num)
      omega
    · obtain ⟨k, hk1, hk2⟩ := distance_before_fifth d x0 y 7205759403792790 hx0 h
        (by rw [h1]; norm_num) (by norm_num) (by norm_num)
      have hk : k = 7205759403792792 := by omega
      subst hk
      exact hB (Or.inl (by rw [hk1]; norm_num))
    · obtain ⟨k, _, hk2⟩ := distance_before_fifth d x0 y 7205759403792791 hx0 h
        (by rw [h1]; norm_num) (by norm_num) (by norm_num)
      omega


/-- A property kept by every handled event holds after every event sequence. -/
theorem runEventsF64_invariant (P : GlobalsF64 → Prop)
    (hstep : ∀ g e g1, P g → handleEventF64 g e = some g1 → P g1) :
    ∀ (evs : List Event) (g g1 : GlobalsF64), P g → runEventsF64 g evs = some g1 → P g1 := by
  intro evs
  induction evs with
  | nil =>
    intro g g1 hg h
    simp only [runEventsF64, Option.some.injEq] at h
    exact h ▸ hg
  | cons e es ih =>
    intro g g1 hg h
    simp only [runEventsF64] at h
    cases he : handleEventF64 g e with
    | none => rw [he] at h; exact absurd h (by simp)
    | some g2 =>
      rw [he] at h
      exact ih g2 g1 (hstep g e g2 hg he) h

/-- The keyboard callback either leaves the eye state alone or resets it. -/
theorem MyKeyboardF64_eye (g g1 : GlobalsF64) (key : Char) (x y : ℤ)
    (h : MyKeyboardF64 g key x y = some g1) :
    (g1.eyeLatitude = g.eyeLatitude ∧ g1.eyeDistance = g.eyeDistance) ∨
    (g1.eyeLatitude = 0 ∧ g1.eyeDistance = some EYE_INIT_DIST) := by
  unfold MyKeyboardF64 at h
  split_ifs at h <;> simp only [Option.some.injEq] at h <;> subst h <;> simp

/-- What `MySpecialKeyF64` does to the latitude. -/
theorem MySpecialKeyF64_eyeLatitude (g : GlobalsF64) (key modi x y : ℤ) :
    (MySpecialKeyF64 g key modi x y).eyeLatitude = g.eyeLatitude ∨
    (MySpecialKeyF64 g key modi x y).eyeLatitude = min (g.eyeLatitude + 2) 88 ∨
    (MySpecialKeyF64 g key modi x y).eyeLatitude = max (g.eyeLatitude - 2) (-88) := by
  unfold MySpecialKeyF64
  simp only [EYE_LATITUDE_INCR, EYE_MAX_LATITUDE, EYE_MIN_LATITUDE]
  split_ifs with h1 h2 h3 h4 h5 h6 h7 h8 <;> (try dsimp only) <;>
    first
    | exact Or.inl rfl
    | exact Or.inr (Or.inl (min_eq_right (le_of_lt (by assumption))).symm)
    | exact Or.inr (Or.inl (min_eq_left (not_lt.mp (by assumption))).symm)
    | exact Or.inr (Or.inr (max_eq_right (le_of_lt (by assumption))).symm)
    | exact Or.inr (Or.inr (max_eq_left (not_lt.mp (by assumption))).symm)

/-- What `MySpecialKeyF64` does to the distance. -/
theorem MySpecialKeyF64_eyeDistance (g : GlobalsF64) (key modi x y : ℤ) :
    (MySpecialKeyF64 g key modi x y).eyeDistance = g.eyeDistance ∨
    (MySpecialKeyF64 g key modi x y).eyeDistance =
      (g.eyeDistance.bind fun x => roundF64 (x - EYE_DIST_INCR_F64)).map
        (fun x => if x < EYE_MIN_DIST_F64 then EYE_MIN_DIST_F64 else x) ∨
    (MySpecialKeyF64 g key modi x y).eyeDistance =
      g.eyeDistance.bind fun x => roundF64 (x + EYE_DIST_INCR_F64) := by
  unfold MySpecialKeyF64
  split_ifs <;> (try dsimp only) <;>
    first
    | exact Or.inl rfl
    | exact Or.inr (Or.inl rfl)
    | exact Or.inr (Or.inr rfl)

/-- Every event keeps the navigation invariant. -/
theorem navigationInvariantF64_step (g : GlobalsF64) (e : Event) (g1 : GlobalsF64)
    (hg : navigationInvariantF64 g) (h : handleEventF64 g e = some g1) :
    navigationInvariantF64 g1 := by
  obtain ⟨⟨k, hk1, hk2, hk⟩, d0, h0, hd0⟩ := hg
  cases e with
  | keyboard key x y =>
    rcases MyKeyboardF64_eye g g1 key x y h with ⟨h1, h3⟩ | ⟨h1, h3⟩
    · exact ⟨⟨k, hk1, hk2, by rw [h1, hk]⟩, d0, by rw [h3, h0], hd0⟩
    · exact ⟨⟨0, by norm_num, by norm_num, by rw [h1]; norm_num⟩, EYE_INIT_DIST, h3,
        distanceInvariantF64_init⟩
  | special key modi x y =>
    simp only [handleEventF64, Option.some.injEq] at h
    subst h
    constructor
    · rcases MySpecialKeyF64_eyeLatitude g key modi x y with h1 | h1 | h1
      · exact ⟨k, hk1, hk2, by rw [h1, hk]⟩
      · rw [h1, hk]
        by_cases hc : k ≤ 43
        · refine ⟨k + 1, by omega, by omega, ?_⟩
          have : (2 : ℚ) * k + 2 ≤ 88 := by
            have : (k : ℚ) ≤ 43 := by exact_mod_cast hc
            linarith
          rw [min_eq_left this]
          push_cast
          ring
        · have hk44 : k = 44 := by omega
          subst hk44
          exact ⟨44, by norm_num, by norm_num, by norm_num⟩
      · rw [h1, hk]
        by_cases hc : -43 ≤ k
        · refine ⟨k - 1, by omega, by omega, ?_⟩
          have : (-88 : ℚ) ≤ 2 * k - 2 := by
            have : (-43 : ℚ) ≤ k := by exact_mod_cast hc
            linarith
          rw [max_eq_left this]
          push_cast
          ring
        · have hk44 : k = -44 := by omega
          subst hk44
          exact ⟨-44, by norm_num, by norm_num, by norm_num⟩
    · rcases MySpecialKeyF64_eyeDistance g key modi x y with h1 | h1 | h1
      · exact ⟨d0, by rw [h1, h0], hd0⟩
      · obtain ⟨y1, hy1, hinv⟩ := distanceInvariantF64_dec d0 hd0
        exact ⟨_, by rw [h1, h0, Option.some_bind, hy1, Option.map_some'], hinv⟩
      · obtain ⟨y1, hy1, hinv⟩ := distanceInvariantF64_inc d0 hd0
        exact ⟨y1, by rw [h1, h0, Option.some_bind, hy1], hinv⟩

/-- The initial eye state satisfies the navigation invariant. -/
theorem navigationInvariantF64_initial : navigationInvariantF64 initialGlobalsF64 := by
  exact ⟨⟨0, by norm_num, by norm_num, by simp [initialGlobalsF64]⟩, EYE_INIT_DIST, rfl,
    distanceInvariantF64_init⟩

/-- Every state reached from the initial state satisfies the navigation
invariant. -/
theorem navigationInvariantF64_reachable (evs : List Event) (g : GlobalsF64)
    (h : runEventsF64 initialGlobalsF64 evs = some g) : navigationInvariantF64 g :=
  runEventsF64_invariant navigationInvariantF64 navigationInvariantF64_step evs
    initialGlobalsF64 g navigationInvariantF64_initial h

/-- At a whole number of two-degree steps short of the poles, a positive
rational distance whose product with the sine is a positive rational is twice
that rational. -/
theorem distance_of_rational_height (k : ℤ) (hk1 : -44 ≤ k) (hk2 : k ≤ 44) (d δ : ℚ)
    (hd : 0 < d) (hδ : 0 < δ)
    (h : (d : ℝ) * Real.sin ((k : ℝ) * Real.pi / 90) = (δ : ℝ)) : d = 2 * δ := by
  have hdR : (0 : ℝ) < (d : ℝ) := by exact_mod_cast hd
  have hsin : Real.sin ((k : ℝ) * Real.pi / 90) = (((δ / d : ℚ)) : ℝ) := by
    push_cast
    rw [eq_div_iff hdR.ne']
    linarith
  obtain ⟨z, hz⟩ := sin_two_degrees_rational k (δ / d) hsin
  have hpi : 0 < Real.pi := Real.pi_pos
  have hlo : -(Real.pi / 2) ≤ (k : ℝ) * Real.pi / 90 := by
    have : (-44 : ℝ) ≤ k := by exact_mod_cast hk1
    nlinarith
  have hhi : (k : ℝ) * Real.pi / 90 < Real.pi / 2 := by
    have : (k : ℝ) ≤ 44 := by exact_mod_cast hk2
    nlinarith
  have hsin_lt : Real.sin ((k : ℝ) * Real.pi / 90) < 1 := by
    have := Real.strictMonoOn_sin ⟨hlo, hhi.le⟩ ⟨by linarith, le_refl _⟩ hhi
    rwa [Real.sin_pi_div_two] at this
  rw [hsin] at hsin_lt
  have hq1 : δ / d < 1 := by exact_mod_cast hsin_lt
  have hq0 : 0 < δ / d := div_pos hδ hd
  have hz1 : ((0 : ℤ) : ℚ) < (z : ℚ) := by rw [← hz]; push_cast; linarith
  have hz2 : (z : ℚ) < ((2 : ℤ) : ℚ) := by rw [← hz]; push_cast; linarith
  have hz3 : 0 < z := by exact_mod_cast hz1
  have hz4 : z < 2 := by exact_mod_cast hz2
  have hz5 : z = 1 := by omega
  rw [hz5] at hz
  push_cast at hz
  field_simp at hz
  linarith

/-- Under the navigation invariant the eye height differs from the height of
the tabletop, read as the number 1.2 or as the `double` nearest to it. -/
theorem eyePosZ_F64_ne_tabletop (g : GlobalsF64) (hg : navigationInvariantF64 g) :
    MyDisplay_eyePosZ_F64 g ≠ some (TABLETOP_Z : ℝ) ∧
    MyDisplay_eyePosZ_F64 g ≠ some (TABLETOP_Z_F64 : ℝ) := by
  obtain ⟨⟨k, hk1, hk2, hk⟩, d, h0, ⟨x0, hx0⟩, hmn, _, hB⟩ := hg
  have harg : (((2 * k : ℚ)) : ℝ) * Real.pi / 180 = (k : ℝ) * Real.pi / 90 := by
    push_cast
    ring
  have hd : 0 < d := lt_of_lt_of_le (by norm_num [EYE_MIN_DIST_F64]) hmn
  simp only [MyDisplay_eyePosZ_F64, h0, Option.map_some', ne_eq, Option.some.injEq, hk, harg,
    LOOKAT_Z, TABLETOP_Z, TABLETOP_Z_F64]
  constructor
  · intro h
    have h2 : (d : ℝ) * Real.sin ((k : ℝ) * Real.pi / 90) = (((1 / 5 : ℚ)) : ℝ) := by
      push_cast at h ⊢
      linarith
    have hd2 := distance_of_rational_height k hk1 hk2 d (1 / 5) hd (by norm_num) h2
    obtain ⟨n, m, hnm⟩ := roundF64_dyadic x0 d hx0
    rw [hd2] at hnm
    exact two_fifths_not_dyadic n m (by rw [← hnm]; norm_num)
  · intro h
    have h2 : (d : ℝ) * Real.sin ((k : ℝ) * Real.pi / 90) =
        (((900719925474099 / 4503599627370496 : ℚ)) : ℝ) := by
      push_cast at h ⊢
      linarith
    have hd2 := distance_of_rational_height k hk1 hk2 d _ hd (by norm_num) h2
    exact hB (Or.inl (by rw [hd2]; norm_num))

/-! ## Auxiliary facts: a descent to the neighbourhood of distance 0.4 -/

/-- Press 1 of SHIFT+UP from the initial distance: the rounded difference. -/
theorem descentF64_1 :
    roundF64 (5 - EYE_DIST_INCR_F64) = some (5404319552844595 / 1125899906842624) := by
  have h := roundBinary_eq 53 (-1022) 1023 (86469112845513523 / 18014398509481984) (2) 5404319552844595 4 8
    (1 / 1125899906842624) (2 ^ 1024) (by norm_num) (by norm_num) (by norm_num) (by norm_num)
    (by rw [abs_of_pos] <;> norm_num) (by rw [abs_of_pos] <;> norm_num) (by norm_num)
    (roundHalfEven_below _ _ (by norm_num) (by norm_num))
    (by rw [abs_of_pos] <;> norm_num)
  have e : (5 : ℚ) - EYE_DIST_INCR_F64 = 86469112845513523 / 18014398509481984 := by
    norm_num [EYE_DIST_INCR_F64]
  rw [e, roundF64, h]
  norm_num

/-- Press 2 of SHIFT+UP from the initial distance: the rounded difference. -/
theorem descentF64_2 :
    roundF64 (5404319552844595 / 1125899906842624 - EYE_DIST_INCR_F64) = some (2589569785738035 / 562949953421312) := by
  have h := roundBinary_eq 53 (-1022) 1023 (82866233143617123 / 18014398509481984) (2) 5179139571476070 4 8
    (1 / 1125899906842624) (2 ^ 1024) (by norm_num) (by norm_num) (by norm_num) (by norm_num)
    (by rw [abs_of_pos] <;> norm_num) (by rw [abs_of_pos] <;> norm_num) (by norm_num)
    (roundHalfEven_below _ _ (by norm_num) (by norm_num))
    (by rw [abs_of_pos] <;> norm_num)
  have e : (5404319552844595 / 1125899906842624 : ℚ) - EYE_DIST_INCR_F64 = 82866233143617123 / 18014398509481984 := by
    norm_num [EYE_DIST_INCR_F64]
  rw [e, roundF64, h]
  norm_num

/-- Press 3 of SHIFT+UP from the initial distance: the rounded difference. -/
theorem descentF64_3 :
    roundF64 (2589569785738035 / 562949953421312 - EYE_DIST_INCR_F64) = some (4953959590107545 / 1125899906842624) := by
  have h := roundBinary_eq 53 (-1022) 1023 (79263353441720723 / 18014398509481984) (2) 4953959590107545 4 8
    (1 / 1125899906842624) (2 ^ 1024) (by norm_num) (by norm_num) (by norm_num) (by norm_num)
    (by rw [abs_of_pos] <;> norm_num) (by rw [abs_of_pos] <;> norm_num) (by norm_num)
    (roundHalfEven_below _ _ (by norm_num) (by norm_num))
    (by rw [abs_of_pos] <;> norm_num)
  have e : (2589569785738035 / 562949953421312 : ℚ) - EYE_DIST_INCR_F64 = 79263353441720723 / 18014398509481984 := by
    norm_num [EYE_DIST_INCR_F64]
  rw [e, roundF64, h]
  norm_num

/-- Press 4 of SHIFT+UP from the initial distance: the rounded difference. -/
theorem descentF64_4 :
    roundF64 (4953959590107545 / 1125899906842624 - EYE_DIST_INCR_F64) = some (1182194902184755 / 281474976710656) := by
  have h := roundBinary_eq 53 (-1022) 1023 (75660473739824323 / 18014398509481984) (2) 4728779608739020 4 8
    (1 / 1125899906842624) (2 ^ 1024) (by norm_num) (by norm_num) (by norm_num) (by norm_num)
    (by rw [abs_of_pos] <;> norm_num) (by rw [abs_of_pos] <;> norm_num) (by norm_num)
    (roundHalfEven_below _ _ (by norm_num) (by norm_num))
    (by rw [abs_of_pos] <;> norm_num)
  have e : (4953959590107545 / 1125899906842624 : ℚ) - EYE_DIST_INCR_F64 = 75660473739824323 / 18014398509481984 := by
    norm_num [EYE_DIST_INCR_F64]
  rw [e, roundF64, h]
  norm_num

/-- Press 5 of SHIFT+UP from the initial distance: the rounded difference. -/
theorem descentF64_5 :
    roundF64 (1182194902184755 / 281474976710656 - EYE_DIST_INCR_F64) = some (4503599627370495 / 1125899906842624) := by
  have h := roundBinary_eq 53 (-1022) 1023 (72057594037927923 / 18014398509481984) (1) 9007199254740990 2 4
    (1 / 2251799813685248) (2 ^ 1024) (by norm_num) (by norm_num) (by norm_num) (by norm_num)
    (by rw [abs_of_pos] <;> norm_num) (by rw [abs_of_pos] <;> norm_num) (by norm_num)
    (roundHalfEven_below _ _ (by norm_num) (by norm_num))
    (by rw [abs_of_pos] <;> norm_num)
  have e : (1182194902184755 / 281474976710656 : ℚ) - EYE_DIST_INCR_F64 = 72057594037927923 / 18014398509481984 := by
    norm_num [EYE_DIST_INCR_F64]
  rw [e, roundF64, h]
  norm_num

/-- Press 6 of SHIFT+UP from the initial distance: the rounded difference. -/
theorem descentF64_6 :
    roundF64 (4503599627370495 / 1125899906842624 - EYE_DIST_INCR_F64) = some (2139209823000985 / 562949953421312) := by
  have h := roundBinary_eq 53 (-1022) 1023 (68454714336031523 / 18014398509481984) (1) 8556839292003940 2 4
    (1 / 2251799813685248) (2 ^ 1024) (by norm_num) (by norm_num) (by norm_num) (by norm_num)
    (by rw [abs_of_pos] <;> norm_num) (by rw [abs_of_pos] <;> norm_num) (by norm_num)
    (roundHalfEven_below _ _ (by norm_num) (by norm_num))
    (by rw [abs_of_pos] <;> norm_num)
  have e : (4503599627370495 / 1125899906842624 : ℚ) - EYE_DIST_INCR_F64 = 68454714336031523 / 18014398509481984 := by
    norm_num [EYE_DIST_INCR_F64]
  rw [e, roundF64, h]
  norm_num

/-- Press 7 of SHIFT+UP from the initial distance: the rounded difference. -/
theorem descentF64_7 :
    roundF64 (2139209823000985 / 562949953421312 - EYE_DIST_INCR_F64) = some (4053239664633445 / 1125899906842624) := by
  have h := roundBinary_eq 53 (-1022) 1023 (64851834634135123 / 18014398509481984) (1) 8106479329266890 2 4
    (1 / 2251799813685248) (2 ^ 1024) (by norm_num) (by norm_num) (by norm_num) (by norm_num)
    (by rw [abs_of_pos] <;> norm_num) (by rw [abs_of_pos] <;> norm_num) (by norm_num)
    (roundHalfEven_below _ _ (by norm_num) (by norm_num))
    (by rw [abs_of_pos] <;> norm_num)
  have e : (2139209823000985 / 562949953421312 : ℚ) - EYE_DIST_INCR_F64 = 64851834634135123 / 18014398509481984 := by
    norm_num [EYE_DIST_INCR_F64]
  rw [e, roundF64, h]
  norm_num

/-- Press 8 of SHIFT+UP from the initial distance: the rounded difference. -/
theorem descentF64_8 :
    roundF64 (4053239664633445 / 1125899906842624 - EYE_DIST_INCR_F64) = some (478507460408115 / 140737488355328) := by
  have h := roundBinary_eq 53 (-1022) 1023 (61248954932238723 / 18014398509481984) (1) 7656119366529840 2 4
    (1 / 2251799813685248) (2 ^ 1024) (by norm_num) (by norm_num) (by norm_num) (by norm_num)
    (by rw [abs_of_pos] <;> norm_num) (by rw [abs_of_pos] <;> norm_num) (by norm_num)
    (roundHalfEven_below _ _ (by norm_num) (by norm_num))
    (by rw [abs_of_pos] <;> norm_num)
  have e : (4053239664633445 / 1125899906842624 : ℚ) - EYE_DIST_INCR_F64 = 61248954932238723 / 18014398509481984 := by
    norm_num [EYE_DIST_INCR_F64]
  rw [e, roundF64, h]
  norm_num

/-- Press 9 of SHIFT+UP from the initial distance: the rounded difference. -/
theorem descentF64_9 :
    roundF64 (478507460408115 / 140737488355328 - EYE_DIST_INCR_F64) = some (3602879701896395 / 1125899906842624) := by
  have h := roundBinary_eq 53 (-1022) 1023 (57646075230342323 / 18014398509481984) (1) 7205759403792790 2 4
    (1 / 2251799813685248) (2 ^ 1024) (by norm_num) (by norm_num) (by norm_num) (by norm_num)
    (by rw [abs_of_pos] <;> norm_num) (by rw [abs_of_pos] <;> norm_num) (by norm_num)
    (roundHalfEven_below _ _ (by norm_num) (by norm_num))
    (by rw [abs_of_pos] <;> norm_num)
  have e : (478507460408115 / 140737488355328 : ℚ) - EYE_DIST_INCR_F64 = 57646075230342323 / 18014398509481984 := by
    norm_num [EYE_DIST_INCR_F64]
  rw [e, roundF64, h]
  norm_num

/-- Press 10 of SHIFT+UP from the initial distance: the rounded difference. -/
theorem descentF64_10 :
    roundF64 (3602879701896395 / 1125899906842624 - EYE_DIST_INCR_F64) = some (1688849860263935 / 562949953421312) := by
  have h := roundBinary_eq 53 (-1022) 1023 (54043195528445923 / 18014398509481984) (1) 6755399441055740 2 4
    (1 / 2251799813685248) (2 ^ 1024) (by norm_num) (by norm_num) (by norm_num) (by norm_num)
    (by rw [abs_of_pos] <;> norm_num) (by rw [abs_of_pos] <;> norm_num) (by norm_num)
    (roundHalfEven_below _ _ (by norm_num) (by norm_num))
    (by rw [abs_of_pos] <;> norm_num)
  have e : (3602879701896395 / 1125899906842624 : ℚ) - EYE_DIST_INCR_F64 = 54043195528445923 / 18014398509481984 := by
    norm_num [EYE_DIST_INCR_F64]
  rw [e, roundF64, h]
  norm_num

/-- Press 11 of SHIFT+UP from the initial distance: the rounded difference. -/
theorem descentF64_11 :
    roundF64 (1688849860263935 / 562949953421312 - EYE_DIST_INCR_F64) = some (3152519739159345 / 1125899906842624) := by
  have h := roundBinary_eq 53 (-1022) 1023 (50440315826549523 / 18014398509481984) (1) 6305039478318690 2 4
    (1 / 2251799813685248) (2 ^ 1024) (by norm_num) (by norm_num) (by norm_num) (by norm_num)
    (by rw [abs_of_pos] <;> norm_num) (by rw [abs_of_pos] <;> norm_num) (by norm_num)
    (roundHalfEven_below _ _ (by norm_num) (by norm_num))
    (by rw [abs_of_pos] <;> norm_num)
  have e : (1688849860263935 / 562949953421312 : ℚ) - EYE_DIST_INCR_F64 = 50440315826549523 / 18014398509481984 := by
    norm_num [EYE_DIST_INCR_F64]
  rw [e, roundF64, h]
  norm_num

/-- Press 12 of SHIFT+UP from the initial distance: the rounded difference. -/
theorem descentF64_12 :
    roundF64 (3152519739159345 / 1125899906842624 - EYE_DIST_INCR_F64) = some (731834939447705 / 281474976710656) := by
  have h := roundBinary_eq 53 (-1022) 1023 (46837436124653123 / 18014398509481984) (1) 5854679515581640 2 4
    (1 / 2251799813685248) (2 ^ 1024) (by norm_num) (by norm_num) (by norm_num) (by norm_num)
    (by rw [abs_of_pos] <;> norm_num) (by rw [abs_of_pos] <;> norm_num) (by norm_num)
    (roundHalfEven_below _ _ (by norm_num) (by norm_num))
    (by rw [abs_of_pos] <;> norm_num)
  have e : (3152519739159345 / 1125899906842624 : ℚ) - EYE_DIST_INCR_F64 = 46837436124653123 / 18014398509481984 := by
    norm_num [EYE_DIST_INCR_F64]
  rw [e, roundF64, h]
  norm_num

/-- Press 13 of SHIFT+UP from the initial distance: the rounded difference. -/
theorem descentF64_13 :
    roundF64 (731834939447705 / 281474976710656 - EYE_DIST_INCR_F64) = some (2702159776422295 / 1125899906842624) := by
  have h := roundBinary_eq 53 (-1022) 1023 (43234556422756723 / 18014398509481984) (1) 5404319552844590 2 4
    (1 / 2251799813685248) (2 ^ 1024) (by norm_num) (by norm_num) (by norm_num) (by norm_num)
    (by rw [abs_of_pos] <;> norm_num) (by rw [abs_of_pos] <;> norm_num) (by norm_num)
    (roundHalfEven_below _ _ (by norm_num) (by norm_num))
    (by rw [abs_of_pos] <;> norm_num)
  have e : (731834939447705 / 281474976710656 : ℚ) - EYE_DIST_INCR_F64 = 43234556422756723 / 18014398509481984 := by
    norm_num [EYE_DIST_INCR_F64]
  rw [e, roundF64, h]
  norm_num

/-- Press 14 of SHIFT+UP from the initial distance: the rounded difference. -/
theorem descentF64_14 :
    roundF64 (2702159776422295 / 1125899906842624 - EYE_DIST_INCR_F64) = some (1238489897526885 / 562949953421312) := by
  have h := roundBinary_eq 53 (-1022) 1023 (39631676720860323 / 18014398509481984) (1) 4953959590107540 2 4
    (1 / 2251799813685248) (2 ^ 1024) (by norm_num) (by norm_num) (by norm_num) (by norm_num)
    (by rw [abs_of_pos] <;> norm_num) (by rw [abs_of_pos] <;> norm_num) (by norm_num)
    (roundHalfEven_below _ _ (by norm_num) (by norm_num))
    (by rw [abs_of_pos] <;> norm_num)
  have e : (2702159776422295 / 1125899906842624 : ℚ) - EYE_DIST_INCR_F64 = 39631676720860323 / 18014398509481984 := by
    norm_num [EYE_DIST_INCR_F64]
  rw [e, roundF64, h]
  norm_num

/-- Press 15 of SHIFT+UP from the initial distance: the rounded difference. -/
theorem descentF64_15 :
    roundF64 (1238489897526885 / 562949953421312 - EYE_DIST_INCR_F64) = some (9007199254740981 / 4503599627370496) := by
  have h := roundBinary_eq 53 (-1022) 1023 (36028797018963923 / 18014398509481984) (0) 9007199254740981 1 2
    (1 / 4503599627370496) (2 ^ 1024) (by norm_num) (by norm_num) (by norm_num) (by norm_num)
    (by rw [abs_of_pos] <;> norm_num) (by rw [abs_of_pos] <;> norm_num) (by norm_num)
    (by
      have := roundHalfEven_above ((36028797018963923 / 18014398509481984) / (1 / 4503599627370496)) 9007199254740980
        (by norm_num) (by norm_num)
      simpa using this)
    (by rw [abs_of_pos] <;> norm_num)
  have e : (1238489897526885 / 562949953421312 : ℚ) - EYE_DIST_INCR_F64 = 36028797018963923 / 18014398509481984 := by
    norm_num [EYE_DIST_INCR_F64]
  rw [e, roundF64, h]
  norm_num

/-- Press 16 of SHIFT+UP from the initial distance: the rounded difference. -/
theorem descentF64_16 :
    roundF64 (9007199254740981 / 4503599627370496 - EYE_DIST_INCR_F64) = some (4053239664633441 / 2251799813685248) := by
  have h := roundBinary_eq 53 (-1022) 1023 (32425917317067527 / 18014398509481984) (0) 8106479329266882 1 2
    (1 / 4503599627370496) (2 ^ 1024) (by norm_num) (by norm_num) (by norm_num) (by norm_num)
    (by rw [abs_of_pos] <;> norm_num) (by rw [abs_of_pos] <;> norm_num) (by norm_num)
    (by
      have := roundHalfEven_above ((32425917317067527 / 18014398509481984) / (1 / 4503599627370496)) 8106479329266881
        (by norm_num) (by norm_num)
      simpa using this)
    (by rw [abs_of_pos] <;> norm_num)
  have e : (9007199254740981 / 4503599627370496 : ℚ) - EYE_DIST_INCR_F64 = 32425917317067527 / 18014398509481984 := by
    norm_num [EYE_DIST_INCR_F64]
  rw [e, roundF64, h]
  norm_num

/-- Press 17 of SHIFT+UP from the initial distance: the rounded difference. -/
theorem descentF64_17 :
    roundF64 (4053239664633441 / 2251799813685248 - EYE_DIST_INCR_F64) = some (7205759403792783 / 4503599627370496) := by
  have h := roundBinary_eq 53 (-1022) 1023 (28823037615171131 / 18014398509481984) (0) 7205759403792783 1 2
    (1 / 4503599627370496) (2 ^ 1024) (by norm_num) (by norm_num) (by norm_num) (by norm_num)
    (by rw [abs_of_pos] <;> norm_num) (by rw [abs_of_pos] <;> norm_num) (by norm_num)
    (by
      have := roundHalfEven_above ((28823037615171131 / 18014398509481984) / (1 / 4503599627370496)) 7205759403792782
        (by norm_num) (by norm_num)
      simpa using this)
    (by rw [abs_of_pos] <;> norm_num)
  have e : (4053239664633441 / 2251799813685248 : ℚ) - EYE_DIST_INCR_F64 = 28823037615171131 / 18014398509481984 := by
    norm_num [EYE_DIST_INCR_F64]
  rw [e, roundF64, h]
  norm_num

/-- Press 18 of SHIFT+UP from the initial distance: the rounded difference. -/
theorem descentF64_18 :
    roundF64 (7205759403792783 / 4503599627370496 - EYE_DIST_INCR_F64) = some (1576259869579671 / 1125899906842624) := by
  have h := roundBinary_eq 53 (-1022) 1023 (25220157913274735 / 18014398509481984) (0) 6305039478318684 1 2
    (1 / 4503599627370496) (2 ^ 1024) (by norm_num) (by norm_num) (by norm_num) (by norm_num)
    (by rw [abs_of_pos] <;> norm_num) (by rw [abs_of_pos] <;> norm_num) (by norm_num)
    (by
      have := roundHalfEven_above ((25220157913274735 / 18014398509481984) / (1 / 4503599627370496)) 6305039478318683
        (by norm_num) (by norm_num)
      simpa using this)
    (by rw [abs_of_pos] <;> norm_num)
  have e : (7205759403792783 / 4503599627370496 : ℚ) - EYE_DIST_INCR_F64 = 25220157913274735 / 18014398509481984 := by
    norm_num [EYE_DIST_INCR_F64]
  rw [e, roundF64, h]
  norm_num

/-- Press 19 of SHIFT+UP from the initial distance: the rounded difference. -/
theorem descentF64_19 :
    roundF64 (1576259869579671 / 1125899906842624 - EYE_DIST_INCR_F64) = some (5404319552844585 / 4503599627370496) := by
  have h := roundBinary_eq 53 (-1022) 1023 (21617278211378339 / 18014398509481984) (0) 5404319552844585 1 2
    (1 / 4503599627370496) (2 ^ 1024) (by norm_num) (by norm_num) (by norm_num) (by norm_num)
    (by rw [abs_of_pos] <;> norm_num) (by rw [abs_of_pos] <;> norm_num) (by norm_num)
    (by
      have := roundHalfEven_above ((21617278211378339 / 18014398509481984) / (1 / 4503599627370496)) 5404319552844584
        (by norm_num) (by norm_num)
      simpa using this)
    (by rw [abs_of_pos] <;> norm_num)
  have e : (1576259869579671 / 1125899906842624 : ℚ) - EYE_DIST_INCR_F64 = 21617278211378339 / 18014398509481984 := by
    norm_num [EYE_DIST_INCR_F64]
  rw [e, roundF64, h]
  norm_num

/-- Press 20 of SHIFT+UP from the initial distance: the rounded difference. -/
theorem descentF64_20 :
    roundF64 (5404319552844585 / 4503599627370496 - EYE_DIST_INCR_F64) = some (2251799813685243 / 2251799813685248) := by
  have h := roundBinary_eq 53 (-1022) 1023 (18014398509481943 / 18014398509481984) (-1) 9007199254740972 (1 / 2) 1
    (1 / 9007199254740992) (2 ^ 1024) (by norm_num) (by norm_num) (by norm_num) (by norm_num)
    (by rw [abs_of_pos] <;> norm_num) (by rw [abs_of_pos] <;> norm_num) (by norm_num)
    (by
      have := roundHalfEven_tie_odd ((18014398509481943 / 18014398509481984) / (1 / 9007199254740992)) 9007199254740971
        (by norm_num) (by norm_num)
      simpa using this)
    (by rw [abs_of_pos] <;> norm_num)
  have e : (5404319552844585 / 4503599627370496 : ℚ) - EYE_DIST_INCR_F64 = 18014398509481943 / 18014398509481984 := by
    norm_num [EYE_DIST_INCR_F64]
  rw [e, roundF64, h]
  norm_num

/-- Press 21 of SHIFT+UP from the initial distance: the rounded difference. -/
theorem descentF64_21 :
    roundF64 (2251799813685243 / 2251799813685248 - EYE_DIST_INCR_F64) = some (3602879701896387 / 4503599627370496) := by
  have h := roundBinary_eq 53 (-1022) 1023 (14411518807585547 / 18014398509481984) (-1) 7205759403792774 (1 / 2) 1
    (1 / 9007199254740992) (2 ^ 1024) (by norm_num) (by norm_num) (by norm_num) (by norm_num)
    (by rw [abs_of_pos] <;> norm_num) (by rw [abs_of_pos] <;> norm_num) (by norm_num)
    (by
      have := roundHalfEven_tie_odd ((14411518807585547 / 18014398509481984) / (1 / 9007199254740992)) 7205759403792773
        (by norm_num) (by norm_num)
      simpa using this)
    (by rw [abs_of_pos] <;> norm_num)
  have e : (2251799813685243 / 2251799813685248 : ℚ) - EYE_DIST_INCR_F64 = 14411518807585547 / 18014398509481984 := by
    norm_num [EYE_DIST_INCR_F64]
  rw [e, roundF64, h]
  norm_num

/-- Press 22 of SHIFT+UP from the initial distance: the rounded difference. -/
theorem descentF64_22 :
    roundF64 (3602879701896387 / 4503599627370496 - EYE_DIST_INCR_F64) = some (168884986026393 / 281474976710656) := by
  have h := roundBinary_eq 53 (-1022) 1023 (10808639105689151 / 18014398509481984) (-1) 5404319552844576 (1 / 2) 1
    (1 / 9007199254740992) (2 ^ 1024) (by norm_num) (by norm_num) (by norm_num) (by norm_num)
    (by rw [abs_of_pos] <;> norm_num) (by rw [abs_of_pos] <;> norm_num) (by norm_num)
    (by
      have := roundHalfEven_tie_odd ((10808639105689151 / 18014398509481984) / (1 / 9007199254740992)) 5404319552844575
        (by norm_num) (by norm_num)
      simpa using this)
    (by rw [abs_of_pos] <;> norm_num)
  have e : (3602879701896387 / 4503599627370496 : ℚ) - EYE_DIST_INCR_F64 = 10808639105689151 / 18014398509481984 := by
    norm_num [EYE_DIST_INCR_F64]
  rw [e, roundF64, h]
  norm_num

/-- Press 23 of SHIFT+UP from the initial distance: the rounded difference. -/
theorem descentF64_23 :
    roundF64 (168884986026393 / 281474976710656 - EYE_DIST_INCR_F64) = some (7205759403792755 / 18014398509481984) := by
  have h := roundBinary_eq 53 (-1022) 1023 (7205759403792755 / 18014398509481984) (-2) 7205759403792755 (1 / 4) (1 / 2)
    (1 / 18014398509481984) (2 ^ 1024) (by norm_num) (by norm_num) (by norm_num) (by norm_num)
    (by rw [abs_of_pos] <;> norm_num) (by rw [abs_of_pos] <;> norm_num) (by norm_num)
    (roundHalfEven_below _ _ (by norm_num) (by norm_num))
    (by rw [abs_of_pos] <;> norm_num)
  have e : (168884986026393 / 281474976710656 : ℚ) - EYE_DIST_INCR_F64 = 7205759403792755 / 18014398509481984 := by
    norm_num [EYE_DIST_INCR_F64]
  rw [e, roundF64, h]
  norm_num

/-- SHIFT+UP leaves everything but the distance alone. -/
theorem MySpecialKeyF64_shift_up (g : GlobalsF64) (x y : ℤ) :
    MySpecialKeyF64 g GLUT_KEY_UP GLUT_ACTIVE_SHIFT x y =
      { g with eyeDistance :=
          ((g.eyeDistance.bind (fun d => roundF64 (d - EYE_DIST_INCR_F64))).map
            (fun d => if d < EYE_MIN_DIST_F64 then EYE_MIN_DIST_F64 else d)) } := by
  simp [MySpecialKeyF64, GLUT_KEY_UP, GLUT_KEY_LEFT, GLUT_KEY_RIGHT, GLUT_ACTIVE_SHIFT]

/-- Twenty-three presses of SHIFT+UP at latitude 30 degrees lead from the
initial distance 5 to the `double` 0.39999999999999786. -/
theorem runEventsF64_descent :
    runEventsF64 ⟨30, 0, some 5, true, false, true⟩
        (List.replicate 23 (Event.special GLUT_KEY_UP GLUT_ACTIVE_SHIFT 0 0)) =
      some ⟨30, 0, some (7205759403792755 / 18014398509481984), true, false, true⟩ := by
  norm_num [List.replicate, runEventsF64, handleEventF64, MySpecialKeyF64_shift_up,
    EYE_MIN_DIST_F64, descentF64_1, descentF64_2, descentF64_3, descentF64_4, descentF64_5, descentF64_6, descentF64_7, descentF64_8, descentF64_9, descentF64_10, descentF64_11, descentF64_12, descentF64_13, descentF64_14, descentF64_15, descentF64_16, descentF64_17, descentF64_18, descentF64_19, descentF64_20, descentF64_21, descentF64_22, descentF64_23]

/-- Events handled one batch after the other. -/
theorem runEventsF64_append (g : GlobalsF64) (a b : List Event) :
    runEventsF64 g (a ++ b) = (runEventsF64 g a).bind (fun g1 => runEventsF64 g1 b) := by
  induction a generalizing g with
  | nil => rfl
  | cons e es ih =>
    simp only [List.cons_append, runEventsF64]
    cases handleEventF64 g e with
    | none => rfl
    | some g2 => exact ih g2

/-- Pressing UP `k` times raises the latitude by `2 k` degrees while that
stays within the upper limit. -/
theorem runEventsF64_up (k : ℕ) (g : GlobalsF64) (x y : ℤ)
    (h : g.eyeLatitude + 2 * k ≤ EYE_MAX_LATITUDE) :
    runEventsF64 g (List.replicate k (Event.special GLUT_KEY_UP 0 x y)) =
      some { g with eyeLatitude := g.eyeLatitude + 2 * k } := by
  induction k generalizing g with
  | zero => simp [runEventsF64]
  | succ k ih =>
    have hk : (0 : ℚ) ≤ k := Nat.cast_nonneg k
    push_cast at h
    have hstep : MySpecialKeyF64 g GLUT_KEY_UP 0 x y =
        { g with eyeLatitude := g.eyeLatitude + 2 } := by
      simp only [MySpecialKeyF64, GLUT_KEY_UP, GLUT_KEY_LEFT, GLUT_KEY_RIGHT, GLUT_ACTIVE_SHIFT,
        EYE_LATITUDE_INCR]
      norm_num
      intro hgt
      linarith
    simp only [List.replicate_succ, runEventsF64, handleEventF64, hstep]
    rw [ih _ (by dsimp only; linarith)]
    simp only [Option.some.injEq, GlobalsF64.mk.injEq, and_true, true_and]
    push_cast
    ring

/-- Fifteen UP presses followed by twenty-three SHIFT+UP presses lead from the
initial state to latitude 30 degrees and the `double` distance
0.39999999999999786. -/
theorem runEventsF64_near_degenerate :
    runEventsF64 initialGlobalsF64
        (List.replicate 15 (Event.special GLUT_KEY_UP 0 0 0) ++
          List.replicate 23 (Event.special GLUT_KEY_UP GLUT_ACTIVE_SHIFT 0 0)) =
      some ⟨30, 0, some (7205759403792755 / 18014398509481984), true, false, true⟩ := by
  rw [runEventsF64_append, runEventsF64_up 15 initialGlobalsF64 0 0
    (by norm_num [initialGlobalsF64, EYE_MAX_LATITUDE])]
  simp only [Option.some_bind]
  have e : ({ initialGlobalsF64 with eyeLatitude := initialGlobalsF64.eyeLatitude +
      2 * ((15 : ℕ) : ℚ) } : GlobalsF64) = ⟨30, 0, some 5, true, false, true⟩ := by
    simp only [initialGlobalsF64, EYE_INIT_DIST, GlobalsF64.mk.injEq, and_true, true_and]
    norm_num
  rw [e]
  exact runEventsF64_descent

/-! ## The claims -/

/-- C1: for every real eye position `(ex, ey, ez)` (in particular every one
with `ez ≠ TABLETOP_Z`), the eye position that `MakeReflectionImage` passes to
`gluLookAt` is `(ex, ey, 2 * TABLETOP_Z - ez)`; for `ez = 3.0` (mirror height
`1.2`) its z is `-0.6`. -/
theorem C1_mirrored_eye (ex ey ez : ℚ) :
    (MakeReflectionImage_gluLookAt ⟨ex, ey, ez⟩).eye = ⟨ex, ey, 2 * TABLETOP_Z - ez⟩ ∧
    TABLETOP_Z = 6 / 5 ∧
    (MakeReflectionImage_gluLookAt ⟨ex, ey, 3⟩).eye.z = -3 / 5 := by
  refine ⟨rfl, rfl, ?_⟩
  simp only [MakeReflectionImage_gluLookAt, TABLETOP_Z]
  norm_num

/-- C2: for every real eye position with `ez > TABLETOP_Z` and every vertex
emitted by the 24 x 24 tabletop tessellation of `DrawTable`, the position lies
in the plane `z = TABLETOP_Z`, and projecting it through the mirror camera of
`MakeReflectionImage` (`gluLookAt` view, `glFrustum` projection, perspective
divide) gives normalised device coordinates `(xn, yn)` with
`s = (xn + 1) / 2` and `t = (yn + 1) / 2` for the vertex's texture coordinate
`(s, t)`. -/
theorem C2_reflection_maps_onto_tabletop (ex ey ez : ℚ) (h : TABLETOP_Z < ez) :
    ∀ e ∈ DrawTable_tabletop,
      e.pos.z = TABLETOP_Z ∧
      (texCoord2 e).1 = ((mirrorNDC ⟨ex, ey, ez⟩ e.pos).x + 1) / 2 ∧
      (texCoord2 e).2 = ((mirrorNDC ⟨ex, ey, ez⟩ e.pos).y + 1) / 2 := by
  intro e he
  obtain ⟨a, b, _, _, rfl⟩ :=
    mem_SubdivideAndDrawQuad_closed 24 24 tabletopQuad e he
  rw [closedVertex_tabletopQuad]
  simp only [texCoord2, mirrorNDC_tabletop_plane ex ey ez _ _ h]
  simp only [TABLETOP_X1, TABLETOP_X2, TABLETOP_Y1, TABLETOP_Y2]
  refine ⟨trivial, ?_, ?_⟩
  · ring
  · ring

/-- Witness for C2: the eye at `(5, 0, 3)`, above the tabletop. -/
theorem C2_reflection_maps_onto_tabletop_witness :
    TABLETOP_Z < 3 ∧ DrawTable_tabletop.length = 2304 ∧
    ∀ e ∈ DrawTable_tabletop,
      e.pos.z = TABLETOP_Z ∧
      (texCoord2 e).1 = ((mirrorNDC ⟨5, 0, 3⟩ e.pos).x + 1) / 2 ∧
      (texCoord2 e).2 = ((mirrorNDC ⟨5, 0, 3⟩ e.pos).y + 1) / 2 :=
  ⟨by norm_num [TABLETOP_Z], length_SubdivideAndDrawQuad 24 24 tabletopQuad,
    C2_reflection_maps_onto_tabletop 5 0 3 (by norm_num [TABLETOP_Z])⟩

/-- C3, as stated, fails at the eye position `(5, 0, 1)` (the initial eye
position, below the tabletop): the near-plane corners of the mirror frustum,
as world points, lie in the plane `z = 1.6`, and none of them is a corner of
the mirror rectangle. -/
theorem C3_counterexample :
    (1 : ℚ) ≠ TABLETOP_Z ∧
    mirrorNearCornersWorld ⟨5, 0, 1⟩ =
      [⟨-1, 3 / 2, 8 / 5⟩, ⟨-1, -3 / 2, 8 / 5⟩, ⟨1, -3 / 2, 8 / 5⟩, ⟨1, 3 / 2, 8 / 5⟩] ∧
    ∀ c ∈ mirrorNearCornersWorld ⟨5, 0, 1⟩, c ∉ mirrorRectangleCorners := by
  have h : mirrorNearCornersWorld ⟨5, 0, 1⟩ =
      [⟨-1, 3 / 2, 8 / 5⟩, ⟨-1, -3 / 2, 8 / 5⟩, ⟨1, -3 / 2, 8 / 5⟩, ⟨1, 3 / 2, 8 / 5⟩] := by
    rw [mirrorNearCornersWorld_below 5 0 1 (by norm_num [TABLETOP_Z])]
    norm_num [TABLETOP_X1, TABLETOP_X2, TABLETOP_Y1, TABLETOP_Y2, TABLETOP_Z]
  refine ⟨by norm_num [TABLETOP_Z], h, ?_⟩
  rw [h]
  intro c hc
  simp only [List.mem_cons, List.mem_singleton, List.not_mem_nil, or_false] at hc
  rcases hc with rfl | rfl | rfl | rfl <;>
    norm_num [mirrorRectangleCorners, TABLETOP_X1, TABLETOP_X2, TABLETOP_Y1, TABLETOP_Y2,
      TABLETOP_Z]

/-- C3, amended: for every real eye position with `ez > TABLETOP_Z`, the four
corners of the mirror frustum's near-plane rectangle, expressed as world-space
points, are exactly the four corners of the mirror rectangle: `(left, bottom)`
is `(X1, Y1, Z)`, `(right, bottom)` is `(X1, Y2, Z)`, `(right, top)` is
`(X2, Y2, Z)` and `(left, top)` is `(X2, Y1, Z)`. -/
theorem C3_near_corners_above (ex ey ez : ℚ) (h : TABLETOP_Z < ez) :
    mirrorNearCornersWorld ⟨ex, ey, ez⟩ =
      [⟨TABLETOP_X1, TABLETOP_Y1, TABLETOP_Z⟩, ⟨TABLETOP_X1, TABLETOP_Y2, TABLETOP_Z⟩,
       ⟨TABLETOP_X2, TABLETOP_Y2, TABLETOP_Z⟩, ⟨TABLETOP_X2, TABLETOP_Y1, TABLETOP_Z⟩] ∧
    ∀ c, c ∈ mirrorNearCornersWorld ⟨ex, ey, ez⟩ ↔ c ∈ mirrorRectangleCorners := by
  have hl := mirrorNearCornersWorld_above ex ey ez h
  refine ⟨hl, ?_⟩
  intro c
  rw [hl]
  simp only [mirrorRectangleCorners, List.mem_cons, List.mem_singleton, List.not_mem_nil,
    or_false]
  tauto

/-- Witness for the amended C3: the eye at `(5, 0, 3)`. -/
theorem C3_near_corners_above_witness :
    TABLETOP_Z < 3 ∧
    mirrorNearCornersWorld ⟨5, 0, 3⟩ =
      [⟨TABLETOP_X1, TABLETOP_Y1, TABLETOP_Z⟩, ⟨TABLETOP_X1, TABLETOP_Y2, TABLETOP_Z⟩,
       ⟨TABLETOP_X2, TABLETOP_Y2, TABLETOP_Z⟩, ⟨TABLETOP_X2, TABLETOP_Y1, TABLETOP_Z⟩] ∧
    ∀ c, c ∈ mirrorNearCornersWorld ⟨5, 0, 3⟩ ↔ c ∈ mirrorRectangleCorners :=
  ⟨by norm_num [TABLETOP_Z], C3_near_corners_above 5 0 3 (by norm_num [TABLETOP_Z])⟩

/-- C4: for every input quad, `SubdivideAndDrawQuad` with `uSteps = 1` and
`vSteps = 1` emits exactly one quad (four texcoord/vertex pairs), and the four
pairs are, in emission order, the input corners 0, 1, 2, 3. -/
theorem C4_identity_1x1 (q : QuadArgs) :
    SubdivideAndDrawQuad 1 1 q = [corner0 q, corner1 q, corner2 q, corner3 q] ∧
    (SubdivideAndDrawQuad 1 1 q).length = 4 * 1 := by
  have h : SubdivideAndDrawQuad 1 1 q = [corner0 q, corner1 q, corner2 q, corner3 q] := by
    simp [SubdivideAndDrawQuad, outerBody, innerBody, blend, corner0, corner1, corner2, corner3,
      List.range_succ]
  exact ⟨h, by rw [h]; rfl⟩

/-- C5: for `uSteps = m ≥ 1`, `vSteps = n ≥ 1` and every input quad,
`SubdivideAndDrawQuad` emits exactly `m * n` quads, that is `4 * m * n`
texcoord/vertex pairs, in row-major order with `u` outer and `v` inner: the
`k`-th emitted quad is the one of grid cell `(k / n, k % n)`. -/
theorem C5_count_row_major (m n : ℕ) (hm : 1 ≤ m) (hn : 1 ≤ n) (q : QuadArgs) :
    (SubdivideAndDrawQuad m n q).length = 4 * (m * n) ∧ 1 ≤ m * n ∧
    (∀ k, k < m * n →
      quadAt (SubdivideAndDrawQuad m n q) k = cellOutput m n q (k / n) (k % n) ∧
      k / n < m ∧ k % n < n) ∧
    (∀ k, m * n ≤ k → quadAt (SubdivideAndDrawQuad m n q) k = []) := by
  have hlen := length_SubdivideAndDrawQuad m n q
  refine ⟨hlen, Nat.mul_pos hm hn, ?_, ?_⟩
  · intro k hk
    refine ⟨quadAt_SubdivideAndDrawQuad m n q k hk, ?_, Nat.mod_lt _ hn⟩
    exact Nat.div_lt_of_lt_mul (by rw [Nat.mul_comm]; exact hk)
  · intro k hk
    unfold quadAt
    rw [List.drop_of_length_le (by rw [hlen]; exact Nat.mul_le_mul_left 4 hk)]
    rfl

/-- Witness for C5: a 2 x 3 subdivision of the tabletop quad. -/
theorem C5_count_row_major_witness :
    (SubdivideAndDrawQuad (2 : ℕ) (3 : ℕ) tabletopQuad).length = 4 * (2 * 3) ∧ 1 ≤ 2 * 3 ∧
    (∀ k, k < 2 * 3 →
      quadAt (SubdivideAndDrawQuad (2 : ℕ) (3 : ℕ) tabletopQuad) k =
        cellOutput (2 : ℕ) (3 : ℕ) tabletopQuad (k / 3) (k % 3) ∧
      k / 3 < 2 ∧ k % 3 < 3) ∧
    (∀ k, 2 * 3 ≤ k → quadAt (SubdivideAndDrawQuad (2 : ℕ) (3 : ℕ) tabletopQuad) k = []) :=
  C5_count_row_major 2 3 (by decide) (by decide) tabletopQuad

/-- C6: for every grid cell `(i, j)` with `i < m`, `j < n` (so `m, n ≥ 1`), the
four vertices `SubdivideAndDrawQuad` emits for that cell are, in order,
`B(i/m, j/n)`, `B((i+1)/m, j/n)`, `B((i+1)/m, (j+1)/n)`, `B(i/m, (j+1)/n)`,
where `B(u, v) = lerp(lerp(c0, c1, u), lerp(c3, c2, u), v)` is applied with the
same `(u, v)` to the positions and to the texture coordinates. -/
theorem C6_cell_vertices (m n : ℕ) (q : QuadArgs) (i j : ℕ) (hi : i < m) (hj : j < n) :
    quadAt (SubdivideAndDrawQuad m n q) (i * n + j) =
      [separableVertex q ((i : ℚ) / m) ((j : ℚ) / n),
       separableVertex q (((i + 1 : ℕ) : ℚ) / m) ((j : ℚ) / n),
       separableVertex q (((i + 1 : ℕ) : ℚ) / m) (((j + 1 : ℕ) : ℚ) / n),
       separableVertex q ((i : ℚ) / m) (((j + 1 : ℕ) : ℚ) / n)] := by
  rw [quadAt_cell m n q i j hi hj, cellOutput_closed]
  simp only [closedVertex_eq_separableVertex]

/-- Witness for C6: cell `(1, 2)` of a 2 x 3 subdivision of the tabletop quad. -/
theorem C6_cell_vertices_witness :
    quadAt (SubdivideAndDrawQuad (2 : ℕ) (3 : ℕ) tabletopQuad) (1 * 3 + 2) =
      [separableVertex tabletopQuad (((1 : ℕ) : ℚ) / (2 : ℕ)) (((2 : ℕ) : ℚ) / (3 : ℕ)),
       separableVertex tabletopQuad (((1 + 1 : ℕ) : ℚ) / (2 : ℕ)) (((2 : ℕ) : ℚ) / (3 : ℕ)),
       separableVertex tabletopQuad (((1 + 1 : ℕ) : ℚ) / (2 : ℕ)) (((2 + 1 : ℕ) : ℚ) / (3 : ℕ)),
       separableVertex tabletopQuad (((1 : ℕ) : ℚ) / (2 : ℕ)) (((2 + 1 : ℕ) : ℚ) / (3 : ℕ))] :=
  C6_cell_vertices 2 3 tabletopQuad 1 2 (by decide) (by decide)

/-- C7: for every grid cell `(i, j)` with `i < m`, `j < n`, each of the four
emitted vertices, whose position is taken at grid parameter `(u, v)`, has as
texture coordinate the closed-form bilinear interpolation
`(1-u)(1-v) tc0 + u(1-v) tc1 + u v tc2 + (1-u) v tc3` of the input texture
coordinates at that same `(u, v)`, and as position the same weighted sum of
the input positions. -/
theorem C7_bilinear_closed_form (m n : ℕ) (q : QuadArgs) (i j : ℕ) (hi : i < m) (hj : j < n) :
    quadAt (SubdivideAndDrawQuad m n q) (i * n + j) =
      [closedVertex q ((i : ℚ) / m) ((j : ℚ) / n),
       closedVertex q (((i + 1 : ℕ) : ℚ) / m) ((j : ℚ) / n),
       closedVertex q (((i + 1 : ℕ) : ℚ) / m) (((j + 1 : ℕ) : ℚ) / n),
       closedVertex q ((i : ℚ) / m) (((j + 1 : ℕ) : ℚ) / n)] := by
  rw [quadAt_cell m n q i j hi hj, cellOutput_closed]

/-- Witness for C7: cell `(0, 1)` of a 2 x 3 subdivision of the tabletop quad. -/
theorem C7_bilinear_closed_form_witness :
    quadAt (SubdivideAndDrawQuad (2 : ℕ) (3 : ℕ) tabletopQuad) (0 * 3 + 1) =
      [closedVertex tabletopQuad (((0 : ℕ) : ℚ) / (2 : ℕ)) (((1 : ℕ) : ℚ) / (3 : ℕ)),
       closedVertex tabletopQuad (((0 + 1 : ℕ) : ℚ) / (2 : ℕ)) (((1 : ℕ) : ℚ) / (3 : ℕ)),
       closedVertex tabletopQuad (((0 + 1 : ℕ) : ℚ) / (2 : ℕ)) (((1 + 1 : ℕ) : ℚ) / (3 : ℕ)),
       closedVertex tabletopQuad (((0 : ℕ) : ℚ) / (2 : ℕ)) (((1 + 1 : ℕ) : ℚ) / (3 : ℕ))] :=
  C7_bilinear_closed_form 2 3 tabletopQuad 0 1 (by decide) (by decide)

/-- C8, as stated, fails in the `float` arithmetic of the routine.  For the
1 x 1 subdivision of `lastPlaceQuad`, whose parameters are all `float`s (x1 is
the `float` nearest to 0.2), the 2nd vertex of cell `(m-1, 0) = (0, 0)` has
x = 838861 / 4194304 = 0.20000004768371582, the rounded value of
`-3 + 1 * (0.2f - (-3))`; corner 1 has x = 13421773 / 67108864 =
0.20000000298023224. -/
theorem C8_counterexample :
    quadIsF32 lastPlaceQuad ∧ roundF32 (1 / 5) = some lastPlaceQuad.x1 ∧
    (quadAtF32 (SubdivideAndDrawQuadF32 1 1 lastPlaceQuad) ((1 - 1) * 1 + 0))[1]? =
      some ⟨⟨some 1, some 0, some 0⟩, ⟨some (838861 / 4194304), some 0, some 0⟩⟩ ∧
    (quadAtF32 (SubdivideAndDrawQuadF32 1 1 lastPlaceQuad) ((1 - 1) * 1 + 0))[1]? ≠
      some (corner1F32 lastPlaceQuad) := by
  refine ⟨lastPlaceQuad_isF32, roundF32_fifth, ?_, ?_⟩
  · rw [SubdivideAndDrawQuadF32_lastPlaceQuad]
    simp [quadAtF32]
  · rw [SubdivideAndDrawQuadF32_lastPlaceQuad]
    simp only [quadAtF32, corner1F32, lastPlaceQuad]
    norm_num

/-- C8, amended: with the interpolation arithmetic taken exactly, for
`m, n ≥ 1` the four outermost sub-quad corners coincide with the input corners,
in position and texture coordinate: the 1st vertex of cell `(0, 0)` is corner
0, the 2nd vertex of cell `(m-1, 0)` is corner 1, the 3rd vertex of cell
`(m-1, n-1)` is corner 2 and the 4th vertex of cell `(0, n-1)` is corner 3. -/
theorem C8_outer_corners (m n : ℕ) (hm : 1 ≤ m) (hn : 1 ≤ n) (q : QuadArgs) :
    (quadAt (SubdivideAndDrawQuad m n q) (0 * n + 0))[0]? = some (corner0 q) ∧
    (quadAt (SubdivideAndDrawQuad m n q) ((m - 1) * n + 0))[1]? = some (corner1 q) ∧
    (quadAt (SubdivideAndDrawQuad m n q) ((m - 1) * n + (n - 1)))[2]? = some (corner2 q) ∧
    (quadAt (SubdivideAndDrawQuad m n q) (0 * n + (n - 1)))[3]? = some (corner3 q) := by
  have hm1 : m - 1 < m := Nat.sub_lt hm Nat.one_pos
  have hn1 : n - 1 < n := Nat.sub_lt hn Nat.one_pos
  have hu := last_step_param m hm
  have hv := last_step_param n hn
  refine ⟨?_, ?_, ?_, ?_⟩
  · rw [quadAt_cell m n q 0 0 hm hn, cellOutput_closed]
    simp [closedVertex_zero_zero]
  · rw [quadAt_cell m n q (m - 1) 0 hm1 hn, cellOutput_closed, hu]
    simp [closedVertex_one_zero]
  · rw [quadAt_cell m n q (m - 1) (n - 1) hm1 hn1, cellOutput_closed, hu, hv]
    simp [closedVertex_one_one]
  · rw [quadAt_cell m n q 0 (n - 1) hm hn1, cellOutput_closed, hv]
    simp [closedVertex_zero_one]

/-- Witness for the amended C8: a 2 x 3 subdivision of the tabletop quad. -/
theorem C8_outer_corners_witness :
    (quadAt (SubdivideAndDrawQuad (2 : ℕ) (3 : ℕ) tabletopQuad) (0 * 3 + 0))[0]? =
      some (corner0 tabletopQuad) ∧
    (quadAt (SubdivideAndDrawQuad (2 : ℕ) (3 : ℕ) tabletopQuad) ((2 - 1) * 3 + 0))[1]? =
      some (corner1 tabletopQuad) ∧
    (quadAt (SubdivideAndDrawQuad (2 : ℕ) (3 : ℕ) tabletopQuad) ((2 - 1) * 3 + (3 - 1)))[2]? =
      some (corner2 tabletopQuad) ∧
    (quadAt (SubdivideAndDrawQuad (2 : ℕ) (3 : ℕ) tabletopQuad) (0 * 3 + (3 - 1)))[3]? =
      some (corner3 tabletopQuad) :=
  C8_outer_corners 2 3 (by decide) (by decide) tabletopQuad

/-- C10, as stated, fails at the eye position `(5, 0, 1)`: there
`ez ≠ TABLETOP_Z`, the near value handed to `glFrustum` is `-0.2`, and
`|TABLETOP_Z - ez|` is `0.2`. -/
theorem C10_counterexample :
    (1 : ℚ) ≠ TABLETOP_Z ∧
    (MakeReflectionImage_glFrustum ⟨5, 0, 1⟩).nearVal = -1 / 5 ∧
    |TABLETOP_Z - 1| = 1 / 5 ∧
    (MakeReflectionImage_glFrustum ⟨5, 0, 1⟩).nearVal ≠ |TABLETOP_Z - 1| := by
  have h1 : (MakeReflectionImage_glFrustum ⟨5, 0, 1⟩).nearVal = -1 / 5 := by
    norm_num [MakeReflectionImage_glFrustum, TABLETOP_Z]
  have h2 : |TABLETOP_Z - 1| = 1 / 5 := by
    rw [abs_of_pos (by norm_num [TABLETOP_Z])]
    norm_num [TABLETOP_Z]
  refine ⟨by norm_num [TABLETOP_Z], h1, h2, ?_⟩
  rw [h1, h2]
  norm_num

/-- C10, amended: the near distance `MakeReflectionImage` passes to
`glFrustum` is `ez - TABLETOP_Z`; it equals `|TABLETOP_Z - ez|` for every eye
position with `ez > TABLETOP_Z`, and is the negative `-|TABLETOP_Z - ez|` for
every eye position with `ez < TABLETOP_Z`. -/
theorem C10_near_value (ex ey ez : ℚ) :
    (MakeReflectionImage_glFrustum ⟨ex, ey, ez⟩).nearVal = ez - TABLETOP_Z ∧
    (TABLETOP_Z < ez →
      (MakeReflectionImage_glFrustum ⟨ex, ey, ez⟩).nearVal = |TABLETOP_Z - ez|) ∧
    (ez < TABLETOP_Z →
      (MakeReflectionImage_glFrustum ⟨ex, ey, ez⟩).nearVal = -|TABLETOP_Z - ez| ∧
      (MakeReflectionImage_glFrustum ⟨ex, ey, ez⟩).nearVal < 0) := by
  refine ⟨rfl, ?_, ?_⟩
  · intro h
    rw [abs_of_neg (by linarith)]
    simp only [MakeReflectionImage_glFrustum]
    ring
  · intro h
    rw [abs_of_pos (by linarith)]
    simp only [MakeReflectionImage_glFrustum]
    exact ⟨by ring, by linarith⟩

/-- C11, as stated, fails at the eye position `(5, 0, 3)` (above the
tabletop): the near value is `1.8`, the far value is `9`, and near plus
`SCENE_RADIUS` is `7.8`. -/
theorem C11_counterexample :
    (MakeReflectionImage_glFrustum ⟨5, 0, 3⟩).nearVal = 9 / 5 ∧
    (MakeReflectionImage_glFrustum ⟨5, 0, 3⟩).farVal = 9 ∧
    (MakeReflectionImage_glFrustum ⟨5, 0, 3⟩).farVal ≠
      (MakeReflectionImage_glFrustum ⟨5, 0, 3⟩).nearVal + SCENE_RADIUS := by
  simp only [MakeReflectionImage_glFrustum, TABLETOP_Z, SCENE_RADIUS]
  norm_num

/-- C11, amended: for every real eye position the far distance
`MakeReflectionImage` passes to `glFrustum` is `ez + SCENE_RADIUS`, which is
the near distance it passes plus `TABLETOP_Z + SCENE_RADIUS = 7.2` (and so
never the near distance plus `SCENE_RADIUS`). -/
theorem C11_far_value (ex ey ez : ℚ) :
    (MakeReflectionImage_glFrustum ⟨ex, ey, ez⟩).farVal = ez + SCENE_RADIUS ∧
    (MakeReflectionImage_glFrustum ⟨ex, ey, ez⟩).farVal =
      (MakeReflectionImage_glFrustum ⟨ex, ey, ez⟩).nearVal + (TABLETOP_Z + SCENE_RADIUS) ∧
    TABLETOP_Z + SCENE_RADIUS = 36 / 5 ∧
    (MakeReflectionImage_glFrustum ⟨ex, ey, ez⟩).farVal ≠
      (MakeReflectionImage_glFrustum ⟨ex, ey, ez⟩).nearVal + SCENE_RADIUS := by
  simp only [MakeReflectionImage_glFrustum, TABLETOP_Z, SCENE_RADIUS]
  refine ⟨trivial, by ring, by norm_num, ?_⟩
  intro h
  linarith

/-- C12, as stated, fails at the eye position `(5, 0, 3)`: the view axis of
the mirror camera meets the plane `z = TABLETOP_Z` at `(5, 0, 1.2)` and
nowhere else, and that point is not over the mirror rectangle. -/
theorem C12_counterexample :
    (3 : ℚ) ≠ TABLETOP_Z ∧
    viewAxisPoint (MakeReflectionImage_gluLookAt ⟨5, 0, 3⟩) (1 / 2) = ⟨5, 0, TABLETOP_Z⟩ ∧
    (∀ t, (viewAxisPoint (MakeReflectionImage_gluLookAt ⟨5, 0, 3⟩) t).z = TABLETOP_Z →
      viewAxisPoint (MakeReflectionImage_gluLookAt ⟨5, 0, 3⟩) t = ⟨5, 0, TABLETOP_Z⟩) ∧
    ¬ inMirrorRectangle ⟨5, 0, TABLETOP_Z⟩ := by
  refine ⟨by norm_num [TABLETOP_Z], ?_, ?_, ?_⟩
  · simp only [viewAxisPoint, MakeReflectionImage_gluLookAt, TABLETOP_Z, Vec3.mk.injEq]
    norm_num
  · intro t ht
    simp only [viewAxisPoint, MakeReflectionImage_gluLookAt, TABLETOP_Z, Vec3.mk.injEq] at *
    refine ⟨by ring, by ring, ht⟩
  · simp only [inMirrorRectangle, TABLETOP_X1, TABLETOP_X2, TABLETOP_Y1, TABLETOP_Y2]
    norm_num

/-- C12, amended: for every real eye position `(ex, ey, ez)` with
`ez ≠ TABLETOP_Z`, the mirror camera's look target is `(ex, ey, ez)` and its
view axis is the vertical line through `(ex, ey)`: it meets the plane
`z = TABLETOP_Z` exactly at `(ex, ey, TABLETOP_Z)`, halfway between the
mirrored eye and the target, and that point is over the mirror rectangle if
and only if `TABLETOP_X1 ≤ ex ≤ TABLETOP_X2` and
`TABLETOP_Y1 ≤ ey ≤ TABLETOP_Y2`. -/
theorem C12_view_axis (ex ey ez : ℚ) (hz : ez ≠ TABLETOP_Z) :
    (MakeReflectionImage_gluLookAt ⟨ex, ey, ez⟩).center = ⟨ex, ey, ez⟩ ∧
    (∀ t, (viewAxisPoint (MakeReflectionImage_gluLookAt ⟨ex, ey, ez⟩) t).z = TABLETOP_Z ↔
      t = 1 / 2) ∧
    viewAxisPoint (MakeReflectionImage_gluLookAt ⟨ex, ey, ez⟩) (1 / 2) =
      ⟨ex, ey, TABLETOP_Z⟩ ∧
    (inMirrorRectangle (viewAxisPoint (MakeReflectionImage_gluLookAt ⟨ex, ey, ez⟩) (1 / 2)) ↔
      (TABLETOP_X1 ≤ ex ∧ ex ≤ TABLETOP_X2 ∧ TABLETOP_Y1 ≤ ey ∧ ey ≤ TABLETOP_Y2)) := by
  have hmid : viewAxisPoint (MakeReflectionImage_gluLookAt ⟨ex, ey, ez⟩) (1 / 2) =
      ⟨ex, ey, TABLETOP_Z⟩ := by
    simp only [viewAxisPoint, MakeReflectionImage_gluLookAt, Vec3.mk.injEq]
    refine ⟨by ring, by ring, by ring⟩
  refine ⟨rfl, ?_, hmid, ?_⟩
  · intro t
    simp only [viewAxisPoint, MakeReflectionImage_gluLookAt]
    have hne : ez - TABLETOP_Z ≠ 0 := sub_ne_zero.mpr hz
    constructor
    · intro h
      have h2 : (ez - TABLETOP_Z) * (2 * t - 1) = 0 := by linarith
      rcases mul_eq_zero.mp h2 with h3 | h3
      · exact absurd h3 hne
      · linarith
    · intro h
      rw [h]
      ring
  · rw [hmid]
    simp only [inMirrorRectangle]

/-- Witness for the amended C12: the eye at `(5, 0, 3)`. -/
theorem C12_view_axis_witness :
    (3 : ℚ) ≠ TABLETOP_Z ∧
    (MakeReflectionImage_gluLookAt ⟨5, 0, 3⟩).center = ⟨5, 0, 3⟩ ∧
    (∀ t, (viewAxisPoint (MakeReflectionImage_gluLookAt ⟨5, 0, 3⟩) t).z = TABLETOP_Z ↔
      t = 1 / 2) ∧
    viewAxisPoint (MakeReflectionImage_gluLookAt ⟨5, 0, 3⟩) (1 / 2) = ⟨5, 0, TABLETOP_Z⟩ ∧
    (inMirrorRectangle (viewAxisPoint (MakeReflectionImage_gluLookAt ⟨5, 0, 3⟩) (1 / 2)) ↔
      (TABLETOP_X1 ≤ 5 ∧ (5 : ℚ) ≤ TABLETOP_X2 ∧ TABLETOP_Y1 ≤ 0 ∧ (0 : ℚ) ≤ TABLETOP_Y2)) :=
  ⟨by norm_num [TABLETOP_Z], C12_view_axis 5 0 3 (by norm_num [TABLETOP_Z])⟩

/-- C13: the tabletop tessellation of `DrawTable` (24 x 24 steps) emits exactly
576 quads, and the coordinate-wise bounding box of the emitted positions is
exactly `(-1, -1.5, 1.2)` to `(1, 1.5, 1.2)`: every emitted z is `1.2`, every
x lies in `[-1, 1]` and every y in `[-1.5, 1.5]`, and the two extreme corners
`(-1, -1.5, 1.2)` and `(1, 1.5, 1.2)` are emitted. -/
theorem C13_tabletop_count_and_bounding_box :
    DrawTable_tabletop.length = 4 * 576 ∧
    (∀ k, k < 576 → (quadAt DrawTable_tabletop k).length = 4) ∧
    (∀ k, 576 ≤ k → quadAt DrawTable_tabletop k = []) ∧
    (∀ e ∈ DrawTable_tabletop,
      e.pos.z = 6 / 5 ∧ -1 ≤ e.pos.x ∧ e.pos.x ≤ 1 ∧ -3 / 2 ≤ e.pos.y ∧ e.pos.y ≤ 3 / 2) ∧
    (∃ e ∈ DrawTable_tabletop, e.pos = ⟨-1, -3 / 2, 6 / 5⟩) ∧
    (∃ e ∈ DrawTable_tabletop, e.pos = ⟨1, 3 / 2, 6 / 5⟩) := by
  have hlen : DrawTable_tabletop.length = 4 * 576 :=
    length_SubdivideAndDrawQuad 24 24 tabletopQuad
  refine ⟨hlen, ?_, ?_, ?_, ?_, ?_⟩
  · intro k hk
    have h := quadAt_SubdivideAndDrawQuad 24 24 tabletopQuad k hk
    unfold DrawTable_tabletop
    rw [show ((24 : ℤ)) = ((24 : ℕ) : ℤ) from rfl, h]
    rfl
  · intro k hk
    unfold quadAt
    rw [List.drop_of_length_le (by rw [hlen]; exact Nat.mul_le_mul_left 4 hk)]
    rfl
  · intro e he
    obtain ⟨a, b, ha, hb, rfl⟩ := mem_SubdivideAndDrawQuad_closed 24 24 tabletopQuad e he
    have ha' : ((a : ℚ)) ≤ 24 := by exact_mod_cast ha
    have hb' : ((b : ℚ)) ≤ 24 := by exact_mod_cast hb
    have ha0 : (0 : ℚ) ≤ a := Nat.cast_nonneg a
    have hb0 : (0 : ℚ) ≤ b := Nat.cast_nonneg b
    rw [closedVertex_tabletopQuad]
    simp only [TABLETOP_X1, TABLETOP_X2, TABLETOP_Y1, TABLETOP_Y2, TABLETOP_Z, Nat.cast_ofNat]
    refine ⟨trivial, ?_, ?_, ?_, ?_⟩ <;> linarith
  · refine ⟨corner0 tabletopQuad, corner0_mem 24 24 (by decide) (by decide) tabletopQuad, ?_⟩
    simp only [corner0, tabletopQuad, TABLETOP_X1, TABLETOP_Y1, TABLETOP_Z]
  · refine ⟨corner2 tabletopQuad, corner2_mem 24 24 (by decide) (by decide) tabletopQuad, ?_⟩
    simp only [corner2, tabletopQuad, TABLETOP_X2, TABLETOP_Y2, TABLETOP_Z]

/-- C14, as stated, fails for `uSteps = 0`, `vSteps = 3` (and likewise for
`uSteps = -2`): the call returns normally, having emitted nothing. -/
theorem C14_counterexample :
    SubdivideAndDrawQuad_outcome 0 3 tabletopQuad = some [] ∧
    SubdivideAndDrawQuad_outcome (-2) 3 tabletopQuad = some [] ∧
    SubdivideAndDrawQuad_outcome 0 3 tabletopQuad ≠ none := by
  have h1 : SubdivideAndDrawQuad_outcome 0 3 tabletopQuad = some [] := by
    simp [SubdivideAndDrawQuad_outcome, SubdivideAndDrawQuad]
  have h2 : SubdivideAndDrawQuad_outcome (-2) 3 tabletopQuad = some [] := by
    simp [SubdivideAndDrawQuad_outcome, SubdivideAndDrawQuad]
  exact ⟨h1, h2, by rw [h1]; exact Option.some_ne_none _⟩

/-- C14, amended: `SubdivideAndDrawQuad` called with `uSteps ≤ 0` or
`vSteps ≤ 0` is not rejected: the call completes normally and emits no
vertex at all. -/
theorem C14_nonpositive_steps (uSteps vSteps : ℤ) (q : QuadArgs)
    (h : uSteps ≤ 0 ∨ vSteps ≤ 0) :
    SubdivideAndDrawQuad_outcome uSteps vSteps q = some [] := by
  unfold SubdivideAndDrawQuad_outcome
  rw [SubdivideAndDrawQuad_nonpos uSteps vSteps q h]

/-- Witness for the amended C14: `uSteps = 5`, `vSteps = -1`. -/
theorem C14_nonpositive_steps_witness :
    ((5 : ℤ) ≤ 0 ∨ (-1 : ℤ) ≤ 0) ∧ SubdivideAndDrawQuad_outcome 5 (-1) tabletopQuad = some [] :=
  ⟨Or.inr (by decide), C14_nonpositive_steps 5 (-1) tabletopQuad (Or.inr (by decide))⟩

/-- C15: starting from the initial state (latitude 0), after every finite
sequence of `MyKeyboard` and `MySpecialKey` events the latitude satisfies
`EYE_MIN_LATITUDE ≤ eyeLatitude ≤ EYE_MAX_LATITUDE`, that is
`-88 ≤ eyeLatitude ≤ 88`. -/
theorem C15_latitude_clamp (evs : List Event) (g : Globals)
    (h : runEvents initialGlobals evs = some g) :
    (EYE_MIN_LATITUDE ≤ g.eyeLatitude ∧ g.eyeLatitude ≤ EYE_MAX_LATITUDE) ∧
    (-88 ≤ g.eyeLatitude ∧ g.eyeLatitude ≤ 88) ∧ initialGlobals.eyeLatitude = 0 := by
  have h0 : EYE_MIN_LATITUDE ≤ initialGlobals.eyeLatitude ∧
      initialGlobals.eyeLatitude ≤ EYE_MAX_LATITUDE := by
    simp only [initialGlobals, EYE_MIN_LATITUDE, EYE_MAX_LATITUDE]
    norm_num
  have hinv := runEvents_invariant
    (fun s => EYE_MIN_LATITUDE ≤ s.eyeLatitude ∧ s.eyeLatitude ≤ EYE_MAX_LATITUDE)
    latitude_step evs initialGlobals g h0 h
  exact ⟨hinv, hinv, rfl⟩

/-- Witness for C15: UP, SHIFT+UP, the wireframe key and LEFT, in this order. -/
theorem C15_latitude_clamp_witness :
    runEvents initialGlobals
        [Event.special GLUT_KEY_UP 0 0 0, Event.special GLUT_KEY_UP GLUT_ACTIVE_SHIFT 0 0,
         Event.keyboard 'w' 0 0, Event.special GLUT_KEY_LEFT 0 0 0] =
      some ⟨2, -2, 24 / 5, true, true, true⟩ ∧
    (EYE_MIN_LATITUDE ≤ (2 : ℚ) ∧ (2 : ℚ) ≤ EYE_MAX_LATITUDE) ∧
    (-88 ≤ (2 : ℚ) ∧ (2 : ℚ) ≤ 88) ∧ initialGlobals.eyeLatitude = 0 := by
  have hrun : runEvents initialGlobals
      [Event.special GLUT_KEY_UP 0 0 0, Event.special GLUT_KEY_UP GLUT_ACTIVE_SHIFT 0 0,
       Event.keyboard 'w' 0 0, Event.special GLUT_KEY_LEFT 0 0 0] =
      some ⟨2, -2, 24 / 5, true, true, true⟩ := by
    simp [runEvents, handleEvent, MyKeyboard, MySpecialKey, initialGlobals, GLUT_KEY_UP,
      GLUT_KEY_LEFT, GLUT_KEY_RIGHT, GLUT_KEY_DOWN, GLUT_ACTIVE_SHIFT, EYE_INIT_DIST,
      EYE_DIST_INCR, EYE_MIN_DIST, EYE_LATITUDE_INCR, EYE_MAX_LATITUDE, EYE_LONGITUDE_INCR]
    norm_num
  exact ⟨hrun, C15_latitude_clamp _ _ hrun⟩

/-- C16: starting from the initial state (distance `EYE_INIT_DIST = 5.0`),
after every finite sequence of `MyKeyboard` and `MySpecialKey` events the
distance satisfies `eyeDistance ≥ EYE_MIN_DIST = 0.1`; SHIFT+UP replaces the
distance `d` by `d - EYE_DIST_INCR`, or by `EYE_MIN_DIST` when that would be
smaller, and SHIFT+DOWN replaces it by `d + EYE_DIST_INCR`. -/
theorem C16_distance_clamp (evs : List Event) (g : Globals)
    (h : runEvents initialGlobals evs = some g) :
    EYE_MIN_DIST ≤ g.eyeDistance ∧
    (∀ s : Globals, ∀ x y,
      (MySpecialKey s GLUT_KEY_UP GLUT_ACTIVE_SHIFT x y).eyeDistance =
        max (s.eyeDistance - EYE_DIST_INCR) EYE_MIN_DIST) ∧
    (∀ s : Globals, ∀ x y,
      (MySpecialKey s GLUT_KEY_DOWN GLUT_ACTIVE_SHIFT x y).eyeDistance =
        s.eyeDistance + EYE_DIST_INCR) ∧
    initialGlobals.eyeDistance = 5 ∧ EYE_MIN_DIST = 1 / 10 ∧ EYE_DIST_INCR = 1 / 5 := by
  have h0 : EYE_MIN_DIST ≤ initialGlobals.eyeDistance := by
    simp only [initialGlobals, EYE_MIN_DIST, EYE_INIT_DIST]
    norm_num
  refine ⟨runEvents_invariant (fun s => EYE_MIN_DIST ≤ s.eyeDistance) distance_step evs
    initialGlobals g h0 h, ?_, ?_, rfl, rfl, rfl⟩
  · intro s x y
    simp only [MySpecialKey, GLUT_KEY_UP, GLUT_KEY_LEFT, GLUT_KEY_RIGHT, GLUT_ACTIVE_SHIFT]
    norm_num
    split_ifs with hlt
    · rw [max_eq_right hlt.le]
    · rw [max_eq_left (not_lt.mp hlt)]
  · intro s x y
    simp only [MySpecialKey, GLUT_KEY_UP, GLUT_KEY_DOWN, GLUT_KEY_LEFT, GLUT_KEY_RIGHT,
      GLUT_ACTIVE_SHIFT]
    norm_num

/-- Witness for C16: three SHIFT+UP presses and the reset key between them. -/
theorem C16_distance_clamp_witness :
    runEvents initialGlobals
        [Event.special GLUT_KEY_UP GLUT_ACTIVE_SHIFT 0 0,
         Event.special GLUT_KEY_UP GLUT_ACTIVE_SHIFT 0 0, Event.keyboard 'r' 0 0,
         Event.special GLUT_KEY_UP GLUT_ACTIVE_SHIFT 0 0] =
      some ⟨0, 0, 24 / 5, true, false, true⟩ ∧
    EYE_MIN_DIST ≤ (24 / 5 : ℚ) := by
  have hrun : runEvents initialGlobals
      [Event.special GLUT_KEY_UP GLUT_ACTIVE_SHIFT 0 0,
       Event.special GLUT_KEY_UP GLUT_ACTIVE_SHIFT 0 0, Event.keyboard 'r' 0 0,
       Event.special GLUT_KEY_UP GLUT_ACTIVE_SHIFT 0 0] =
      some ⟨0, 0, 24 / 5, true, false, true⟩ := by
    simp [runEvents, handleEvent, MyKeyboard, MySpecialKey, initialGlobals, GLUT_KEY_UP,
      GLUT_KEY_LEFT, GLUT_KEY_RIGHT, GLUT_KEY_DOWN, GLUT_ACTIVE_SHIFT, EYE_INIT_DIST,
      EYE_DIST_INCR, EYE_MIN_DIST]
    norm_num
  exact ⟨hrun, (C16_distance_clamp _ _ hrun).1⟩

/-- C17: for every eye state with `-360 ≤ eyeLongitude ≤ 360`, a LEFT (resp.
RIGHT) event of `MySpecialKey` yields a longitude that is congruent to
`eyeLongitude - 2` (resp. `+ 2`) modulo 360 and again lies in `[-360, 360]`;
hence from the initial state the longitude stays in `[-360, 360]` after every
event sequence. -/
theorem C17_longitude_wrap (g : Globals) (h1 : -360 ≤ g.eyeLongitude)
    (h2 : g.eyeLongitude ≤ 360) :
    (∀ modi x y,
      (∃ k : ℤ, (MySpecialKey g GLUT_KEY_LEFT modi x y).eyeLongitude =
        g.eyeLongitude - 2 + 360 * k) ∧
      -360 ≤ (MySpecialKey g GLUT_KEY_LEFT modi x y).eyeLongitude ∧
      (MySpecialKey g GLUT_KEY_LEFT modi x y).eyeLongitude ≤ 360) ∧
    (∀ modi x y,
      (∃ k : ℤ, (MySpecialKey g GLUT_KEY_RIGHT modi x y).eyeLongitude =
        g.eyeLongitude + 2 + 360 * k) ∧
      -360 ≤ (MySpecialKey g GLUT_KEY_RIGHT modi x y).eyeLongitude ∧
      (MySpecialKey g GLUT_KEY_RIGHT modi x y).eyeLongitude ≤ 360) ∧
    (∀ evs g1, runEvents initialGlobals evs = some g1 →
      -360 ≤ g1.eyeLongitude ∧ g1.eyeLongitude ≤ 360) := by
  refine ⟨?_, ?_, ?_⟩
  · intro modi x y
    have hr := longitude_step g (Event.special GLUT_KEY_LEFT modi x y) _ ⟨h1, h2⟩ rfl
    refine ⟨?_, hr⟩
    simp only [MySpecialKey, GLUT_KEY_LEFT, EYE_LONGITUDE_INCR, if_true]
    split_ifs
    · exact ⟨1, by push_cast; ring⟩
    · exact ⟨0, by push_cast; ring⟩
  · intro modi x y
    have hr := longitude_step g (Event.special GLUT_KEY_RIGHT modi x y) _ ⟨h1, h2⟩ rfl
    refine ⟨?_, hr⟩
    simp only [MySpecialKey, GLUT_KEY_LEFT, GLUT_KEY_RIGHT, EYE_LONGITUDE_INCR]
    norm_num
    split_ifs
    · exact ⟨-1, by push_cast; ring⟩
    · exact ⟨0, by push_cast; ring⟩
  · intro evs g1 h
    exact runEvents_invariant (fun s => -360 ≤ s.eyeLongitude ∧ s.eyeLongitude ≤ 360)
      longitude_step evs initialGlobals g1 (by simp [initialGlobals]) h

/-- Witness for C17: a state with longitude `-360`, where LEFT wraps. -/
theorem C17_longitude_wrap_witness :
    (MySpecialKey ⟨0, -360, 5, true, false, true⟩ GLUT_KEY_LEFT 0 0 0).eyeLongitude = -2 ∧
    (∃ k : ℤ, (MySpecialKey ⟨0, -360, 5, true, false, true⟩ GLUT_KEY_LEFT 0 0 0).eyeLongitude =
      (-360 : ℚ) - 2 + 360 * k) := by
  have h := (C17_longitude_wrap ⟨0, -360, 5, true, false, true⟩ (by norm_num)
    (by norm_num)).1 0 0 0
  refine ⟨?_, h.1⟩
  simp only [MySpecialKey, GLUT_KEY_LEFT, EYE_LONGITUDE_INCR, if_true]
  norm_num

/-- C19: in every frame executed by `MyDisplay`, as a sequence of steps, the
mirror-capture pass completes before the main pass begins.  The frame starts
with the texture toggle and the computation of the eye position; the next 13
steps are those of `MakeReflectionImage`, ending with the copy of the frame
buffer into the reflection texture; only then come the main pass's clear and
draws.  The tabletop is drawn in the main pass and not earlier, right after
the reflection texture is bound there, and nothing copies into the texture
after the capture. -/
theorem C19_capture_before_main (g : Globals) :
    (MyDisplay_steps g).take 2 = [Step.setTexture2D g.hasTexture, Step.computeEyePos] ∧
    ((MyDisplay_steps g).drop 2).take 13 = MakeReflectionImage_steps ∧
    MakeReflectionImage_steps.getLast? = some Step.glCopyTexImage2D ∧
    ((MyDisplay_steps g).drop 15).head? = some Step.glClear ∧
    (∀ d ∈ [Step.DrawRoom, Step.DrawTeapot, Step.DrawSphere, Step.DrawTransformerBody,
        Step.DrawTransformerHead, Step.glCopyTexImage2D],
      d ∈ ((MyDisplay_steps g).drop 2).take 13) ∧
    Step.drawTabletop ∈ (MyDisplay_steps g).drop 15 ∧
    Step.drawTabletop ∉ (MyDisplay_steps g).take 15 ∧
    Step.glCopyTexImage2D ∉ (MyDisplay_steps g).drop 15 ∧
    ((MyDisplay_steps g).drop 15).indexOf Step.bindReflectionTexture + 1 =
      ((MyDisplay_steps g).drop 15).indexOf Step.drawTabletop ∧
    (MyDisplay_steps g).getLast? = some Step.glutSwapBuffers := by
  obtain ⟨lat, lon, d, a, w, t⟩ := g
  cases a <;> cases t <;> dsimp only [MyDisplay_steps] <;> decide

/-- C20: for every state, the key `r` or `R` in `MyKeyboard` sets the eye
state to its defaults (latitude 0, longitude 0, distance
`EYE_INIT_DIST = 5.0`) and leaves the flags `drawAxes`, `drawWireframe` and
`hasTexture` unchanged. -/
theorem C20_reset (g : Globals) (x y : ℤ) :
    MyKeyboard g 'r' x y =
      some ⟨0, 0, EYE_INIT_DIST, g.drawAxes, g.drawWireframe, g.hasTexture⟩ ∧
    MyKeyboard g 'R' x y =
      some ⟨0, 0, EYE_INIT_DIST, g.drawAxes, g.drawWireframe, g.hasTexture⟩ ∧
    EYE_INIT_DIST = 5 := by
  refine ⟨?_, ?_, rfl⟩
  · simp [MyKeyboard]
  · simp [MyKeyboard]

/-- C21: at the initial eye state (latitude 0, longitude 0, distance
`EYE_INIT_DIST = 5.0`) the world-space eye position `MyDisplay` computes is
`[EYE_INIT_DIST, 0, 0] + [LOOKAT_X, LOOKAT_Y, LOOKAT_Z] = (5, 0, 1)`, and the
mirrored eye `MakeReflectionImage` uses for it has the same x and y and
`z = 2 * 1.2 - 1 = 1.4`. -/
theorem C21_initial_eye :
    (MyDisplay_eyePos initialGlobals).x = 5 ∧ (MyDisplay_eyePos initialGlobals).y = 0 ∧
    (MyDisplay_eyePos initialGlobals).z = 1 ∧
    (MyDisplay_eyePos initialGlobals).x = ((EYE_INIT_DIST + LOOKAT_X : ℚ) : ℝ) ∧
    (MyDisplay_eyePos initialGlobals).y = ((0 + LOOKAT_Y : ℚ) : ℝ) ∧
    (MyDisplay_eyePos initialGlobals).z = ((0 + LOOKAT_Z : ℚ) : ℝ) ∧
    (MakeReflectionImage_gluLookAt ⟨5, 0, 1⟩).eye = ⟨5, 0, 7 / 5⟩ ∧
    (7 / 5 : ℚ) = 2 * TABLETOP_Z - 1 := by
  have hx : (MyDisplay_eyePos initialGlobals).x = 5 := by
    simp [MyDisplay_eyePos, initialGlobals, EYE_INIT_DIST, LOOKAT_X]
  have hy : (MyDisplay_eyePos initialGlobals).y = 0 := by
    simp [MyDisplay_eyePos, initialGlobals, EYE_INIT_DIST, LOOKAT_Y]
  have hz : (MyDisplay_eyePos initialGlobals).z = 1 := by
    simp [MyDisplay_eyePos, initialGlobals, EYE_INIT_DIST, LOOKAT_Z]
  refine ⟨hx, hy, hz, ?_, ?_, ?_, ?_, ?_⟩
  · rw [hx]
    norm_num [EYE_INIT_DIST, LOOKAT_X]
  · rw [hy]
    norm_num [LOOKAT_Y]
  · rw [hz]
    norm_num [LOOKAT_Z]
  · simp only [MakeReflectionImage_gluLookAt, TABLETOP_Z, Vec3.mk.injEq]
    norm_num
  · norm_num [TABLETOP_Z]

/-- C22: the tessellation is crack-free.  For every grid cell `(i, j)` with
`i < m`, `j < n`: when `i + 1 < m`, vertices 2 and 3 of cell `(i, j)` are
vertices 1 and 4 of cell `(i + 1, j)`; when `j + 1 < n`, vertices 4 and 3 of
cell `(i, j)` are vertices 1 and 2 of cell `(i, j + 1)`; in position and in
texture coordinate. -/
theorem C22_crack_free (m n : ℕ) (q : QuadArgs) (i j : ℕ) (hi : i < m) (hj : j < n) :
    (i + 1 < m →
      (∃ e, (quadAt (SubdivideAndDrawQuad m n q) (i * n + j))[1]? = some e ∧
        (quadAt (SubdivideAndDrawQuad m n q) ((i + 1) * n + j))[0]? = some e) ∧
      (∃ e, (quadAt (SubdivideAndDrawQuad m n q) (i * n + j))[2]? = some e ∧
        (quadAt (SubdivideAndDrawQuad m n q) ((i + 1) * n + j))[3]? = some e)) ∧
    (j + 1 < n →
      (∃ e, (quadAt (SubdivideAndDrawQuad m n q) (i * n + j))[3]? = some e ∧
        (quadAt (SubdivideAndDrawQuad m n q) (i * n + (j + 1)))[0]? = some e) ∧
      (∃ e, (quadAt (SubdivideAndDrawQuad m n q) (i * n + j))[2]? = some e ∧
        (quadAt (SubdivideAndDrawQuad m n q) (i * n + (j + 1)))[1]? = some e)) := by
  constructor
  · intro hi1
    rw [quadAt_cell m n q i j hi hj, quadAt_cell m n q (i + 1) j hi1 hj, cellOutput_closed,
      cellOutput_closed]
    exact ⟨⟨closedVertex q (((i + 1 : ℕ) : ℚ) / m) ((j : ℚ) / n), by simp, by simp⟩,
      ⟨closedVertex q (((i + 1 : ℕ) : ℚ) / m) (((j + 1 : ℕ) : ℚ) / n), by simp, by simp⟩⟩
  · intro hj1
    rw [quadAt_cell m n q i j hi hj, quadAt_cell m n q i (j + 1) hi hj1, cellOutput_closed,
      cellOutput_closed]
    exact ⟨⟨closedVertex q ((i : ℚ) / m) (((j + 1 : ℕ) : ℚ) / n), by simp, by simp⟩,
      ⟨closedVertex q (((i + 1 : ℕ) : ℚ) / m) (((j + 1 : ℕ) : ℚ) / n), by simp, by simp⟩⟩

/-- Witness for C22: cell `(0, 1)` of a 2 x 3 subdivision of the tabletop
quad, which has a neighbour in each direction. -/
theorem C22_crack_free_witness :
    (∃ e, (quadAt (SubdivideAndDrawQuad (2 : ℕ) (3 : ℕ) tabletopQuad) (0 * 3 + 1))[1]? = some e ∧
      (quadAt (SubdivideAndDrawQuad (2 : ℕ) (3 : ℕ) tabletopQuad) ((0 + 1) * 3 + 1))[0]? =
        some e) ∧
    (∃ e, (quadAt (SubdivideAndDrawQuad (2 : ℕ) (3 : ℕ) tabletopQuad) (0 * 3 + 1))[2]? = some e ∧
      (quadAt (SubdivideAndDrawQuad (2 : ℕ) (3 : ℕ) tabletopQuad) (0 * 3 + (1 + 1)))[1]? =
        some e) :=
  ⟨((C22_crack_free 2 3 tabletopQuad 0 1 (by decide) (by decide)).1 (by decide)).1,
   ((C22_crack_free 2 3 tabletopQuad 0 1 (by decide) (by decide)).2 (by decide)).2⟩

/-- C23, as stated, fails in the `float` arithmetic of the routine.  The 1 x 1
subdivision of `lastPlaceQuad`, whose parameters are all `float`s, emits a
vertex with x = 838861 / 4194304 = 0.20000004768371582, above the maximum
13421773 / 67108864 = 0.20000000298023224 of x over the four input corners. -/
theorem C23_counterexample :
    quadIsF32 lastPlaceQuad ∧
    (⟨⟨some 1, some 0, some 0⟩, ⟨some (838861 / 4194304), some 0, some 0⟩⟩ : EmittedF32) ∈
      SubdivideAndDrawQuadF32 1 1 lastPlaceQuad ∧
    cornerMax lastPlaceQuad.x0 lastPlaceQuad.x1 lastPlaceQuad.x2 lastPlaceQuad.x3 =
      13421773 / 67108864 ∧
    ¬ withinCorners lastPlaceQuad.x0 lastPlaceQuad.x1 lastPlaceQuad.x2 lastPlaceQuad.x3
      (838861 / 4194304) := by
  refine ⟨lastPlaceQuad_isF32, ?_, ?_, ?_⟩
  · rw [SubdivideAndDrawQuadF32_lastPlaceQuad]
    simp
  · norm_num [cornerMax, lastPlaceQuad]
  · norm_num [withinCorners, cornerMax, cornerMin, lastPlaceQuad]

/-- C23, amended: with the interpolation arithmetic taken exactly, every
vertex emitted by `SubdivideAndDrawQuad` (for step counts `m, n`, necessarily
both at least 1 when something is emitted) has each component of its position
and of its texture coordinate between the minimum and the maximum of that
component over the four input corners; a quad with constant z yields only
vertices with that z, and the third component of every emitted
texture-coordinate array is 0. -/
theorem C23_within_corner_range (m n : ℕ) (q : QuadArgs) (e : Emitted)
    (he : e ∈ SubdivideAndDrawQuad m n q) :
    withinCorners q.s0 q.s1 q.s2 q.s3 e.tc.x ∧
    withinCorners q.t0 q.t1 q.t2 q.t3 e.tc.y ∧
    withinCorners q.x0 q.x1 q.x2 q.x3 e.pos.x ∧
    withinCorners q.y0 q.y1 q.y2 q.y3 e.pos.y ∧
    withinCorners q.z0 q.z1 q.z2 q.z3 e.pos.z ∧
    (∀ c, q.z0 = c ∧ q.z1 = c ∧ q.z2 = c ∧ q.z3 = c → e.pos.z = c) ∧
    e.tc.z = 0 ∧ (texCoord2 e = (e.tc.x, e.tc.y)) ∧ 1 ≤ m ∧ 1 ≤ n := by
  obtain ⟨i, j, hi, hj, _⟩ := mem_SubdivideAndDrawQuad m n q e he
  obtain ⟨a, b, ha, hb, rfl⟩ := mem_SubdivideAndDrawQuad_closed m n q e he
  obtain ⟨hu0, hu1⟩ := grid_param_unit m a ha
  obtain ⟨hv0, hv1⟩ := grid_param_unit n b hb
  refine ⟨?_, ?_, ?_, ?_, ?_, ?_, closedVertex_tc_z q _ _, rfl, by omega, by omega⟩
  · exact withinCorners_bilinear _ _ _ _ _ _ hu0 hu1 hv0 hv1
  · exact withinCorners_bilinear _ _ _ _ _ _ hu0 hu1 hv0 hv1
  · exact withinCorners_bilinear _ _ _ _ _ _ hu0 hu1 hv0 hv1
  · exact withinCorners_bilinear _ _ _ _ _ _ hu0 hu1 hv0 hv1
  · exact withinCorners_bilinear _ _ _ _ _ _ hu0 hu1 hv0 hv1
  · intro c hc
    exact closedVertex_pos_z q c hc _ _

/-- Witness for the amended C23: the first corner of a 2 x 3 subdivision of the
tabletop quad. -/
theorem C23_within_corner_range_witness :
    corner0 tabletopQuad ∈ SubdivideAndDrawQuad (2 : ℕ) (3 : ℕ) tabletopQuad ∧
    withinCorners tabletopQuad.x0 tabletopQuad.x1 tabletopQuad.x2 tabletopQuad.x3
      (corner0 tabletopQuad).pos.x ∧
    (corner0 tabletopQuad).tc.z = 0 :=
  ⟨corner0_mem 2 3 (by decide) (by decide) tabletopQuad,
   (C23_within_corner_range 2 3 tabletopQuad (corner0 tabletopQuad)
      (corner0_mem 2 3 (by decide) (by decide) tabletopQuad)).2.2.1,
   (C23_within_corner_range 2 3 tabletopQuad (corner0 tabletopQuad)
      (corner0_mem 2 3 (by decide) (by decide) tabletopQuad)).2.2.2.2.2.2.1⟩

/-- C24: the arguments `MakeReflectionImage` passes to `glFrustum` satisfy
`glFrustum`'s validity conditions (near > 0, far > 0, left ≠ right,
bottom ≠ top, near ≠ far) if and only if the real eye is strictly above the
tabletop; far minus near is `TABLETOP_Z + SCENE_RADIUS = 7.2` for every eye
position; and at the initial eye state, where `ez = LOOKAT_Z = 1.0`, the near
value is `-0.2`, so the arguments are not valid. -/
theorem C24_frustum_validity (ex ey ez : ℚ) :
    (frustumValid (MakeReflectionImage_glFrustum ⟨ex, ey, ez⟩) ↔ TABLETOP_Z < ez) ∧
    (MakeReflectionImage_glFrustum ⟨ex, ey, ez⟩).farVal -
      (MakeReflectionImage_glFrustum ⟨ex, ey, ez⟩).nearVal = TABLETOP_Z + SCENE_RADIUS ∧
    TABLETOP_Z + SCENE_RADIUS = 36 / 5 ∧
    (MyDisplay_eyePos initialGlobals).z = ((LOOKAT_Z : ℚ) : ℝ) ∧ LOOKAT_Z = 1 ∧
    (MakeReflectionImage_glFrustum ⟨ex, ey, LOOKAT_Z⟩).nearVal = -1 / 5 ∧
    ¬ frustumValid (MakeReflectionImage_glFrustum ⟨ex, ey, LOOKAT_Z⟩) := by
  refine ⟨mirror_frustum_valid_iff ex ey ez, ?_, ?_, ?_, rfl, ?_, ?_⟩
  · simp only [MakeReflectionImage_glFrustum]
    ring
  · norm_num [TABLETOP_Z, SCENE_RADIUS]
  · simp [MyDisplay_eyePos, initialGlobals, LOOKAT_Z]
  · simp only [MakeReflectionImage_glFrustum, LOOKAT_Z, TABLETOP_Z]
    norm_num
  · rw [mirror_frustum_valid_iff]
    norm_num [LOOKAT_Z, TABLETOP_Z]

/-- C25: for every latitude, longitude and distance, the eye position
`MyDisplay` derives from the spherical coordinates (with exact real sine and
cosine) lies on the sphere of radius `eyeDistance` about the look-at point. -/
theorem C25_eye_on_sphere (g : Globals) :
    ((MyDisplay_eyePos g).x - (LOOKAT_X : ℝ)) ^ 2 + ((MyDisplay_eyePos g).y - (LOOKAT_Y : ℝ)) ^ 2
      + ((MyDisplay_eyePos g).z - (LOOKAT_Z : ℝ)) ^ 2 = (g.eyeDistance : ℝ) ^ 2 := by
  simp only [MyDisplay_eyePos]
  have h1 := Real.sin_sq_add_cos_sq ((g.eyeLatitude : ℝ) * Real.pi / 180)
  have h2 := Real.sin_sq_add_cos_sq ((g.eyeLongitude : ℝ) * Real.pi / 180)
  linear_combination
    ((g.eyeDistance : ℝ) ^ 2 * Real.cos ((g.eyeLatitude : ℝ) * Real.pi / 180) ^ 2) * h2
      + (g.eyeDistance : ℝ) ^ 2 * h1

end ReflectionAndTexturing
